import Mathlib

/-!
# PromptGenius: the prompt enhancer (`promptEnhancer.js`)

A shallow embedding of the analyzer (`sanitize`, `detectIntent`, `extractConstraints`) and of
the two composers (`enhancePrompt` through `applyTemplate`, and `generateCRISPE`), of the copies
of them in `content.js` (namespace `Content`) and `popup.js` (namespace `Popup`), of the
enhance handler of the content script, and of the two composers as programs on a store of
objects, followed by the properties proved about them.

Conventions of the embedding.

* A string is the list of its characters (`Str`). None of the patterns of the program carries the
  `u` flag and all of their literal characters are ASCII, so every test the program makes on a
  character (white space, digit, word character, equality up to case with an ASCII letter) is a
  test on one character of the list.
* `null` and `undefined` are `none`; an options record is a structure of optional fields, a
  field being `none` when the key is not set.
* `String.prototype.toLowerCase` is the one host function that is not modelled; `detectIntent`
  takes it as its first argument. `asciiToLowerCase` is what it computes on ASCII text.
* The number stored in the `length` slot is the natural number that the digits denote. The
  program holds it as a double, which is that natural number as long as it is below `2 ^ 53`,
  and a template literal then prints its decimal digits; from `2 ^ 53` on the double is a
  rounded value, printed with an exponent from `1e21` on. Whether a number is zero does not
  depend on the rounding. The properties that state the value of the number or its text carry
  the bound `2 ^ 53` (`LengthIsExact`).
-/

set_option maxRecDepth 100000

namespace PromptGenius

/-- A string: the sequence of its characters. -/
abbrev Str := List Char

/-! ## Character classes of the regular expressions -/

/-- The class `\s`, which is also the set that `trim` strips: white space and line ends. -/
def isSpace (c : Char) : Bool :=
  let n := c.toNat
  n == 9 || n == 10 || n == 11 || n == 12 || n == 13 || n == 32 || n == 160 || n == 5760 ||
    (8192 ≤ n && n ≤ 8202) || n == 8232 || n == 8233 || n == 8239 || n == 8287 ||
    n == 12288 || n == 65279

/-- The class `\d`. -/
def isDigit (c : Char) : Bool :=
  48 ≤ c.toNat && c.toNat ≤ 57

/-- The word characters that `\b` looks at: ASCII letters, digits and the underscore. -/
def isWordChar (c : Char) : Bool :=
  let n := c.toNat
  (97 ≤ n && n ≤ 122) || (65 ≤ n && n ≤ 90) || (48 ≤ n && n ≤ 57) || n == 95

/-- Canonical form of a character under the `i` flag, as far as a comparison with an ASCII
pattern character can tell: an ASCII lower-case letter becomes its upper-case letter, and no
character outside ASCII is ever identified with an ASCII one. -/
def canonicalize (c : Char) : Nat :=
  if 97 ≤ c.toNat ∧ c.toNat ≤ 122 then c.toNat - 32 else c.toNat

/-! ## `sanitize` -/

/-- The call `replace(/\s+/g, ' ')`: every maximal run of white space becomes one space. The
flag tells whether the previous character belonged to a run. -/
def replaceSpaces (inRun : Bool) : Str → Str
  | [] => []
  | c :: cs =>
    if isSpace c then
      if inRun then replaceSpaces true cs else ' ' :: replaceSpaces true cs
    else c :: replaceSpaces false cs

/-- The method `trim`: white space removed at both ends. -/
def trim (s : Str) : Str :=
  ((s.dropWhile isSpace).reverse.dropWhile isSpace).reverse

/-- The function `sanitize`: `input.replace(/\s+/g, ' ').trim()`. -/
def sanitize (input : Str) : Str :=
  trim (replaceSpaces false input)

/-! ## `detectIntent` -/

/-- The six values `detectIntent` can return. -/
inductive Intent where
  | coding
  | creative
  | explanation
  | professional
  | academic
  | general
  deriving DecidableEq, Repr

/-- Whether `kw` is an initial segment of `t`. -/
def startsWith : Str → Str → Bool
  | _, [] => true
  | [], _ :: _ => false
  | c :: cs, k :: ks => c == k && startsWith cs ks

/-- The method `includes`: `kw` occurs in `t` at some position. -/
def includes : Str → Str → Bool
  | [], kw => startsWith [] kw
  | c :: cs, kw => startsWith (c :: cs) kw || includes cs kw

/-- The table `keywords` of `detectIntent`, in the order of its keys. -/
def keywords : List (Intent × List Str) :=
  [ (Intent.coding,
      ["code".toList, "function".toList, "implement".toList, "debug".toList,
       "algorithm".toList, "unit test".toList, "typescript".toList, "javascript".toList,
       "python".toList]),
    (Intent.creative,
      ["story".toList, "poem".toList, "song".toList, "character".toList, "plot".toList,
       "narrative".toList]),
    (Intent.explanation,
      ["explain".toList, "what is".toList, "how does".toList, "why".toList,
       "difference".toList, "describe".toList]),
    (Intent.professional,
      ["email".toList, "draft".toList, "report".toList, "proposal".toList, "summary".toList]),
    (Intent.academic,
      ["essay".toList, "thesis".toList, "research".toList, "study".toList,
       "explain like i\x27m".toList]) ]

/-- The function `detectIntent`: the first entry of the table one of whose keywords occurs in
the lower-cased text, `general` when there is none. -/
def detectIntent (toLowerCase : Str → Str) (text : Str) : Intent :=
  let t := toLowerCase text
  match keywords.find? (fun entry => entry.2.any (fun kw => includes t kw)) with
  | some entry => entry.1
  | none => Intent.general

/-- Lower-casing of ASCII text: the letters `A` to `Z` become `a` to `z`. -/
def asciiToLowerCase (s : Str) : Str :=
  s.map (fun c => if 65 ≤ c.toNat ∧ c.toNat ≤ 90 then Char.ofNat (c.toNat + 32) else c)

/-! ## Regular-expression matching -/

/-- A literal of a pattern matched up to case at the start of the input: the matched text as
it stands in the input, and the rest of the input. -/
def matchLit : Str → Str → Option (Str × Str)
  | [], s => some ([], s)
  | _ :: _, [] => none
  | p :: ps, c :: cs =>
    if canonicalize p = canonicalize c then
      match matchLit ps cs with
      | some (m, r) => some (c :: m, r)
      | none => none
    else none

/-- The ways a greedy repetition over the class `p` can split the input into what it takes
and what it leaves, in the order the matcher tries them: longest first. -/
def greedySplits (p : Char → Bool) : Str → List (Str × Str)
  | [] => [([], [])]
  | c :: cs =>
    if p c then (greedySplits p cs).map (fun x => (c :: x.1, x.2)) ++ [([], c :: cs)]
    else [([], c :: cs)]

/-- The search of `match` and `test` for a pattern without the `g` flag: the pattern is tried
at every position from the left, the end of the input included; `prev` is the character before
the position, `none` at the start of the input. -/
def firstMatch {α : Type} (m : Option Char → Str → Option α) (prev : Option Char) :
    Str → Option α
  | [] => m prev []
  | c :: cs =>
    match m prev (c :: cs) with
    | some r => some r
    | none => firstMatch m (some c) cs

/-- The assertion `\b` between the character `before` and the character `next`: exactly one
of the two is a word character; the start and the end of the input count as no word
character. -/
def atBoundary (before next : Option Char) : Bool :=
  (match before with | some c => isWordChar c | none => false) !=
    (match next with | some c => isWordChar c | none => false)

/-! ## `extractConstraints` -/

/-- The group `(words|word|words?)` at the start of the input. -/
def matchWords (s : Str) : Bool :=
  (matchLit "words".toList s).isSome || (matchLit "word".toList s).isSome ||
    (match matchLit "word".toList s with
     | some (_, r) => (matchLit "s".toList r).isSome || (matchLit [] r).isSome
     | none => false)

/-- The pattern `/(\d+)\s*(words|word|words?)/i` at one position: the text of its first
group. -/
def matchLength (_before : Option Char) (s : Str) : Option Str :=
  (greedySplits isDigit s).findSome? fun d =>
    if d.1 = [] then none
    else (greedySplits isSpace d.2).findSome? fun w =>
      if matchWords w.2 then some d.1 else none

/-- The value `parseInt(ds, 10)` for a string of decimal digits, as the natural number the
digits denote. The program holds the double nearest to it: the same number below `2 ^ 53`, a
rounded one from there on. -/
def parseInt (ds : Str) : Nat :=
  ds.foldl (fun acc c => 10 * acc + (c.toNat - 48)) 0

/-- The alternatives of the audience pattern, in its order. -/
def audienceWords : List Str :=
  ["beginners".toList, "experts".toList, "students".toList, "children".toList, "kids".toList]

/-- The pattern `/for (beginners|experts|students|children|kids)/i` at one position: the text
of its group. -/
def matchAudience (_before : Option Char) (s : Str) : Option Str :=
  match matchLit "for ".toList s with
  | some (_, r) => audienceWords.findSome? fun w => (matchLit w r).map Prod.fst
  | none => none

/-- The alternatives of the tone pattern, in its order. -/
def toneWords : List Str :=
  ["formal".toList, "informal".toList, "casual".toList, "professional".toList,
   "friendly".toList, "technical".toList, "creative".toList]

/-- The pattern `/\b(formal|informal|casual|professional|friendly|technical|creative)\b/i` at
one position: the text of its group. -/
def matchTone (before : Option Char) (s : Str) : Option Str :=
  if atBoundary before s.head? then
    toneWords.findSome? fun w =>
      match matchLit w s with
      | some (m, r) => if atBoundary m.getLast? r.head? then some m else none
      | none => none
  else none

/-- The record `slots`: a field is `none` when the key was not set. -/
structure Slots where
  length : Option Nat := none
  audience : Option Str := none
  tone : Option Str := none
  deriving DecidableEq, Repr

/-- The function `extractConstraints`. -/
def extractConstraints (text : Str) : Slots :=
  { length := (firstMatch matchLength none text).map parseInt
    audience := firstMatch matchAudience none text
    tone := firstMatch matchTone none text }

/-! ## Options and style templates -/

/-- An options record; a field is `none` when the key is not set. -/
structure Options where
  style : Option Str := none
  provider : Option Str := none
  aggressiveness : Option Int := none
  roleIntro : Option Str := none
  examples : Option Str := none
  context : Option Str := none
  deriving DecidableEq, Repr

/-- The constant `DEFAULTS`. -/
def DEFAULTS : Options :=
  { style := some "professional".toList
    provider := some "chatgpt".toList
    aggressiveness := some 1 }

/-- The call `Object.assign({}, DEFAULTS, opts)`: the keys set in `opts` win. -/
def assignDefaults (opts : Options) : Options :=
  { style := match opts.style with | some v => some v | none => DEFAULTS.style
    provider := match opts.provider with | some v => some v | none => DEFAULTS.provider
    aggressiveness :=
      match opts.aggressiveness with | some v => some v | none => DEFAULTS.aggressiveness
    roleIntro := opts.roleIntro
    examples := opts.examples
    context := opts.context }

/-- An entry of `styleTemplates`. -/
structure Template where
  prefixText : Str
  defaults : Str
  lengthHint : Str
  deriving DecidableEq, Repr

/-- The table `styleTemplates`. -/
def styleTemplates : List (Str × Template) :=
  [ ("professional".toList,
      { prefixText := "Provide a clear, professional response. ".toList
        defaults := "Be concise and formal. Include examples if applicable. ".toList
        lengthHint := [] }),
    ("creative".toList,
      { prefixText := "Write with imaginative, expressive language. ".toList
        defaults := "Use sensory details and unexpected turns. ".toList
        lengthHint := [] }),
    ("technical".toList,
      { prefixText := "Be precise and technical. ".toList
        defaults := "Include code examples or exact steps when relevant. ".toList
        lengthHint := [] }),
    ("concise".toList,
      { prefixText := "Be concise and to the point. ".toList
        defaults := "Limit to the essentials and avoid fluff. ".toList
        lengthHint := [] }) ]

/-- The property names that the object literal `styleTemplates` inherits from
`Object.prototype`. Each names a function or an object, a truthy value that has neither a
`prefix` nor a `defaults` property. -/
def objectPrototypeKeys : List Str :=
  ["constructor".toList, "__proto__".toList, "hasOwnProperty".toList, "isPrototypeOf".toList,
   "propertyIsEnumerable".toList, "toLocaleString".toList, "toString".toList,
   "valueOf".toList, "__defineGetter__".toList, "__defineSetter__".toList,
   "__lookupGetter__".toList, "__lookupSetter__".toList]

/-- The value of `styleTemplates[style] || styleTemplates['professional']`: an entry of the
table, or `none` for an inherited member of the object, whose `prefix` and `defaults` are
`undefined`. -/
def selectTemplate (style : Option Str) : Option Template :=
  match style with
  | some key =>
    match styleTemplates.lookup key with
    | some t => some t
    | none =>
      if objectPrototypeKeys.contains key then none
      else styleTemplates.lookup "professional".toList
  | none => styleTemplates.lookup "professional".toList

/-- What `join` makes of an array element that may be `undefined`: the empty string. -/
def joinElem (x : Option Str) : Str :=
  match x with
  | some s => s
  | none => []

/-! ## `applyTemplate` and `enhancePrompt` -/

/-- The value of `rawText || ''`: the empty string for `null` and `undefined`. -/
def orEmpty (rawText : Option Str) : Str :=
  match rawText with
  | some s => s
  | none => []

/-- The pattern `/\?$/i` at one position. -/
def matchQuestionMark (_before : Option Char) (s : Str) : Option Unit :=
  match matchLit "?".toList s with
  | some (_, []) => some ()
  | _ => none

/-- The pattern `/^how|what|why|explain/i` at one position: the alternatives are `^how`,
`what`, `why` and `explain`, and `^` holds at the start of the input only. -/
def matchQuestionWord (before : Option Char) (s : Str) : Option Unit :=
  if before = none ∧ (matchLit "how".toList s).isSome then some ()
  else if (matchLit "what".toList s).isSome then some ()
  else if (matchLit "why".toList s).isSome then some ()
  else if (matchLit "explain".toList s).isSome then some ()
  else none

/-- The constant `isQuestion` of `applyTemplate`. -/
def isQuestion (text : Str) : Bool :=
  (firstMatch matchQuestionMark none text).isSome ||
    (firstMatch matchQuestionWord none text).isSome

/-- The piece that frames the text of the user. -/
def framingPiece (text : Str) : Str :=
  if isQuestion text then "Answer the following request: \"".toList ++ text ++ "\". ".toList
  else "Perform this task: \"".toList ++ text ++ "\". ".toList

/-- The pieces pushed by the chain of tests on `intent`. -/
def intentPieces (intent : Intent) : List Str :=
  if intent = Intent.coding then
    ["Provide code examples, edge cases, and test cases where relevant. ".toList]
  else if intent = Intent.creative then
    ["Include vivid descriptions, character details, and an engaging opening. ".toList]
  else if intent = Intent.explanation ∨ intent = Intent.academic then
    ["Break the explanation into short paragraphs or numbered steps. Include examples and analogies. ".toList]
  else if intent = Intent.professional then
    ["Use a formal tone and include a short summary at the end. ".toList]
  else []

/-- The text of a number of the `length` slot in a template literal, for a number below
`2 ^ 53`: its decimal digits. From `2 ^ 53` on the program prints the rounded double, with an
exponent from `1e21` on, which this text is not. -/
def numberToString (n : Nat) : Str :=
  Nat.toDigits 10 n

/-- The pieces pushed for the slots: a slot is used when its value is truthy. -/
def slotPieces (slots : Slots) : List Str :=
  (match slots.audience with
    | some a => if a ≠ [] then ["Target the response to ".toList ++ a ++ ". ".toList] else []
    | none => []) ++
  (match slots.length with
    | some n =>
      if n ≠ 0 then
        ["Keep the response around ".toList ++ numberToString n ++ " words. ".toList]
      else []
    | none => []) ++
  (match slots.tone with
    | some t => if t ≠ [] then ["Maintain a ".toList ++ t ++ " tone. ".toList] else []
    | none => [])

/-- The piece pushed when `options.provider === 'chatgpt'`. -/
def providerPieces (options : Options) : List Str :=
  if options.provider = some "chatgpt".toList then
    ["Format code blocks using triple backticks if including code. ".toList]
  else []

/-- The piece pushed when `options.aggressiveness > 1`. -/
def aggressivenessPieces (options : Options) : List Str :=
  match options.aggressiveness with
  | some a =>
    if a > 1 then
      ["Add helpful assumptions where necessary, and propose follow-up questions the user might want to ask. ".toList]
    else []
  | none => []

/-- The array `pieces` of `applyTemplate` when it is joined. -/
def templatePieces (intent : Intent) (style : Option Str) (text : Str) (slots : Slots)
    (options : Options) : List Str :=
  let template := selectTemplate style
  [joinElem (template.map Template.prefixText)] ++
    [framingPiece text] ++
    intentPieces intent ++
    [joinElem (template.map Template.defaults)] ++
    slotPieces slots ++
    providerPieces options ++
    aggressivenessPieces options

/-- The function `applyTemplate`: the pieces joined, white space collapsed and trimmed. -/
def applyTemplate (intent : Intent) (style : Option Str) (text : Str) (slots : Slots)
    (options : Options) : Str :=
  trim (replaceSpaces false (templatePieces intent style text slots options).flatten)

/-- The function `enhancePrompt`; `rawText` is `none` for `null` and `undefined`. -/
def enhancePrompt (toLowerCase : Str → Str) (rawText : Option Str) (opts : Options) : Str :=
  let options := assignDefaults opts
  let text := sanitize (orEmpty rawText)
  if text = [] then []
  else
    let intent := detectIntent toLowerCase text
    let slots := extractConstraints text
    applyTemplate intent options.style text slots options

/-! ## `generateCRISPE` -/

/-- The value of `x || fallback` for an optional string: the fallback replaces `undefined` and
the empty string. -/
def orElseStr (x : Option Str) (fallback : Str) : Str :=
  match x with
  | some s => if s ≠ [] then s else fallback
  | none => fallback

/-- The array `hints` of `generateCRISPE`. -/
def crispeHints (slots : Slots) : List Str :=
  (match slots.audience with
    | some a => if a ≠ [] then ["Audience: ".toList ++ a] else []
    | none => []) ++
  (match slots.length with
    | some n =>
      if n ≠ 0 then ["Length: approx ".toList ++ numberToString n ++ " words".toList] else []
    | none => [])

/-- The array `lines` of `generateCRISPE` when it is joined. -/
def crispeLines (text : Str) (slots : Slots) (opts : Options) : List Str :=
  let roleIntro := orElseStr opts.roleIntro
    "You are a specialized professional with expertise in creating high-quality content.".toList
  let examples := orElseStr opts.examples []
  let context := orElseStr opts.context []
  let hints := crispeHints slots
  ["# Expert Role Assignment".toList, roleIntro, []] ++
  ["# Task & Purpose".toList,
   "Create a detailed, comprehensive response based on this request: \"".toList ++ text ++
     "\"".toList] ++
  (if context ≠ [] then ["\nContext: ".toList ++ context] else []) ++
  [[]] ++
  ["# Content Structure".toList,
   "Organize your response with clear sections, logical flow, and appropriate hierarchy. Use headings, short paragraphs, and lists where helpful.".toList,
   []] ++
  ["# Required Elements".toList,
   "- Include specific, actionable information rather than general statements".toList,
   "- Provide concrete examples or applications where appropriate".toList,
   "- Address all key aspects of the request with appropriate depth".toList,
   "- Incorporate relevant context and background information".toList,
   []] ++
  ["# Style & Approach".toList,
   "- Use natural, professional language that avoids AI-sounding patterns".toList,
   "- Maintain a balanced tone that matches the subject matter".toList,
   "- Employ clear, precise terminology appropriate to the topic".toList,
   "- Write in active voice with concise, well-structured sentences".toList,
   []] ++
  ["# Quality Standards".toList,
   "- Ensure factual accuracy and logical consistency throughout".toList,
   "- Provide sufficient detail to be genuinely useful".toList,
   "- Maintain appropriate scope - neither too broad nor too narrow".toList,
   "- Create content that demonstrates domain expertise".toList,
   []] ++
  ["# Output Format".toList,
   "Present your response in a well-structured format with clear headings, concise paragraphs, and appropriate use of formatting to highlight key points. Follow the structure above when composing the final answer.".toList,
   []] ++
  (if hints ≠ [] then
    ["## Additional Hints".toList] ++ hints.map (fun h => "- ".toList ++ h) ++ [[]]
   else []) ++
  (if examples ≠ [] then ["## Examples".toList, examples, []] else []) ++
  ["Now, produce the requested response following the instructions above.".toList]

/-- The function `generateCRISPE`; `rawText` is `none` for `null` and `undefined`. The intent
is computed and not used, as is the style hint. -/
def generateCRISPE (toLowerCase : Str → Str) (rawText : Option Str) (opts : Options) : Str :=
  let text := sanitize (orEmpty rawText)
  if text = [] then []
  else
    let _intent := detectIntent toLowerCase text
    let slots := extractConstraints text
    let _styleHint := orElseStr opts.style (joinElem DEFAULTS.style)
    "\n".toList.intercalate (crispeLines text slots opts)

/-! ## Notions used to state the properties -/

/-- No two neighbours are both white space. -/
def NoDoubleSpace (s : Str) : Prop :=
  List.Chain' (fun a b => ¬ (isSpace a = true ∧ isSpace b = true)) s

/-- The string `kw` occurs in `t`: `t` is `kw` with something before and something after. -/
def Occurs (kw t : Str) : Prop :=
  ∃ pre post, t = pre ++ kw ++ post

/-- The keywords the table lists for an intent. -/
def keywordsOf (i : Intent) : List Str :=
  match keywords.lookup i with
  | some l => l
  | none => []

/-- Some keyword of the intent `i` occurs in the lower-cased text `t`. -/
def HasKeyword (t : Str) (i : Intent) : Prop :=
  ∃ kw ∈ keywordsOf i, Occurs kw t

/-- Two strings are equal up to the case of their ASCII letters. -/
def EqIgnoreCase (a b : Str) : Prop :=
  a.map canonicalize = b.map canonicalize

/-- A pattern `P` has its first occurrence in `text` with value `v`: `P` holds of some position
(given by the character before it and the text from it on) with `v`, and at no position further
left with any value. -/
def FirstOccurrence {α : Type} (P : Option Char → Str → α → Prop) (text : Str) (v : α) : Prop :=
  ∃ pre post, text = pre ++ post ∧ P pre.getLast? post v ∧
    ∀ pre' post' v', text = pre' ++ post' → pre'.length < pre.length →
      ¬ P pre'.getLast? post' v'

/-- A pattern `P` occurs nowhere in `text`. -/
def NoOccurrence {α : Type} (P : Option Char → Str → α → Prop) (text : Str) : Prop :=
  ∀ pre post v, text = pre ++ post → ¬ P pre.getLast? post v

/-- The length pattern matches at the start of `s` with the digits `ds`: `s` is `ds`, a
non-empty run of digits, then white space (possibly none), then `word` in any case, then
anything. -/
def LengthAt (_before : Option Char) (s ds : Str) : Prop :=
  ∃ ws w rest, s = ds ++ ws ++ w ++ rest ∧ ds ≠ [] ∧ (∀ c ∈ ds, isDigit c = true) ∧
    (∀ c ∈ ws, isSpace c = true) ∧ EqIgnoreCase w "word".toList

/-- The audience pattern matches at the start of `s` with the word `m`: `s` is `for` and a
space in any case, then `m`, one of the five audience words in any case, then anything. -/
def AudienceAt (_before : Option Char) (s m : Str) : Prop :=
  ∃ f rest, s = f ++ m ++ rest ∧ EqIgnoreCase f "for ".toList ∧
    ∃ w ∈ audienceWords, EqIgnoreCase m w

/-- The tone pattern matches at the start of `s`, after the character `before`, with the word
`m`: `s` is `m`, one of the seven tone words in any case, then anything, and neither the
character before `m` nor the character after it is a word character. -/
def ToneAt (before : Option Char) (s m : Str) : Prop :=
  ∃ rest, s = m ++ rest ∧ (∃ w ∈ toneWords, EqIgnoreCase m w) ∧
    (∀ c, before = some c → isWordChar c = false) ∧
    (∀ c, rest.head? = some c → isWordChar c = false)

/-- The number of the length slot, when there is one, is below `2 ^ 53`: the double the
program holds is then the natural number of the model, and the text a template literal prints
for it is its decimal digits. -/
def LengthIsExact (slots : Slots) : Prop :=
  ∀ n, slots.length = some n → n < 2 ^ 53

/-- No word of the list is, up to case, an initial segment of another one. -/
def PrefixFree (words : List Str) : Prop :=
  ∀ w ∈ words, ∀ w' ∈ words, w.map canonicalize <+: w'.map canonicalize → w = w'

/-- An ASCII letter. -/
def isLetter (c : Char) : Bool :=
  (65 ≤ c.toNat && c.toNat ≤ 90) || (97 ≤ c.toNat && c.toNat ≤ 122)

/-- A pattern `P` occurs somewhere in `text`. -/
def SomeOccurrence {α : Type} (P : Option Char → Str → α → Prop) (text : Str) : Prop :=
  ∃ pre post v, text = pre ++ post ∧ P pre.getLast? post v

/-- White space is in order in `x`: every white space character is a space and no two of them
are neighbours; `afterSpace` tells whether the character before `x` is white space. -/
def spacedOk (afterSpace : Bool) : Str → Bool
  | [] => true
  | c :: cs =>
    if isSpace c then c == ' ' && !afterSpace && spacedOk true cs else spacedOk false cs

/-- Whether the character at the end of `x` is white space; `b` answers for the empty string. -/
def endsSpace (b : Bool) (x : Str) : Bool :=
  match x.getLast? with
  | some c => isSpace c
  | none => b

/-- A piece that is empty, or that has its white space in order, does not start with white space
and ends with one space. -/
def goodPiece (p : Str) : Bool :=
  p.isEmpty || (spacedOk true p && p.getLast? == some ' ')

/-- The values of the audience and tone slots contain no white space. -/
def SlotsSpaceFree (slots : Slots) : Prop :=
  (∀ a, slots.audience = some a → ∀ c ∈ a, isSpace c = false) ∧
    (∀ t, slots.tone = some t → ∀ c ∈ t, isSpace c = false)

/-- The lines of a string: what stands between its line feeds. -/
def splitLines : Str → List Str
  | [] => [[]]
  | c :: cs =>
    if c = '\n' then [] :: splitLines cs
    else
      match splitLines cs with
      | l :: ls => (c :: l) :: ls
      | [] => [[c]]

/-- The first two sections of the document of `generateCRISPE`: the role and the task. -/
def crispeOpening (text : Str) (opts : Options) : List Str :=
  ["# Expert Role Assignment".toList,
   orElseStr opts.roleIntro
     "You are a specialized professional with expertise in creating high-quality content.".toList,
   []] ++
  (["# Task & Purpose".toList,
    "Create a detailed, comprehensive response based on this request: \"".toList ++ text ++
      "\"".toList] ++
   (match opts.context with
    | some c => if c = [] then [] else ["\nContext: ".toList ++ c]
    | none => []) ++
   [[]])

/-- The five sections of the document that are the same for every text and all options. -/
def crispeFixedSections : List Str :=
  ["# Content Structure".toList,
   "Organize your response with clear sections, logical flow, and appropriate hierarchy. Use headings, short paragraphs, and lists where helpful.".toList,
   [],
   "# Required Elements".toList,
   "- Include specific, actionable information rather than general statements".toList,
   "- Provide concrete examples or applications where appropriate".toList,
   "- Address all key aspects of the request with appropriate depth".toList,
   "- Incorporate relevant context and background information".toList,
   [],
   "# Style & Approach".toList,
   "- Use natural, professional language that avoids AI-sounding patterns".toList,
   "- Maintain a balanced tone that matches the subject matter".toList,
   "- Employ clear, precise terminology appropriate to the topic".toList,
   "- Write in active voice with concise, well-structured sentences".toList,
   [],
   "# Quality Standards".toList,
   "- Ensure factual accuracy and logical consistency throughout".toList,
   "- Provide sufficient detail to be genuinely useful".toList,
   "- Maintain appropriate scope - neither too broad nor too narrow".toList,
   "- Create content that demonstrates domain expertise".toList,
   [],
   "# Output Format".toList,
   "Present your response in a well-structured format with clear headings, concise paragraphs, and appropriate use of formatting to highlight key points. Follow the structure above when composing the final answer.".toList,
   []]

/-- The section of hints of the document: absent when no hint is made. -/
def crispeHintsSection (slots : Slots) : List Str :=
  if crispeHints slots ≠ [] then
    ["## Additional Hints".toList] ++ (crispeHints slots).map (fun h => "- ".toList ++ h) ++ [[]]
  else []

/-- The section of examples of the document: absent when no example is given. -/
def crispeExamplesSection (opts : Options) : List Str :=
  match opts.examples with
  | some e => if e = [] then [] else ["## Examples".toList, e, []]
  | none => []

/-- The line that closes the document. -/
def crispeClosingLine : Str :=
  "Now, produce the requested response following the instructions above.".toList

/-- A line that starts with two hash signs and a space. -/
def IsSubheading (h : Str) : Prop :=
  startsWith h "## ".toList = true

/-- The pieces of a string between its white space characters: the string cut at every white
space character, so that a run of white space leaves empty pieces. -/
def spaceSegments : Str → List Str
  | [] => [[]]
  | c :: cs =>
    if isSpace c then [] :: spaceSegments cs
    else
      match spaceSegments cs with
      | l :: ls => (c :: l) :: ls
      | [] => [[c]]

/-- The words of a string: its maximal runs of characters that are not white space, in the
order in which they stand in the string. -/
def words (s : Str) : List Str :=
  (spaceSegments s).filter (fun w => !w.isEmpty)

/-! ## The copy of the enhancer in the content script (`content.js`) -/

/-- A literal of a pattern without the `i` flag at the start of the input: the matched text
and the rest of the input. -/
def matchLitExact : Str → Str → Option (Str × Str)
  | [], s => some ([], s)
  | _ :: _, [] => none
  | p :: ps, c :: cs =>
    if p = c then
      match matchLitExact ps cs with
      | some (m, r) => some (c :: m, r)
      | none => none
    else none

namespace Content

/-- The constant `DEFAULTS` of `content.js`. -/
def DEFAULTS : Options :=
  { style := some "professional".toList
    provider := some "chatgpt".toList
    aggressiveness := some 1 }

/-- The table `styleTemplates` of `content.js`. -/
def styleTemplates : List (Str × Template) :=
  [ ("professional".toList,
      { prefixText := "Provide a clear, professional response. ".toList
        defaults := "Be concise and formal. Include examples if applicable. ".toList
        lengthHint := [] }),
    ("creative".toList,
      { prefixText := "Write with imaginative, expressive language. ".toList
        defaults := "Use sensory details and unexpected turns. ".toList
        lengthHint := [] }),
    ("technical".toList,
      { prefixText := "Be precise and technical. ".toList
        defaults := "Include code examples or exact steps when relevant. ".toList
        lengthHint := [] }),
    ("concise".toList,
      { prefixText := "Be concise and to the point. ".toList
        defaults := "Limit to the essentials and avoid fluff. ".toList
        lengthHint := [] }) ]

/-- The function `sanitize` of `content.js`. -/
def sanitize (input : Str) : Str :=
  trim (replaceSpaces false input)

/-- The table `keywords` of `detectIntent` in `content.js`, in the order of its keys. -/
def keywords : List (Intent × List Str) :=
  [ (Intent.coding,
      ["code".toList, "function".toList, "implement".toList, "debug".toList,
       "algorithm".toList, "unit test".toList, "typescript".toList, "javascript".toList,
       "python".toList]),
    (Intent.creative,
      ["story".toList, "poem".toList, "song".toList, "character".toList, "plot".toList,
       "narrative".toList]),
    (Intent.explanation,
      ["explain".toList, "what is".toList, "how does".toList, "why".toList,
       "difference".toList, "describe".toList]),
    (Intent.professional,
      ["email".toList, "draft".toList, "report".toList, "proposal".toList, "summary".toList]),
    (Intent.academic,
      ["essay".toList, "thesis".toList, "research".toList, "study".toList,
       "explain like i\x27m".toList]) ]

/-- The function `detectIntent` of `content.js`. -/
def detectIntent (toLowerCase : Str → Str) (text : Str) : Intent :=
  let t := toLowerCase text
  match keywords.find? (fun entry => entry.2.any (fun kw => includes t kw)) with
  | some entry => entry.1
  | none => Intent.general

/-- The pattern `/(\d+)\s*(words|word|words?)/i` of `content.js` at one position: the text of its
first group. -/
def matchLength (_before : Option Char) (s : Str) : Option Str :=
  (greedySplits isDigit s).findSome? fun d =>
    if d.1 = [] then none
    else (greedySplits isSpace d.2).findSome? fun w =>
      if (matchLit "words".toList w.2).isSome || (matchLit "word".toList w.2).isSome ||
          (match matchLit "word".toList w.2 with
           | some (_, r) => (matchLit "s".toList r).isSome || (matchLit [] r).isSome
           | none => false)
      then some d.1 else none

/-- The pattern `/for (beginners|experts|students|children|kids)/i` of `content.js` at one
position: the text of its group. -/
def matchAudience (_before : Option Char) (s : Str) : Option Str :=
  match matchLit "for ".toList s with
  | some (_, r) =>
    ["beginners".toList, "experts".toList, "students".toList, "children".toList,
     "kids".toList].findSome? fun w => (matchLit w r).map Prod.fst
  | none => none

/-- The pattern `/\b(formal|informal|casual|professional|friendly|technical|creative)\b/i` of
`content.js` at one position: the text of its group. -/
def matchTone (before : Option Char) (s : Str) : Option Str :=
  if atBoundary before s.head? then
    ["formal".toList, "informal".toList, "casual".toList, "professional".toList,
     "friendly".toList, "technical".toList, "creative".toList].findSome? fun w =>
      match matchLit w s with
      | some (m, r) => if atBoundary m.getLast? r.head? then some m else none
      | none => none
  else none

/-- The function `extractConstraints` of `content.js`. -/
def extractConstraints (text : Str) : Slots :=
  { length := (firstMatch matchLength none text).map parseInt
    audience := firstMatch matchAudience none text
    tone := firstMatch matchTone none text }

/-- The pattern `/\?$/` of `content.js` at one position; it has no `i` flag. -/
def matchQuestionMark (_before : Option Char) (s : Str) : Option Unit :=
  match matchLitExact "?".toList s with
  | some (_, []) => some ()
  | _ => none

/-- The pattern `/^how|what|why|explain/i` of `content.js` at one position. -/
def matchQuestionWord (before : Option Char) (s : Str) : Option Unit :=
  if before = none ∧ (matchLit "how".toList s).isSome then some ()
  else if (matchLit "what".toList s).isSome then some ()
  else if (matchLit "why".toList s).isSome then some ()
  else if (matchLit "explain".toList s).isSome then some ()
  else none

/-- The function `applyTemplate` of `content.js`. The template is an entry of the table, or
`none` for an inherited member of the object, whose `prefix` and `defaults` are `undefined`. -/
def applyTemplate (intent : Intent) (style : Option Str) (text : Str) (slots : Slots)
    (options : Options) : Str :=
  let template : Option Template :=
    match style with
    | some key =>
      match styleTemplates.lookup key with
      | some t => some t
      | none =>
        if objectPrototypeKeys.contains key then none
        else styleTemplates.lookup "professional".toList
    | none => styleTemplates.lookup "professional".toList
  let isQuestion : Bool :=
    (firstMatch matchQuestionMark none text).isSome ||
      (firstMatch matchQuestionWord none text).isSome
  let pieces : List Str :=
    [joinElem (template.map Template.prefixText)] ++
    (if isQuestion then ["Answer the following request: \"".toList ++ text ++ "\". ".toList]
     else ["Perform this task: \"".toList ++ text ++ "\". ".toList]) ++
    (if intent = Intent.coding then
      ["Provide code examples, edge cases, and test cases where relevant. ".toList]
     else if intent = Intent.creative then
      ["Include vivid descriptions, character details, and an engaging opening. ".toList]
     else if intent = Intent.explanation ∨ intent = Intent.academic then
      ["Break the explanation into short paragraphs or numbered steps. Include examples and analogies. ".toList]
     else if intent = Intent.professional then
      ["Use a formal tone and include a short summary at the end. ".toList]
     else []) ++
    [joinElem (template.map Template.defaults)] ++
    (match slots.audience with
      | some a => if a ≠ [] then ["Target the response to ".toList ++ a ++ ". ".toList] else []
      | none => []) ++
    (match slots.length with
      | some n =>
        if n ≠ 0 then
          ["Keep the response around ".toList ++ numberToString n ++ " words. ".toList]
        else []
      | none => []) ++
    (match slots.tone with
      | some t => if t ≠ [] then ["Maintain a ".toList ++ t ++ " tone. ".toList] else []
      | none => []) ++
    (if options.provider = some "chatgpt".toList then
      ["Format code blocks using triple backticks if including code. ".toList]
     else []) ++
    (match options.aggressiveness with
      | some a =>
        if a > 1 then
          ["Add helpful assumptions where necessary, and propose follow-up questions the user might want to ask. ".toList]
        else []
      | none => [])
  trim (replaceSpaces false pieces.flatten)

/-- The function `enhancePrompt` of `content.js`; `options` is what `Object.assign` makes of
`DEFAULTS` and `opts`: the keys set in `opts` win. -/
def enhancePrompt (toLowerCase : Str → Str) (rawText : Option Str) (opts : Options) : Str :=
  let options : Options :=
    { style := match opts.style with | some v => some v | none => DEFAULTS.style
      provider := match opts.provider with | some v => some v | none => DEFAULTS.provider
      aggressiveness :=
        match opts.aggressiveness with | some v => some v | none => DEFAULTS.aggressiveness
      roleIntro := opts.roleIntro
      examples := opts.examples
      context := opts.context }
  let text := sanitize (orEmpty rawText)
  if text = [] then []
  else
    let intent := detectIntent toLowerCase text
    let slots := extractConstraints text
    applyTemplate intent options.style text slots options

/-- The function `generateCRISPE` of `content.js`; `rawText` is `none` for `null` and
`undefined`. This copy computes neither the intent nor a style hint. -/
def generateCRISPE (rawText : Option Str) (opts : Options) : Str :=
  let text := sanitize (orEmpty rawText)
  if text = [] then []
  else
    let slots := extractConstraints text
    let roleIntro := orElseStr opts.roleIntro
      "You are a specialized professional with expertise in creating high-quality content.".toList
    let examples := orElseStr opts.examples []
    let context := orElseStr opts.context []
    let hints : List Str :=
      (match slots.audience with
        | some a => if a ≠ [] then ["Audience: ".toList ++ a] else []
        | none => []) ++
      (match slots.length with
        | some n =>
          if n ≠ 0 then ["Length: approx ".toList ++ numberToString n ++ " words".toList]
          else []
        | none => [])
    "\n".toList.intercalate
      (["# Expert Role Assignment".toList, roleIntro, [],
        "# Task & Purpose".toList,
        "Create a detailed, comprehensive response based on this request: \"".toList ++ text ++
          "\"".toList] ++
       (if context ≠ [] then ["\nContext: ".toList ++ context] else []) ++
       [[],
        "# Content Structure".toList,
        "Organize your response with clear sections, logical flow, and appropriate hierarchy. Use headings, short paragraphs, and lists where helpful.".toList,
        [],
        "# Required Elements".toList,
        "- Include specific, actionable information rather than general statements".toList,
        "- Provide concrete examples or applications where appropriate".toList,
        "- Address all key aspects of the request with appropriate depth".toList,
        "- Incorporate relevant context and background information".toList,
        [],
        "# Style & Approach".toList,
        "- Use natural, professional language that avoids AI-sounding patterns".toList,
        "- Maintain a balanced tone that matches the subject matter".toList,
        "- Employ clear, precise terminology appropriate to the topic".toList,
        "- Write in active voice with concise, well-structured sentences".toList,
        [],
        "# Quality Standards".toList,
        "- Ensure factual accuracy and logical consistency throughout".toList,
        "- Provide sufficient detail to be genuinely useful".toList,
        "- Maintain appropriate scope - neither too broad nor too narrow".toList,
        "- Create content that demonstrates domain expertise".toList,
        [],
        "# Output Format".toList,
        "Present your response in a well-structured format with clear headings, concise paragraphs, and appropriate use of formatting to highlight key points. Follow the structure above when composing the final answer.".toList,
        []] ++
       (if hints ≠ [] then
         ["## Additional Hints".toList] ++ hints.map (fun h => "- ".toList ++ h) ++ [[]]
        else []) ++
       (if examples ≠ [] then ["## Examples".toList, examples, []] else []) ++
       ["Now, produce the requested response following the instructions above.".toList])

end Content

/-! ## The copy of the enhancer in the popup (`popup.js`) -/

namespace Popup

/-- The function `sanitize` of `popup.js`. -/
def sanitize (input : Str) : Str :=
  trim (replaceSpaces false input)

/-- The table `keywords` of `detectIntent` in `popup.js`, in the order of its keys. -/
def keywords : List (Intent × List Str) :=
  [ (Intent.coding,
      ["code".toList, "function".toList, "implement".toList, "debug".toList,
       "algorithm".toList, "unit test".toList, "typescript".toList, "javascript".toList,
       "python".toList]),
    (Intent.creative,
      ["story".toList, "poem".toList, "song".toList, "character".toList, "plot".toList,
       "narrative".toList]),
    (Intent.explanation,
      ["explain".toList, "what is".toList, "how does".toList, "why".toList,
       "difference".toList, "describe".toList]),
    (Intent.professional,
      ["email".toList, "draft".toList, "report".toList, "proposal".toList, "summary".toList]),
    (Intent.academic,
      ["essay".toList, "thesis".toList, "research".toList, "study".toList,
       "explain like i\x27m".toList]) ]

/-- The function `detectIntent` of `popup.js`. -/
def detectIntent (toLowerCase : Str → Str) (text : Str) : Intent :=
  let t := toLowerCase text
  match keywords.find? (fun entry => entry.2.any (fun kw => includes t kw)) with
  | some entry => entry.1
  | none => Intent.general

/-- The pattern `/(\d+)\s*(words|word|words?)/i` of `popup.js` at one position: the text of its
first group. -/
def matchLength (_before : Option Char) (s : Str) : Option Str :=
  (greedySplits isDigit s).findSome? fun d =>
    if d.1 = [] then none
    else (greedySplits isSpace d.2).findSome? fun w =>
      if (matchLit "words".toList w.2).isSome || (matchLit "word".toList w.2).isSome ||
          (match matchLit "word".toList w.2 with
           | some (_, r) => (matchLit "s".toList r).isSome || (matchLit [] r).isSome
           | none => false)
      then some d.1 else none

/-- The pattern `/for (beginners|experts|students|children|kids)/i` of `popup.js` at one
position: the text of its group. -/
def matchAudience (_before : Option Char) (s : Str) : Option Str :=
  match matchLit "for ".toList s with
  | some (_, r) =>
    ["beginners".toList, "experts".toList, "students".toList, "children".toList,
     "kids".toList].findSome? fun w => (matchLit w r).map Prod.fst
  | none => none

/-- The pattern `/\b(formal|informal|casual|professional|friendly|technical|creative)\b/i` of
`popup.js` at one position: the text of its group. -/
def matchTone (before : Option Char) (s : Str) : Option Str :=
  if atBoundary before s.head? then
    ["formal".toList, "informal".toList, "casual".toList, "professional".toList,
     "friendly".toList, "technical".toList, "creative".toList].findSome? fun w =>
      match matchLit w s with
      | some (m, r) => if atBoundary m.getLast? r.head? then some m else none
      | none => none
  else none

/-- The function `extractConstraints` of `popup.js`. -/
def extractConstraints (text : Str) : Slots :=
  { length := (firstMatch matchLength none text).map parseInt
    audience := firstMatch matchAudience none text
    tone := firstMatch matchTone none text }

/-- The function `generateCRISPE` of `popup.js`; `rawText` is `none` for `null` and
`undefined`. The intent is computed and not used, as is the style hint. -/
def generateCRISPE (toLowerCase : Str → Str) (rawText : Option Str) (opts : Options) : Str :=
  let text := sanitize (orEmpty rawText)
  if text = [] then []
  else
    let _intent := detectIntent toLowerCase text
    let slots := extractConstraints text
    let roleIntro := orElseStr opts.roleIntro
      "You are a specialized professional with expertise in creating high-quality content.".toList
    let _styleHint := orElseStr opts.style "professional".toList
    let examples := orElseStr opts.examples []
    let context := orElseStr opts.context []
    let hints : List Str :=
      (match slots.audience with
        | some a => if a ≠ [] then ["Audience: ".toList ++ a] else []
        | none => []) ++
      (match slots.length with
        | some n =>
          if n ≠ 0 then ["Length: approx ".toList ++ numberToString n ++ " words".toList]
          else []
        | none => [])
    "\n".toList.intercalate
      (["# Expert Role Assignment".toList, roleIntro, [],
        "# Task & Purpose".toList,
        "Create a detailed, comprehensive response based on this request: \"".toList ++ text ++
          "\"".toList] ++
       (if context ≠ [] then ["\nContext: ".toList ++ context] else []) ++
       [[],
        "# Content Structure".toList,
        "Organize your response with clear sections, logical flow, and appropriate hierarchy. Use headings, short paragraphs, and lists where helpful.".toList,
        [],
        "# Required Elements".toList,
        "- Include specific, actionable information rather than general statements".toList,
        "- Provide concrete examples or applications where appropriate".toList,
        "- Address all key aspects of the request with appropriate depth".toList,
        "- Incorporate relevant context and background information".toList,
        [],
        "# Style & Approach".toList,
        "- Use natural, professional language that avoids AI-sounding patterns".toList,
        "- Maintain a balanced tone that matches the subject matter".toList,
        "- Employ clear, precise terminology appropriate to the topic".toList,
        "- Write in active voice with concise, well-structured sentences".toList,
        [],
        "# Quality Standards".toList,
        "- Ensure factual accuracy and logical consistency throughout".toList,
        "- Provide sufficient detail to be genuinely useful".toList,
        "- Maintain appropriate scope - neither too broad nor too narrow".toList,
        "- Create content that demonstrates domain expertise".toList,
        [],
        "# Output Format".toList,
        "Present your response in a well-structured format with clear headings, concise paragraphs, and appropriate use of formatting to highlight key points. Follow the structure above when composing the final answer.".toList,
        []] ++
       (if hints ≠ [] then
         ["## Additional Hints".toList] ++ hints.map (fun h => "- ".toList ++ h) ++ [[]]
        else []) ++
       (if examples ≠ [] then ["## Examples".toList, examples, []] else []) ++
       ["Now, produce the requested response following the instructions above.".toList])

end Popup

/-! ## The enhance handler of the content script (`content.js`)

The browser is a parameter: what `chrome.storage.local.get` does with its callback, and what
`chrome.runtime.sendMessage` does with the message it is given. Each callback is called once.
The handler is modelled by what it passes to `setComposerText`. -/

namespace Content

/-- The response the callback of `sendMessage` receives, as far as it is read: whether `ok` is
truthy, and the properties `enhanced` and `error`, `none` when not set. -/
structure Response where
  ok : Bool
  enhanced : Option Str := none
  error : Option Str := none

/-- What a call of `chrome.runtime.sendMessage` does: it throws, or it calls the callback with
`chrome.runtime.lastError` set, or it calls the callback with a response, `none` for a falsy
one. -/
inductive SendOutcome where
  | throws (e : Str)
  | lastError (message : Str)
  | answers (resp : Option Response)

/-- The function `requestRemoteEnhancement`: how the promise it returns is settled, `ok` for
resolved and `error` for rejected. -/
def requestRemoteEnhancement (sendMessage : Str → Str → SendOutcome) (text style : Str) :
    Except Str Str :=
  match sendMessage text style with
  | SendOutcome.throws e => Except.error e
  | SendOutcome.lastError message => Except.error message
  | SendOutcome.answers none => Except.error "no response".toList
  | SendOutcome.answers (some resp) =>
    match resp.enhanced with
    | some enhanced =>
      if resp.ok = true ∧ enhanced ≠ [] then Except.ok enhanced
      else Except.error (orElseStr resp.error "server failed".toList)
    | none => Except.error (orElseStr resp.error "server failed".toList)

/-- What a call of `chrome.storage.local.get` does: it throws, or it calls the callback with
`res`, `none` for a falsy one; inside, the value of `res.enhanceMode`, `none` when not set. -/
inductive StorageOutcome where
  | throws
  | calls (res : Option (Option Str))

/-- The function `handleEnhanceClick`: the text it passes to `setComposerText`, `none` when it
does not call it. `composer` is the text of the input element, `none` when no input element is
found. -/
def handleEnhanceClick (composer : Option Str) (storage : StorageOutcome)
    (sendMessage : Str → Str → SendOutcome) : Option Str :=
  match composer with
  | none => none
  | some raw =>
    match storage with
    | StorageOutcome.calls res =>
      let mode := orElseStr (res.bind id) "client".toList
      let wrapper := generateCRISPE (some raw) { context := some [] }
      if mode = "server".toList then
        match requestRemoteEnhancement sendMessage wrapper "professional".toList with
        | Except.ok serverResult =>
          if serverResult ≠ [] then some serverResult else some wrapper
        | Except.error _ => some wrapper
      else some wrapper
    | StorageOutcome.throws =>
      let enhanced := generateCRISPE (some raw) { context := some [] }
      if enhanced ≠ [] then some enhanced else none

end Content

/-- The five sections of the document that are the same for every text and all options, each
with its heading and its content lines. -/
def crispeFixedBlocks : List (List Str) :=
  [ ["# Content Structure".toList,
     "Organize your response with clear sections, logical flow, and appropriate hierarchy. Use headings, short paragraphs, and lists where helpful.".toList],
    ["# Required Elements".toList,
     "- Include specific, actionable information rather than general statements".toList,
     "- Provide concrete examples or applications where appropriate".toList,
     "- Address all key aspects of the request with appropriate depth".toList,
     "- Incorporate relevant context and background information".toList],
    ["# Style & Approach".toList,
     "- Use natural, professional language that avoids AI-sounding patterns".toList,
     "- Maintain a balanced tone that matches the subject matter".toList,
     "- Employ clear, precise terminology appropriate to the topic".toList,
     "- Write in active voice with concise, well-structured sentences".toList],
    ["# Quality Standards".toList,
     "- Ensure factual accuracy and logical consistency throughout".toList,
     "- Provide sufficient detail to be genuinely useful".toList,
     "- Maintain appropriate scope - neither too broad nor too narrow".toList,
     "- Create content that demonstrates domain expertise".toList],
    ["# Output Format".toList,
     "Present your response in a well-structured format with clear headings, concise paragraphs, and appropriate use of formatting to highlight key points. Follow the structure above when composing the final answer.".toList] ]

/-- The task section as lines of the output: the heading, the line that quotes the text and,
for a non-empty context, an empty line and the line of the context. -/
def crispeTaskBlock (text : Str) (opts : Options) : List Str :=
  ["# Task & Purpose".toList,
   "Create a detailed, comprehensive response based on this request: \"".toList ++ text ++
     "\"".toList] ++
  (match opts.context with
   | some c => if c = [] then [] else [[], "Context: ".toList ++ c]
   | none => [])

/-- The sections of the document as lines of the output, each a heading followed by its
content lines, for options without line feed. -/
def crispeSections (text : Str) (slots : Slots) (opts : Options) : List (List Str) :=
  [ ["# Expert Role Assignment".toList,
     orElseStr opts.roleIntro
       "You are a specialized professional with expertise in creating high-quality content.".toList],
    crispeTaskBlock text opts ] ++
  crispeFixedBlocks ++
  (if crispeHints slots ≠ [] then
    [["## Additional Hints".toList] ++ (crispeHints slots).map (fun h => "- ".toList ++ h)]
   else []) ++
  (match opts.examples with
   | some e => if e = [] then [] else [["## Examples".toList, e]]
   | none => [])

/-- The layout of a document: every section followed by one empty line, then the closing
line. -/
def sectionLayout (sections : List (List Str)) (closing : Str) : List Str :=
  sections.flatMap (fun s => s ++ [[]]) ++ [closing]

/-- No two neighbours of a list of lines are both empty. -/
def NoDoubleBlank (lines : List Str) : Prop :=
  List.Chain' (fun a b => ¬ (a = [] ∧ b = [])) lines

/-! ## The composers as programs on a store of objects

The objects of the program live in a store. Two of them exist once the module is loaded, the
ones bound to `DEFAULTS` and to `styleTemplates`; the others are created by the caller (its
options record) or by a call: the record `Object.assign` fills, the record `slots`, the arrays
`pieces`, `lines` and `hints`. A composer run on a store returns its string and the store it
leaves. `Object.assign`, an assignment to a property and `push` write to the object they are
given; a property that is read is read from the store. Strings are values, and so are the
objects a call creates and only reads: the table `keywords` of `detectIntent` and the results
of `match`. A pattern is made anew each time its literal is evaluated, and the only pattern
with the `g` flag is used by `replace`, so no pattern carries a position from one call to the
next. -/

/-- A reference to an object: the one bound to `DEFAULTS`, the one bound to `styleTemplates`,
or the `n`-th object created since. -/
inductive Ref where
  | DEFAULTS
  | styleTemplates
  | object (n : Nat)
  deriving DecidableEq

/-- An object, as far as the composers use objects: a record of options, the table of
templates, the record `slots`, or an array of strings, an element of which may be
`undefined`. -/
inductive Obj where
  | record (o : Options)
  | templates (t : List (Str × Template))
  | slots (s : Slots)
  | array (a : List (Option Str))

/-- The options an object holds, when it is read as a record of options. -/
def Obj.asRecord : Obj → Options
  | Obj.record o => o
  | _ => {}

/-- The table an object holds, when it is read as a table of templates. -/
def Obj.asTemplates : Obj → List (Str × Template)
  | Obj.templates t => t
  | _ => []

/-- The slots an object holds, when it is read as the record `slots`. -/
def Obj.asSlots : Obj → Slots
  | Obj.slots s => s
  | _ => {}

/-- The elements an object holds, when it is read as an array. -/
def Obj.asArray : Obj → List (Option Str)
  | Obj.array a => a
  | _ => []

/-- The store: the object behind every reference, and the number of objects created so far. -/
structure Store where
  objects : Ref → Obj
  next : Nat

/-- The store once the module is loaded. -/
def loadedStore : Store :=
  { objects := fun r =>
      match r with
      | Ref.DEFAULTS => Obj.record DEFAULTS
      | Ref.styleTemplates => Obj.templates styleTemplates
      | Ref.object _ => Obj.record {}
    next := 0 }

/-- A new object is created: its reference and the store that holds it. -/
def Store.alloc (s : Store) (o : Obj) : Ref × Store :=
  (Ref.object s.next,
    { objects := Function.update s.objects (Ref.object s.next) o, next := s.next + 1 })

/-- The object behind a reference is replaced. -/
def Store.write (s : Store) (r : Ref) (o : Obj) : Store :=
  { objects := Function.update s.objects r o, next := s.next }

/-- The record that has the keys of `target` and, over them, the keys set in `source`. -/
def mergeOptions (target source : Options) : Options :=
  { style := match source.style with | some v => some v | none => target.style
    provider := match source.provider with | some v => some v | none => target.provider
    aggressiveness :=
      match source.aggressiveness with | some v => some v | none => target.aggressiveness
    roleIntro := match source.roleIntro with | some v => some v | none => target.roleIntro
    examples := match source.examples with | some v => some v | none => target.examples
    context := match source.context with | some v => some v | none => target.context }

/-- The call `Object.assign(target, source)`: the keys set in `source` are written to the
object `target`. -/
def objectAssign (s : Store) (target source : Ref) : Store :=
  s.write target
    (Obj.record (mergeOptions (s.objects target).asRecord (s.objects source).asRecord))

/-- The call `arr.push(x)`: `x` is written at the end of the array `arr`. -/
def push (s : Store) (arr : Ref) (x : Option Str) : Store :=
  s.write arr (Obj.array ((s.objects arr).asArray ++ [x]))

/-- Calls of `push` on the same array, one after the other. -/
def pushAll (s : Store) (arr : Ref) (xs : List (Option Str)) : Store :=
  xs.foldl (fun st x => push st arr x) s

/-- The function `extractConstraints` run on a store: it creates the record `slots` and
assigns to its properties; it returns the reference to the record. -/
def runExtractConstraints (s : Store) (text : Str) : Ref × Store :=
  let a := s.alloc (Obj.slots {})
  let s1 :=
    match firstMatch matchLength none text with
    | some m =>
      a.2.write a.1 (Obj.slots { (a.2.objects a.1).asSlots with length := some (parseInt m) })
    | none => a.2
  let s2 :=
    match firstMatch matchAudience none text with
    | some m => s1.write a.1 (Obj.slots { (s1.objects a.1).asSlots with audience := some m })
    | none => s1
  let s3 :=
    match firstMatch matchTone none text with
    | some m => s2.write a.1 (Obj.slots { (s2.objects a.1).asSlots with tone := some m })
    | none => s2
  (a.1, s3)

/-- The function `applyTemplate` run on a store: it reads `styleTemplates`, the record
`slots` and the record `options`, creates the array `pieces` and pushes to it. -/
def runApplyTemplate (s : Store) (intent : Intent) (style : Option Str) (text : Str)
    (slots options : Ref) : Str × Store :=
  let table := (s.objects Ref.styleTemplates).asTemplates
  let template : Option Template :=
    match style with
    | some key =>
      match table.lookup key with
      | some t => some t
      | none =>
        if objectPrototypeKeys.contains key then none
        else table.lookup "professional".toList
    | none => table.lookup "professional".toList
  let a := s.alloc (Obj.array [])
  let s1 := push a.2 a.1 (template.map Template.prefixText)
  let s2 := push s1 a.1 (some (framingPiece text))
  let s3 := pushAll s2 a.1 ((intentPieces intent).map some)
  let s4 := push s3 a.1 (template.map Template.defaults)
  let s5 := pushAll s4 a.1 ((slotPieces (s4.objects slots).asSlots).map some)
  let s6 := pushAll s5 a.1 ((providerPieces (s5.objects options).asRecord).map some)
  let s7 := pushAll s6 a.1 ((aggressivenessPieces (s6.objects options).asRecord).map some)
  (trim (replaceSpaces false ((s7.objects a.1).asArray.map joinElem).flatten), s7)

/-- The body of `enhancePrompt` run on a store, `opts` being the reference to the options
record: `Object.assign` fills a new record from `DEFAULTS` and then from `opts`. -/
def enhancePromptBody (toLowerCase : Str → Str) (s : Store) (rawText : Option Str)
    (opts : Ref) : Str × Store :=
  let t := s.alloc (Obj.record {})
  let s1 := objectAssign (objectAssign t.2 t.1 Ref.DEFAULTS) t.1 opts
  let text := sanitize (orEmpty rawText)
  if text = [] then ([], s1)
  else
    let intent := detectIntent toLowerCase text
    let sl := runExtractConstraints s1 text
    runApplyTemplate sl.2 intent (sl.2.objects t.1).asRecord.style text sl.1 t.1

/-- The function `enhancePrompt` run on a store; `opts` is the reference to the options
record of the caller, `none` when the argument is left out, in which case the default value
of the parameter creates an empty record. -/
def runEnhancePrompt (toLowerCase : Str → Str) (s : Store) (rawText : Option Str)
    (opts : Option Ref) : Str × Store :=
  match opts with
  | some r => enhancePromptBody toLowerCase s rawText r
  | none =>
    enhancePromptBody toLowerCase (s.alloc (Obj.record {})).2 rawText
      (s.alloc (Obj.record {})).1

/-- The body of `generateCRISPE` run on a store, `opts` being the reference to the options
record: it reads that record and `DEFAULTS.style`, creates the arrays `lines` and `hints` and
pushes to them. The lines pushed before the hints are those of `crispeOpening` and
`crispeFixedSections`, the lines pushed for the examples those of `crispeExamplesSection`. -/
def generateCRISPEBody (toLowerCase : Str → Str) (s : Store) (rawText : Option Str)
    (opts : Ref) : Str × Store :=
  let text := sanitize (orEmpty rawText)
  if text = [] then ([], s)
  else
    let _intent := detectIntent toLowerCase text
    let sl := runExtractConstraints s text
    let op := (sl.2.objects opts).asRecord
    let _styleHint := orElseStr op.style (joinElem (sl.2.objects Ref.DEFAULTS).asRecord.style)
    let l := sl.2.alloc (Obj.array [])
    let s1 := pushAll l.2 l.1 ((crispeOpening text op ++ crispeFixedSections).map some)
    let h := s1.alloc (Obj.array [])
    let s2 := pushAll h.2 h.1 ((crispeHints (h.2.objects sl.1).asSlots).map some)
    let s3 :=
      if (s2.objects h.1).asArray ≠ [] then
        pushAll s2 l.1
          ([some "## Additional Hints".toList] ++
            (s2.objects h.1).asArray.map (fun x => some ("- ".toList ++ joinElem x)) ++
            [some []])
      else s2
    let s4 := pushAll s3 l.1 ((crispeExamplesSection op).map some)
    let s5 := push s4 l.1 (some crispeClosingLine)
    ("\n".toList.intercalate ((s5.objects l.1).asArray.map joinElem), s5)

/-- The function `generateCRISPE` run on a store; `opts` is the reference to the options
record of the caller, `none` when the argument is left out, in which case the default value
of the parameter creates an empty record. -/
def runGenerateCRISPE (toLowerCase : Str → Str) (s : Store) (rawText : Option Str)
    (opts : Option Ref) : Str × Store :=
  match opts with
  | some r => generateCRISPEBody toLowerCase s rawText r
  | none =>
    generateCRISPEBody toLowerCase (s.alloc (Obj.record {})).2 rawText
      (s.alloc (Obj.record {})).1

/-- A reference to an object that exists in the store. -/
def Allocated (s : Store) (r : Ref) : Prop :=
  match r with
  | Ref.object n => n < s.next
  | _ => True

/-- The options a call is given: the record behind the reference, the empty record when the
argument is left out. -/
def optionsOf (s : Store) (opts : Option Ref) : Options :=
  match opts with
  | some r => (s.objects r).asRecord
  | none => {}

/-- The string `applyTemplate` returns when the table of templates is `table`. -/
def applyTemplateWith (table : List (Str × Template)) (intent : Intent) (style : Option Str)
    (text : Str) (slots : Slots) (options : Options) : Str :=
  let template : Option Template :=
    match style with
    | some key =>
      match table.lookup key with
      | some t => some t
      | none =>
        if objectPrototypeKeys.contains key then none
        else table.lookup "professional".toList
    | none => table.lookup "professional".toList
  trim (replaceSpaces false
    ([joinElem (template.map Template.prefixText)] ++ [framingPiece text] ++
      intentPieces intent ++ [joinElem (template.map Template.defaults)] ++
      slotPieces slots ++ providerPieces options ++ aggressivenessPieces options).flatten)

/-- The string `enhancePrompt` returns when `DEFAULTS` holds `defaults` and `styleTemplates`
holds `table`. -/
def enhancePromptWith (defaults : Options) (table : List (Str × Template))
    (toLowerCase : Str → Str) (rawText : Option Str) (opts : Options) : Str :=
  let options := mergeOptions (mergeOptions {} defaults) opts
  let text := sanitize (orEmpty rawText)
  if text = [] then []
  else
    applyTemplateWith table (detectIntent toLowerCase text) options.style text
      (extractConstraints text) options

/-- A call of one of the two composers with its arguments. -/
inductive Call where
  | enhancePrompt (rawText : Option Str) (opts : Option Ref)
  | generateCRISPE (rawText : Option Str) (opts : Option Ref)

/-- One call run on a store. -/
def runCall (toLowerCase : Str → Str) (s : Store) : Call → Str × Store
  | Call.enhancePrompt rawText opts => runEnhancePrompt toLowerCase s rawText opts
  | Call.generateCRISPE rawText opts => runGenerateCRISPE toLowerCase s rawText opts

/-- Calls run one after the other, each on the store the one before it left: the store the
last one leaves. -/
def runCalls (toLowerCase : Str → Str) (s : Store) : List Call → Store
  | [] => s
  | c :: cs => runCalls toLowerCase (runCall toLowerCase s c).2 cs

/-- The options reference of a call. -/
def Call.opts : Call → Option Ref
  | Call.enhancePrompt _ opts => opts
  | Call.generateCRISPE _ opts => opts

/-! # Properties -/

/-! ## Facts about `sanitize` -/

theorem replaceSpaces_mem_space (b : Bool) (s : Str) :
    ∀ c ∈ replaceSpaces b s, isSpace c = true → c = ' ' := by
  induction s generalizing b with
  | nil => simp [replaceSpaces]
  | cons a s ih =>
    intro c hc hsp
    unfold replaceSpaces at hc
    by_cases ha : isSpace a = true
    · cases b
      · simp only [ha, if_true, Bool.false_eq_true, if_false, List.mem_cons] at hc
        rcases hc with rfl | hc
        · rfl
        · exact ih true c hc hsp
      · simp only [ha, if_true] at hc
        exact ih true c hc hsp
    · simp only [ha, if_false, List.mem_cons, Bool.false_eq_true] at hc
      rcases hc with rfl | hc
      · exact absurd hsp ha
      · exact ih false c hc hsp

theorem replaceSpaces_chain (b : Bool) (s : Str) :
    NoDoubleSpace (replaceSpaces b s) ∧
      (b = true → ∀ c, (replaceSpaces b s).head? = some c → isSpace c = false) := by
  induction s generalizing b with
  | nil => simp [replaceSpaces, NoDoubleSpace]
  | cons a s ih =>
    by_cases ha : isSpace a = true
    · cases b
      · have h := ih true
        refine ⟨?_, by simp⟩
        simp only [replaceSpaces, ha, if_true, Bool.false_eq_true, if_false]
        unfold NoDoubleSpace
        rw [List.chain'_cons']
        refine ⟨?_, h.1⟩
        intro y hy hboth
        have := h.2 rfl y (by simpa using hy)
        simp [this] at hboth
      · have h := ih true
        simp only [replaceSpaces, ha, if_true]
        exact ⟨h.1, fun _ => h.2 rfl⟩
    · have h := ih false
      simp only [replaceSpaces, ha, if_false, Bool.false_eq_true]
      refine ⟨?_, ?_⟩
      · unfold NoDoubleSpace
        rw [List.chain'_cons']
        refine ⟨?_, h.1⟩
        intro y _ hboth
        exact ha hboth.1
      · intro _ c hc
        simp only [List.head?_cons, Option.some.injEq] at hc
        subst hc
        simpa using ha

theorem trim_eq (s : Str) : trim s = (s.dropWhile isSpace).rdropWhile isSpace := rfl

theorem trim_inside (s : Str) : trim s <:+: s := by
  rw [trim_eq]
  exact (List.rdropWhile_prefix _ _).isInfix.trans (List.dropWhile_suffix _).isInfix

theorem mem_dropWhile_of_not {p : Char → Bool} {c : Char} {l : Str} (hc : c ∈ l)
    (hp : p c = false) : c ∈ l.dropWhile p := by
  induction l with
  | nil => simp at hc
  | cons a l ih =>
    rw [List.dropWhile_cons]
    by_cases ha : p a = true
    · simp only [ha, if_true]
      rcases List.mem_cons.1 hc with rfl | h
      · simp [hp] at ha
      · exact ih h
    · simp only [ha, if_false, Bool.false_eq_true]
      exact hc

theorem mem_trim_of_not {c : Char} {s : Str} (hc : c ∈ s) (hp : isSpace c = false) :
    c ∈ trim s := by
  unfold trim
  rw [List.mem_reverse]
  apply mem_dropWhile_of_not _ hp
  rw [List.mem_reverse]
  exact mem_dropWhile_of_not hc hp

theorem mem_replaceSpaces_of_not {c : Char} {s : Str} (b : Bool) (hc : c ∈ s)
    (hp : isSpace c = false) : c ∈ replaceSpaces b s := by
  induction s generalizing b with
  | nil => simp at hc
  | cons a s ih =>
    unfold replaceSpaces
    rcases List.mem_cons.1 hc with rfl | h
    · simp [hp]
    · by_cases ha : isSpace a = true
      · cases b <;> simp [ha, ih true h]
      · simp [ha, ih false h]

theorem trim_head_not_space (s : Str) (c : Char) (h : (trim s).head? = some c) :
    isSpace c = false := by
  rw [trim_eq] at h
  obtain ⟨t, ht⟩ := List.rdropWhile_prefix isSpace (s.dropWhile isSpace)
  cases hr : (s.dropWhile isSpace).rdropWhile isSpace with
  | nil => simp [hr] at h
  | cons a r =>
    rw [hr] at h ht
    simp only [List.head?_cons, Option.some.injEq] at h
    subst h
    have h2 : (s.dropWhile isSpace).head? = some a := by rw [← ht]; simp
    have := List.head?_dropWhile_not isSpace s
    rw [h2] at this
    simpa using this

theorem trim_last_not_space (s : Str) (c : Char) (h : (trim s).getLast? = some c) :
    isSpace c = false := by
  rw [trim_eq] at h
  have hne : (s.dropWhile isSpace).rdropWhile isSpace ≠ [] := by
    intro h0; simp [h0] at h
  have := List.rdropWhile_last_not isSpace (s.dropWhile isSpace) hne
  rw [List.getLast?_eq_getLast _ hne] at h
  simp only [Option.some.injEq] at h
  subst h
  simpa using this

theorem sanitize_of_all_space (s : Str) (h : ∀ c ∈ s, isSpace c = true) : sanitize s = [] := by
  have h1 : ∀ (b : Bool), ∀ c ∈ replaceSpaces b s, isSpace c = true := by
    intro b
    induction s generalizing b with
    | nil => simp [replaceSpaces]
    | cons a s ih =>
      have ha : isSpace a = true := h a (List.mem_cons_self _ _)
      have hs : ∀ c ∈ s, isSpace c = true := fun c hc => h c (List.mem_cons_of_mem _ hc)
      intro c hc
      unfold replaceSpaces at hc
      cases b
      · simp only [ha, if_true, Bool.false_eq_true, if_false, List.mem_cons] at hc
        rcases hc with rfl | hc
        · rfl
        · exact ih hs true c hc
      · simp only [ha, if_true] at hc
        exact ih hs true c hc
  unfold sanitize trim
  have : (replaceSpaces false s).dropWhile isSpace = [] := by
    rw [List.dropWhile_eq_nil_iff]
    exact h1 false
  simp [this]

theorem framingPiece_has_letter (text : Str) : 'e' ∈ framingPiece text := by
  unfold framingPiece
  split <;> simp

theorem templatePieces_has_letter (intent : Intent) (style : Option Str) (text : Str)
    (slots : Slots) (options : Options) :
    'e' ∈ (templatePieces intent style text slots options).flatten := by
  unfold templatePieces
  simp only [List.flatten_append, List.mem_append, List.flatten_cons, List.flatten_nil,
    List.append_nil]
  exact Or.inl (Or.inl (Or.inl (Or.inl (Or.inl (Or.inr (framingPiece_has_letter text))))))

theorem enhancePrompt_eq_applyTemplate (toLowerCase : Str → Str) (raw : Str) (opts : Options)
    (h : sanitize raw ≠ []) :
    enhancePrompt toLowerCase (some raw) opts =
      applyTemplate (detectIntent toLowerCase (sanitize raw)) (assignDefaults opts).style
        (sanitize raw) (extractConstraints (sanitize raw)) (assignDefaults opts) := by
  unfold enhancePrompt
  simp only [orEmpty, h, if_false]

theorem generateCRISPE_eq_lines (toLowerCase : Str → Str) (raw : Str) (opts : Options)
    (h : sanitize raw ≠ []) :
    generateCRISPE toLowerCase (some raw) opts =
      "\n".toList.intercalate (crispeLines (sanitize raw) (extractConstraints (sanitize raw))
        opts) := by
  unfold generateCRISPE
  simp only [orEmpty, h, if_false]

theorem sanitize_ne_nil_of_mem {raw : Str} {c : Char} (hc : c ∈ raw) (hsp : isSpace c = false) :
    sanitize raw ≠ [] := by
  intro h0
  have : c ∈ sanitize raw := mem_trim_of_not (mem_replaceSpaces_of_not false hc hsp) hsp
  rw [h0] at this
  simp at this

/-- C1. For a raw input that is absent, empty or made of white space only, and for every
options record, `enhancePrompt` and `generateCRISPE` both return the empty string. -/
theorem C1_blank_input_gives_empty_output (toLowerCase : Str → Str) (rawText : Option Str)
    (opts : Options) (hblank : ∀ s, rawText = some s → ∀ c ∈ s, isSpace c = true) :
    enhancePrompt toLowerCase rawText opts = [] ∧
      generateCRISPE toLowerCase rawText opts = [] := by
  have hs : sanitize (orEmpty rawText) = [] := by
    cases rawText with
    | none => exact sanitize_of_all_space [] (by simp)
    | some s => exact sanitize_of_all_space s (hblank s rfl)
  unfold enhancePrompt generateCRISPE
  simp only [hs, if_true, and_self]

/-- C1, instances: the absent input, the empty input and an input of blanks, tabs and line
ends, under different options. -/
theorem C1_blank_input_witness :
    (enhancePrompt asciiToLowerCase none {} = [] ∧
      generateCRISPE asciiToLowerCase none {} = []) ∧
    (enhancePrompt asciiToLowerCase (some []) { style := some "creative".toList } = [] ∧
      generateCRISPE asciiToLowerCase (some []) { style := some "creative".toList } = []) ∧
    (enhancePrompt asciiToLowerCase (some " \t\n  ".toList) { aggressiveness := some 3 } = [] ∧
      generateCRISPE asciiToLowerCase (some " \t\n  ".toList) { aggressiveness := some 3 }
        = []) :=
  ⟨C1_blank_input_gives_empty_output asciiToLowerCase none {} (by simp),
   C1_blank_input_gives_empty_output asciiToLowerCase (some []) _ (by simp),
   C1_blank_input_gives_empty_output asciiToLowerCase (some " \t\n  ".toList) _ (by decide)⟩

/-- C2. For a raw input with at least one character that is not white space, and for every
options record, the output of `enhancePrompt` is not empty, neither starts nor ends with white
space, has no white space other than the space character, and has no two neighbouring white
space characters. -/
theorem C2_enhancePrompt_output_is_tidy (toLowerCase : Str → Str) (raw : Str) (opts : Options)
    (hraw : ∃ c ∈ raw, isSpace c = false) :
    enhancePrompt toLowerCase (some raw) opts ≠ [] ∧
      (∀ c, (enhancePrompt toLowerCase (some raw) opts).head? = some c → isSpace c = false) ∧
      (∀ c, (enhancePrompt toLowerCase (some raw) opts).getLast? = some c →
        isSpace c = false) ∧
      (∀ c ∈ enhancePrompt toLowerCase (some raw) opts, isSpace c = true → c = ' ') ∧
      NoDoubleSpace (enhancePrompt toLowerCase (some raw) opts) := by
  obtain ⟨c, hc, hsp⟩ := hraw
  have hne : sanitize raw ≠ [] := sanitize_ne_nil_of_mem hc hsp
  have hout : ∃ joined : Str, 'e' ∈ joined ∧
      enhancePrompt toLowerCase (some raw) opts = trim (replaceSpaces false joined) := by
    refine ⟨_, templatePieces_has_letter (detectIntent toLowerCase (sanitize raw))
      (assignDefaults opts).style (sanitize raw) (extractConstraints (sanitize raw))
      (assignDefaults opts), ?_⟩
    rw [enhancePrompt_eq_applyTemplate toLowerCase raw opts hne]
    rfl
  obtain ⟨joined, ha, hout⟩ := hout
  rw [hout]
  refine ⟨?_, trim_head_not_space _, trim_last_not_space _, ?_, ?_⟩
  · intro h0
    have : 'e' ∈ trim (replaceSpaces false joined) :=
      mem_trim_of_not (mem_replaceSpaces_of_not false ha (by decide)) (by decide)
    rw [h0] at this
    simp at this
  · intro c hc
    exact replaceSpaces_mem_space false joined c ((trim_inside _).subset hc)
  · exact List.Chain'.infix (replaceSpaces_chain false joined).1 (trim_inside _)

/-- C2, instance: a request framed by line ends and tabs. -/
theorem C2_enhancePrompt_output_witness :
    enhancePrompt asciiToLowerCase (some "\n  Draft \t an   email ".toList) {} ≠ [] ∧
      (∀ c, (enhancePrompt asciiToLowerCase (some "\n  Draft \t an   email ".toList) {}).head?
        = some c → isSpace c = false) ∧
      (∀ c, (enhancePrompt asciiToLowerCase (some "\n  Draft \t an   email ".toList)
        {}).getLast? = some c → isSpace c = false) ∧
      (∀ c ∈ enhancePrompt asciiToLowerCase (some "\n  Draft \t an   email ".toList) {},
        isSpace c = true → c = ' ') ∧
      NoDoubleSpace (enhancePrompt asciiToLowerCase (some "\n  Draft \t an   email ".toList) {}) :=
  C2_enhancePrompt_output_is_tidy asciiToLowerCase "\n  Draft \t an   email ".toList {}
    ⟨'D', by decide, by decide⟩

/-! ## Facts about `detectIntent` -/

theorem startsWith_iff (t kw : Str) : startsWith t kw = true ↔ ∃ post, t = kw ++ post := by
  induction kw generalizing t with
  | nil => simp [startsWith]
  | cons k ks ih =>
    cases t with
    | nil => simp [startsWith]
    | cons c cs =>
      simp only [startsWith, Bool.and_eq_true, beq_iff_eq, ih, List.cons_append,
        List.cons.injEq]
      constructor
      · rintro ⟨rfl, post, rfl⟩
        exact ⟨post, rfl, rfl⟩
      · rintro ⟨post, rfl, rfl⟩
        exact ⟨rfl, post, rfl⟩

theorem includes_iff (t kw : Str) : includes t kw = true ↔ Occurs kw t := by
  induction t with
  | nil =>
    simp only [includes, startsWith_iff, Occurs]
    constructor
    · rintro ⟨post, h⟩
      exact ⟨[], post, by simpa using h⟩
    · rintro ⟨pre, post, h⟩
      have h1 : pre = [] := by
        cases pre with
        | nil => rfl
        | cons a l => simp at h
      subst h1
      exact ⟨post, by simpa using h⟩
  | cons c cs ih =>
    simp only [includes, Bool.or_eq_true, startsWith_iff, ih, Occurs]
    constructor
    · rintro (⟨post, h⟩ | ⟨pre, post, h⟩)
      · exact ⟨[], post, by simpa using h⟩
      · exact ⟨c :: pre, post, by simp [h]⟩
    · rintro ⟨pre, post, h⟩
      cases pre with
      | nil => exact Or.inl ⟨post, by simpa using h⟩
      | cons a l =>
        simp only [List.cons_append, List.cons.injEq] at h
        exact Or.inr ⟨l, post, by simpa using h.2⟩

theorem any_includes_iff (t : Str) (i : Intent) :
    (keywordsOf i).any (fun kw => includes t kw) = true ↔ HasKeyword t i := by
  simp only [List.any_eq_true, includes_iff, HasKeyword]

theorem detectIntent_eq_chain (toLowerCase : Str → Str) (text : Str) :
    detectIntent toLowerCase text =
      if (keywordsOf Intent.coding).any (fun kw => includes (toLowerCase text) kw) then
        Intent.coding
      else if (keywordsOf Intent.creative).any (fun kw => includes (toLowerCase text) kw) then
        Intent.creative
      else if (keywordsOf Intent.explanation).any (fun kw => includes (toLowerCase text) kw) then
        Intent.explanation
      else if (keywordsOf Intent.professional).any (fun kw => includes (toLowerCase text) kw)
      then Intent.professional
      else if (keywordsOf Intent.academic).any (fun kw => includes (toLowerCase text) kw) then
        Intent.academic
      else Intent.general := by
  have hk : keywords =
      [(Intent.coding, keywordsOf Intent.coding), (Intent.creative, keywordsOf Intent.creative),
       (Intent.explanation, keywordsOf Intent.explanation),
       (Intent.professional, keywordsOf Intent.professional),
       (Intent.academic, keywordsOf Intent.academic)] := by decide
  unfold detectIntent
  rw [hk]
  simp only [List.find?_cons, List.find?_nil]
  generalize (keywordsOf Intent.coding).any (fun kw => includes (toLowerCase text) kw) = b1
  generalize (keywordsOf Intent.creative).any (fun kw => includes (toLowerCase text) kw) = b2
  generalize (keywordsOf Intent.explanation).any (fun kw => includes (toLowerCase text) kw) = b3
  generalize (keywordsOf Intent.professional).any (fun kw => includes (toLowerCase text) kw) = b4
  generalize (keywordsOf Intent.academic).any (fun kw => includes (toLowerCase text) kw) = b5
  cases b1 <;> cases b2 <;> cases b3 <;> cases b4 <;> cases b5 <;> rfl

/-- C3. The function `detectIntent` returns the first intent, in the order coding, creative,
explanation, professional, academic, one of whose keywords occurs in the lower-cased text; it
returns `general` exactly when no keyword of any intent occurs; and a text in which a coding
keyword and a creative keyword both occur is classified as coding. -/
theorem C3_detectIntent_first_match (toLowerCase : Str → Str) (text : Str) :
    (detectIntent toLowerCase text = Intent.coding ↔
      HasKeyword (toLowerCase text) Intent.coding) ∧
    (detectIntent toLowerCase text = Intent.creative ↔
      ¬ HasKeyword (toLowerCase text) Intent.coding ∧
      HasKeyword (toLowerCase text) Intent.creative) ∧
    (detectIntent toLowerCase text = Intent.explanation ↔
      ¬ HasKeyword (toLowerCase text) Intent.coding ∧
      ¬ HasKeyword (toLowerCase text) Intent.creative ∧
      HasKeyword (toLowerCase text) Intent.explanation) ∧
    (detectIntent toLowerCase text = Intent.professional ↔
      ¬ HasKeyword (toLowerCase text) Intent.coding ∧
      ¬ HasKeyword (toLowerCase text) Intent.creative ∧
      ¬ HasKeyword (toLowerCase text) Intent.explanation ∧
      HasKeyword (toLowerCase text) Intent.professional) ∧
    (detectIntent toLowerCase text = Intent.academic ↔
      ¬ HasKeyword (toLowerCase text) Intent.coding ∧
      ¬ HasKeyword (toLowerCase text) Intent.creative ∧
      ¬ HasKeyword (toLowerCase text) Intent.explanation ∧
      ¬ HasKeyword (toLowerCase text) Intent.professional ∧
      HasKeyword (toLowerCase text) Intent.academic) ∧
    (detectIntent toLowerCase text = Intent.general ↔
      ∀ i, ¬ HasKeyword (toLowerCase text) i) ∧
    (HasKeyword (toLowerCase text) Intent.coding ∧
      HasKeyword (toLowerCase text) Intent.creative →
      detectIntent toLowerCase text = Intent.coding) := by
  have hg : ¬ HasKeyword (toLowerCase text) Intent.general := by
    rintro ⟨kw, hkw, _⟩
    have : keywordsOf Intent.general = [] := by decide
    rw [this] at hkw
    simp at hkw
  rw [detectIntent_eq_chain]
  simp only [← any_includes_iff] at hg ⊢
  have hall : (∀ i, ¬ (keywordsOf i).any (fun kw => includes (toLowerCase text) kw) = true) ↔
      (¬ (keywordsOf Intent.coding).any (fun kw => includes (toLowerCase text) kw) = true ∧
       ¬ (keywordsOf Intent.creative).any (fun kw => includes (toLowerCase text) kw) = true ∧
       ¬ (keywordsOf Intent.explanation).any (fun kw => includes (toLowerCase text) kw) = true ∧
       ¬ (keywordsOf Intent.professional).any (fun kw => includes (toLowerCase text) kw)
          = true ∧
       ¬ (keywordsOf Intent.academic).any (fun kw => includes (toLowerCase text) kw) = true) := by
    constructor
    · intro h
      exact ⟨h _, h _, h _, h _, h _⟩
    · rintro ⟨h1, h2, h3, h4, h5⟩ i
      cases i <;> assumption
  rw [hall]
  generalize (keywordsOf Intent.coding).any (fun kw => includes (toLowerCase text) kw) = b1
  generalize (keywordsOf Intent.creative).any (fun kw => includes (toLowerCase text) kw) = b2
  generalize (keywordsOf Intent.explanation).any (fun kw => includes (toLowerCase text) kw) = b3
  generalize (keywordsOf Intent.professional).any (fun kw => includes (toLowerCase text) kw) = b4
  generalize (keywordsOf Intent.academic).any (fun kw => includes (toLowerCase text) kw) = b5
  cases b1 <;> cases b2 <;> cases b3 <;> cases b4 <;> cases b5 <;> simp

/-- C4, at the text `Tell me what to do`: it neither ends with a question mark nor starts
with how, what, why or explain, and `enhancePrompt` frames it with `Answer the following
request`, because the pattern finds `what` inside the text. -/
theorem C4_framing_of_tell_me_what_to_do :
    sanitize "Tell me what to do".toList = "Tell me what to do".toList ∧
    "Tell me what to do".toList.getLast? ≠ some '?' ∧
    (matchLit "how".toList "Tell me what to do".toList).isSome = false ∧
    (matchLit "what".toList "Tell me what to do".toList).isSome = false ∧
    (matchLit "why".toList "Tell me what to do".toList).isSome = false ∧
    (matchLit "explain".toList "Tell me what to do".toList).isSome = false ∧
    isQuestion "Tell me what to do".toList = true ∧
    framingPiece "Tell me what to do".toList =
      "Answer the following request: \"Tell me what to do\". ".toList ∧
    enhancePrompt asciiToLowerCase (some "Tell me what to do".toList) {} =
      "Provide a clear, professional response. Answer the following request: \"Tell me what to do\". Be concise and formal. Include examples if applicable. Format code blocks using triple backticks if including code.".toList := by
  decide

/-! ## Facts about the matcher -/

theorem firstMatch_eq_some_iff {α : Type} (m : Option Char → Str → Option α)
    (before : Option Char) (s : Str) (v : α) :
    firstMatch m before s = some v ↔
      ∃ pre post, s = pre ++ post ∧ m (before.toList ++ pre).getLast? post = some v ∧
        ∀ pre' post', s = pre' ++ post' → pre'.length < pre.length →
          m (before.toList ++ pre').getLast? post' = none := by
  induction s generalizing before with
  | nil =>
    have hb : (before.toList ++ ([] : Str)).getLast? = before := by
      cases before <;> simp
    constructor
    · intro h
      refine ⟨[], [], rfl, ?_, ?_⟩
      · rw [hb]; exact h
      · intro pre' post' _ hlt
        simp at hlt
    · rintro ⟨pre, post, hs, hm, _⟩
      have hpre : pre = [] := by
        cases pre with
        | nil => rfl
        | cons a l => simp at hs
      subst hpre
      have hpost : post = [] := by simpa using hs.symm
      subst hpost
      rw [hb] at hm
      exact hm
  | cons c cs ih =>
    have hb : (before.toList ++ ([] : Str)).getLast? = before := by
      cases before <;> simp
    have hc : ∀ pre : Str, (before.toList ++ c :: pre).getLast? =
        ((some c).toList ++ pre).getLast? := by
      intro pre
      rw [List.getLast?_append_cons, Option.toList_some, List.singleton_append]
    unfold firstMatch
    cases hm0 : m before (c :: cs) with
    | some r =>
      simp only
      constructor
      · intro h
        refine ⟨[], c :: cs, rfl, ?_, ?_⟩
        · rw [hb, hm0, h]
        · intro pre' post' _ hlt
          simp at hlt
      · rintro ⟨pre, post, hs, hm, hmin⟩
        cases pre with
        | nil =>
          simp only [List.nil_append] at hs
          subst hs
          rw [hb, hm0] at hm
          exact hm
        | cons a l =>
          have := hmin [] (c :: cs) rfl (by simp)
          rw [hb, hm0] at this
          simp at this
    | none =>
      simp only
      rw [ih (some c)]
      constructor
      · rintro ⟨pre, post, hs, hm, hmin⟩
        refine ⟨c :: pre, post, by simp [hs], ?_, ?_⟩
        · rw [hc]; exact hm
        · intro pre' post' hs' hlt
          cases pre' with
          | nil =>
            simp only [List.nil_append] at hs'
            subst hs'
            rw [hb]; exact hm0
          | cons a l =>
            simp only [List.cons_append, List.cons.injEq] at hs'
            obtain ⟨rfl, hs'⟩ := hs'
            rw [hc]
            exact hmin l post' hs' (by simpa using hlt)
      · rintro ⟨pre, post, hs, hm, hmin⟩
        cases pre with
        | nil =>
          simp only [List.nil_append] at hs
          subst hs
          rw [hb, hm0] at hm
          simp at hm
        | cons a l =>
          simp only [List.cons_append, List.cons.injEq] at hs
          obtain ⟨rfl, hs⟩ := hs
          refine ⟨l, post, hs, ?_, ?_⟩
          · rw [← hc]; exact hm
          · intro pre' post' hs' hlt
            rw [← hc]
            exact hmin (c :: pre') post' (by simp [hs']) (by simpa using hlt)

theorem firstMatch_eq_none_iff {α : Type} (m : Option Char → Str → Option α)
    (before : Option Char) (s : Str) :
    firstMatch m before s = none ↔
      ∀ pre post, s = pre ++ post → m (before.toList ++ pre).getLast? post = none := by
  constructor
  · intro h
    have key : ∀ n : Nat, ∀ pre post, pre.length = n → s = pre ++ post →
        m (before.toList ++ pre).getLast? post = none := by
      intro n
      induction n using Nat.strong_induction_on with
      | _ n ihn =>
        intro pre post hlen hs
        cases hm : m (before.toList ++ pre).getLast? post with
        | none => rfl
        | some v =>
          have : firstMatch m before s = some v := by
            rw [firstMatch_eq_some_iff]
            refine ⟨pre, post, hs, hm, ?_⟩
            intro pre' post' hs' hlt
            exact ihn pre'.length (by omega) pre' post' rfl hs'
          rw [h] at this
          simp at this
    intro pre post hs
    exact key pre.length pre post rfl hs
  · intro h
    cases hf : firstMatch m before s with
    | none => rfl
    | some v =>
      rw [firstMatch_eq_some_iff] at hf
      obtain ⟨pre, post, hs, hm, _⟩ := hf
      rw [h pre post hs] at hm
      simp at hm

/-- The search finds the first occurrence of a pattern whose matcher decides it. -/
theorem firstMatch_spec {α : Type} (m : Option Char → Str → Option α)
    (P : Option Char → Str → α → Prop) (hP : ∀ b s v, m b s = some v ↔ P b s v)
    (text : Str) :
    (∀ v, firstMatch m none text = some v ↔ FirstOccurrence P text v) ∧
      (firstMatch m none text = none ↔ NoOccurrence P text) := by
  have hnone : ∀ b s, m b s = none ↔ ∀ v, ¬ P b s v := by
    intro b s
    constructor
    · intro h v hv
      rw [← hP, h] at hv
      simp at hv
    · intro h
      cases hm : m b s with
      | none => rfl
      | some v => exact absurd ((hP b s v).1 hm) (h v)
  constructor
  · intro v
    rw [firstMatch_eq_some_iff]
    simp only [Option.toList_none, List.nil_append, FirstOccurrence, hP, hnone]
    constructor
    · rintro ⟨pre, post, hs, hm, hmin⟩
      exact ⟨pre, post, hs, hm, fun pre' post' v' hs' hlt => hmin pre' post' hs' hlt v'⟩
    · rintro ⟨pre, post, hs, hm, hmin⟩
      exact ⟨pre, post, hs, hm, fun pre' post' hs' hlt v' => hmin pre' post' v' hs' hlt⟩
  · rw [firstMatch_eq_none_iff]
    simp only [Option.toList_none, List.nil_append, NoOccurrence, hnone]
    constructor
    · intro h pre post v hs
      exact h pre post hs v
    · intro h pre post hs v
      exact h pre post v hs

theorem matchLit_iff (w s m r : Str) :
    matchLit w s = some (m, r) ↔ s = m ++ r ∧ EqIgnoreCase m w := by
  unfold EqIgnoreCase
  induction w generalizing s m with
  | nil =>
    simp only [matchLit, Option.some.injEq, Prod.mk.injEq, List.map_nil, List.map_eq_nil_iff]
    constructor
    · rintro ⟨rfl, rfl⟩
      exact ⟨rfl, rfl⟩
    · rintro ⟨h, rfl⟩
      exact ⟨rfl, by simpa using h⟩
  | cons p ps ih =>
    cases s with
    | nil =>
      simp only [matchLit, reduceCtorEq, false_iff, not_and]
      intro h
      have : m = [] := by
        cases m with
        | nil => rfl
        | cons a l => simp at h
      subst this
      simp
    | cons c cs =>
      unfold matchLit
      by_cases hpc : canonicalize p = canonicalize c
      · simp only [hpc, if_true]
        cases hm : matchLit ps cs with
        | none =>
          simp only [reduceCtorEq, false_iff, not_and]
          intro hs hmap
          cases m with
          | nil => simp at hmap
          | cons a l =>
            simp only [List.cons_append, List.cons.injEq] at hs
            simp only [List.map_cons, List.cons.injEq] at hmap
            have := (ih cs l).2 ⟨hs.2, hmap.2⟩
            rw [hm] at this
            simp at this
        | some x =>
          obtain ⟨m', r'⟩ := x
          have h1 := (ih cs m').1
          simp only [Option.some.injEq, Prod.mk.injEq]
          constructor
          · rintro ⟨rfl, rfl⟩
            have := (ih cs m').1 (by rw [hm])
            exact ⟨by rw [this.1]; rfl, by simp [this.2, hpc]⟩
          · rintro ⟨hs, hmap⟩
            cases m with
            | nil => simp at hmap
            | cons a l =>
              simp only [List.cons_append, List.cons.injEq] at hs
              simp only [List.map_cons, List.cons.injEq] at hmap
              have := (ih cs l).2 ⟨hs.2, hmap.2⟩
              rw [hm] at this
              simp only [Option.some.injEq, Prod.mk.injEq] at this
              exact ⟨by rw [hs.1, this.1], this.2⟩
      · simp only [hpc, if_false, reduceCtorEq, false_iff, not_and]
        intro hs hmap
        cases m with
        | nil => simp at hmap
        | cons a l =>
          simp only [List.cons_append, List.cons.injEq] at hs
          simp only [List.map_cons, List.cons.injEq] at hmap
          exact hpc (by rw [← hmap.1, hs.1])

theorem matchLit_isSome_iff (w s : Str) :
    (matchLit w s).isSome = true ↔ ∃ m r, s = m ++ r ∧ EqIgnoreCase m w := by
  constructor
  · intro h
    obtain ⟨x, hx⟩ := Option.isSome_iff_exists.1 h
    obtain ⟨m, r⟩ := x
    exact ⟨m, r, (matchLit_iff w s m r).1 hx⟩
  · rintro ⟨m, r, h⟩
    rw [(matchLit_iff w s m r).2 h]
    rfl

theorem matchLit_append_isSome (a b s : Str) (h : (matchLit (a ++ b) s).isSome = true) :
    (matchLit a s).isSome = true := by
  rw [matchLit_isSome_iff] at h ⊢
  obtain ⟨m, r, hs, hm⟩ := h
  unfold EqIgnoreCase at hm
  rw [List.map_append, List.map_eq_append_iff] at hm
  obtain ⟨m1, m2, rfl, h1, _⟩ := hm
  exact ⟨m1, m2 ++ r, by simp [hs], h1⟩

theorem matchWords_iff (s : Str) :
    matchWords s = true ↔ ∃ w rest, s = w ++ rest ∧ EqIgnoreCase w "word".toList := by
  rw [← matchLit_isSome_iff]
  unfold matchWords
  cases hm : matchLit "word".toList s with
  | some x => simp only [Option.isSome_some, Bool.or_true, Bool.true_or]
  | none =>
    have h1 : (matchLit "words".toList s).isSome = false := by
      cases h : (matchLit "words".toList s).isSome with
      | false => rfl
      | true =>
        have := matchLit_append_isSome "word".toList "s".toList s h
        rw [hm] at this
        simp at this
    rw [h1]
    rfl

theorem greedySplits_mem (p : Char → Bool) (s : Str) (x : Str × Str) :
    x ∈ greedySplits p s ↔ s = x.1 ++ x.2 ∧ ∀ c ∈ x.1, p c = true := by
  induction s generalizing x with
  | nil =>
    obtain ⟨a, b⟩ := x
    simp only [greedySplits, List.mem_singleton, Prod.mk.injEq]
    constructor
    · rintro ⟨rfl, rfl⟩
      simp
    · rintro ⟨h, _⟩
      have h' := h.symm
      simp only [List.append_eq_nil] at h'
      exact h'
  | cons c cs ih =>
    obtain ⟨a, b⟩ := x
    unfold greedySplits
    by_cases hp : p c = true
    · simp only [hp, if_true, List.mem_append, List.mem_map, List.mem_singleton, Prod.mk.injEq,
        Prod.exists, ih]
      constructor
      · rintro (⟨a', b', ⟨hs, hall⟩, rfl, rfl⟩ | ⟨rfl, rfl⟩)
        · refine ⟨by simp [hs], ?_⟩
          intro d hd
          rcases List.mem_cons.1 hd with rfl | hd
          · exact hp
          · exact hall d hd
        · simp
      · rintro ⟨hs, hall⟩
        cases a with
        | nil => exact Or.inr ⟨rfl, by simpa using hs.symm⟩
        | cons a0 a' =>
          simp only [List.cons_append, List.cons.injEq] at hs
          obtain ⟨rfl, hs⟩ := hs
          exact Or.inl ⟨a', b, ⟨hs, fun d hd => hall d (List.mem_cons_of_mem _ hd)⟩, rfl, rfl⟩
    · simp only [hp, if_false, List.mem_singleton, Prod.mk.injEq, Bool.false_eq_true]
      constructor
      · rintro ⟨rfl, rfl⟩
        simp
      · rintro ⟨hs, hall⟩
        cases a with
        | nil => exact ⟨rfl, by simpa using hs.symm⟩
        | cons a0 a' =>
          simp only [List.cons_append, List.cons.injEq] at hs
          obtain ⟨rfl, hs⟩ := hs
          exact absurd (hall c (List.mem_cons_self _ _)) hp

theorem isDigit_of_isSpace {c : Char} (h : isSpace c = true) : isDigit c = false := by
  simp only [isSpace, Bool.or_eq_true, beq_iff_eq, Bool.and_eq_true, decide_eq_true_eq] at h
  simp only [isDigit, Bool.and_eq_false_iff, decide_eq_false_iff_not]
  omega

theorem canonicalize_eq_iff_of_letter (c : Char) (n : Nat) (hn : 65 ≤ n ∧ n ≤ 90) :
    canonicalize c = n ↔ c.toNat = n ∨ c.toNat = n + 32 := by
  unfold canonicalize
  split <;> omega

theorem run_unique (p : Char → Bool) (d1 d2 r1 r2 : Str) (h : d1 ++ r1 = d2 ++ r2)
    (h1 : ∀ c ∈ d1, p c = true) (h2 : ∀ c ∈ d2, p c = true)
    (hr1 : ∀ c, r1.head? = some c → p c = false)
    (hr2 : ∀ c, r2.head? = some c → p c = false) : d1 = d2 := by
  rcases List.append_eq_append_iff.1 h with ⟨a, hd2, hr⟩ | ⟨a, hd1, hr⟩
  · cases a with
    | nil => simpa using hd2.symm
    | cons x l =>
      have hx : p x = true := h2 x (by rw [hd2]; simp)
      have := hr1 x (by rw [hr]; rfl)
      rw [hx] at this
      exact absurd this (by simp)
  · cases a with
    | nil => simpa using hd1
    | cons x l =>
      have hx : p x = true := h1 x (by rw [hd1]; simp)
      have := hr2 x (by rw [hr]; rfl)
      rw [hx] at this
      exact absurd this (by simp)

theorem eqIgnoreCase_cons_right {m : Str} {k : Char} {ks : Str}
    (h : EqIgnoreCase m (k :: ks)) :
    ∃ a l, m = a :: l ∧ canonicalize a = canonicalize k ∧ EqIgnoreCase l ks := by
  unfold EqIgnoreCase at h
  cases m with
  | nil => simp at h
  | cons a l =>
    simp only [List.map_cons, List.cons.injEq] at h
    exact ⟨a, l, rfl, h.1, h.2⟩

theorem word_tail_head_not_digit (ws w rest : Str) (hws : ∀ c ∈ ws, isSpace c = true)
    (hw : EqIgnoreCase w "word".toList) :
    ∀ c, (ws ++ w ++ rest).head? = some c → isDigit c = false := by
  intro c hc
  obtain ⟨a, l, rfl, ha, _⟩ := eqIgnoreCase_cons_right hw
  cases ws with
  | nil =>
    simp only [List.nil_append, List.cons_append, List.head?_cons, Option.some.injEq] at hc
    subst hc
    have h87 : canonicalize a = 87 := by rw [ha]; decide
    rw [canonicalize_eq_iff_of_letter a 87 (by omega)] at h87
    simp only [isDigit, Bool.and_eq_false_iff, decide_eq_false_iff_not]
    omega
  | cons x xs =>
    simp only [List.cons_append, List.head?_cons, Option.some.injEq] at hc
    subst hc
    exact isDigit_of_isSpace (hws x (List.mem_cons_self _ _))

theorem LengthAt_unique {b b' : Option Char} {s d1 d2 : Str} (h1 : LengthAt b s d1)
    (h2 : LengthAt b' s d2) : d1 = d2 := by
  obtain ⟨ws1, w1, rest1, hs1, _, hd1, hws1, hw1⟩ := h1
  obtain ⟨ws2, w2, rest2, hs2, _, hd2, hws2, hw2⟩ := h2
  apply run_unique isDigit d1 d2 (ws1 ++ w1 ++ rest1) (ws2 ++ w2 ++ rest2) _ hd1 hd2
    (word_tail_head_not_digit ws1 w1 rest1 hws1 hw1)
    (word_tail_head_not_digit ws2 w2 rest2 hws2 hw2)
  rw [hs1] at hs2
  simpa [List.append_assoc] using hs2

theorem matchLength_imp (b : Option Char) (s ds : Str) (h : matchLength b s = some ds) :
    LengthAt b s ds := by
  unfold matchLength at h
  obtain ⟨d, hd, hf⟩ := List.exists_of_findSome?_eq_some h
  rw [greedySplits_mem] at hd
  by_cases hnil : d.1 = []
  · simp [hnil] at hf
  · simp only [hnil, if_false] at hf
    obtain ⟨w, hw, hg⟩ := List.exists_of_findSome?_eq_some hf
    rw [greedySplits_mem] at hw
    by_cases hmw : matchWords w.2 = true
    · simp only [hmw, if_true, Option.some.injEq] at hg
      subst hg
      obtain ⟨w0, rest, hw2, hw0⟩ := (matchWords_iff w.2).1 hmw
      refine ⟨w.1, w0, rest, ?_, hnil, hd.2, hw.2, hw0⟩
      rw [hd.1, hw.1, hw2]
      simp [List.append_assoc]
    · simp [hmw] at hg

theorem matchLength_iff (b : Option Char) (s ds : Str) :
    matchLength b s = some ds ↔ LengthAt b s ds := by
  constructor
  · exact matchLength_imp b s ds
  · intro h
    cases hm : matchLength b s with
    | some ds' =>
      rw [LengthAt_unique (matchLength_imp b s ds' hm) h]
    | none =>
      exfalso
      obtain ⟨ws, w, rest, hs, hne, hd, hws, hw⟩ := h
      unfold matchLength at hm
      rw [List.findSome?_eq_none_iff] at hm
      have h1 := hm (ds, ws ++ w ++ rest)
        ((greedySplits_mem isDigit s _).2 ⟨by simp [hs, List.append_assoc], hd⟩)
      simp only [hne, if_false] at h1
      rw [List.findSome?_eq_none_iff] at h1
      have h2 := h1 (ws, w ++ rest)
        ((greedySplits_mem isSpace _ _).2 ⟨by simp [List.append_assoc], hws⟩)
      have h3 : matchWords (w ++ rest) = true := (matchWords_iff _).2 ⟨w, rest, rfl, hw⟩
      simp [h3] at h2

theorem eqIgnoreCase_length {a b : Str} (h : EqIgnoreCase a b) : a.length = b.length := by
  have := congrArg List.length h
  simpa using this

theorem alternative_unique {words : List Str} (hpf : PrefixFree words) {w w' m m' r r' : Str}
    (hw : w ∈ words) (hw' : w' ∈ words) (hs : m ++ r = m' ++ r') (hm : EqIgnoreCase m w)
    (hm' : EqIgnoreCase m' w') : m = m' := by
  have key : ∀ {w w' m m' r r' : Str}, w ∈ words → w' ∈ words → EqIgnoreCase m w →
      EqIgnoreCase m' w' → (∃ a, m' = m ++ a ∧ r = a ++ r') → m = m' := by
    intro w w' m m' r r' hw hw' hm hm' ⟨a, ha, _⟩
    have hpre : w.map canonicalize <+: w'.map canonicalize := by
      refine ⟨a.map canonicalize, ?_⟩
      rw [← hm, ← hm', ha, List.map_append]
    have hww : w = w' := hpf w hw w' hw' hpre
    subst hww
    have h1 := eqIgnoreCase_length hm
    have h2 := eqIgnoreCase_length hm'
    rw [ha, List.length_append] at h2
    have : a = [] := List.length_eq_zero.1 (by omega)
    rw [ha, this, List.append_nil]
  rcases List.append_eq_append_iff.1 hs with h | h
  · exact key hw hw' hm hm' h
  · exact (key hw' hw hm' hm h).symm

theorem audienceWords_prefixFree : PrefixFree audienceWords := by
  unfold PrefixFree
  decide

theorem toneWords_prefixFree : PrefixFree toneWords := by
  unfold PrefixFree
  decide

theorem matchAudience_imp (b : Option Char) (s m : Str) (h : matchAudience b s = some m) :
    AudienceAt b s m := by
  unfold matchAudience at h
  split at h
  · next f r hf =>
    obtain ⟨w, hw, hg⟩ := List.exists_of_findSome?_eq_some h
    cases hmw : matchLit w r with
    | none => simp [hmw] at hg
    | some y =>
      obtain ⟨m', r'⟩ := y
      simp only [hmw, Option.map_some', Option.some.injEq] at hg
      subst hg
      have h1 := (matchLit_iff _ _ _ _).1 hf
      have h2 := (matchLit_iff _ _ _ _).1 hmw
      exact ⟨f, r', by rw [h1.1, h2.1, List.append_assoc], h1.2, w, hw, h2.2⟩
  · simp at h

theorem AudienceAt_unique {b b' : Option Char} {s m m' : Str} (h : AudienceAt b s m)
    (h' : AudienceAt b' s m') : m = m' := by
  obtain ⟨f, rest, hs, hf, w, hw, hm⟩ := h
  obtain ⟨f', rest', hs', hf', w', hw', hm'⟩ := h'
  have hlen : f.length = f'.length := by
    rw [eqIgnoreCase_length hf, eqIgnoreCase_length hf']
  rw [hs, List.append_assoc, List.append_assoc] at hs'
  have := List.append_inj hs' hlen
  exact alternative_unique audienceWords_prefixFree hw hw' this.2 hm hm'

theorem matchAudience_iff (b : Option Char) (s m : Str) :
    matchAudience b s = some m ↔ AudienceAt b s m := by
  constructor
  · exact matchAudience_imp b s m
  · intro h
    cases hm : matchAudience b s with
    | some m' => rw [AudienceAt_unique (matchAudience_imp b s m' hm) h]
    | none =>
      exfalso
      obtain ⟨f, rest, hs, hf, w, hw, hmw⟩ := h
      have h1 : matchLit "for ".toList s = some (f, m ++ rest) :=
        (matchLit_iff _ _ _ _).2 ⟨by rw [hs, List.append_assoc], hf⟩
      have hdef : matchAudience b s =
          match matchLit "for ".toList s with
          | some (_, r) => audienceWords.findSome? fun w => (matchLit w r).map Prod.fst
          | none => none := rfl
      rw [hdef, h1] at hm
      simp only at hm
      rw [List.findSome?_eq_none_iff] at hm
      have h2 := hm w hw
      rw [(matchLit_iff w (m ++ rest) m rest).2 ⟨rfl, hmw⟩] at h2
      simp at h2

theorem isWordChar_of_isLetter {c : Char} (h : isLetter c = true) : isWordChar c = true := by
  simp only [isLetter, Bool.or_eq_true, Bool.and_eq_true, decide_eq_true_eq] at h
  simp only [isWordChar, Bool.or_eq_true, Bool.and_eq_true, decide_eq_true_eq, beq_iff_eq]
  omega

theorem isSpace_of_isLetter {c : Char} (h : isLetter c = true) : isSpace c = false := by
  simp only [isLetter, Bool.or_eq_true, Bool.and_eq_true, decide_eq_true_eq] at h
  cases hsp : isSpace c with
  | false => rfl
  | true =>
    simp only [isSpace, Bool.or_eq_true, beq_iff_eq, Bool.and_eq_true, decide_eq_true_eq] at hsp
    omega

theorem isLetter_of_canonicalize_eq {c k : Char} (hk : isLetter k = true)
    (h : canonicalize c = canonicalize k) : isLetter c = true := by
  simp only [isLetter, Bool.or_eq_true, Bool.and_eq_true, decide_eq_true_eq] at hk ⊢
  unfold canonicalize at h
  split at h <;> split at h <;> omega

theorem eqIgnoreCase_all_letters {m w : Str} (hw : ∀ k ∈ w, isLetter k = true)
    (h : EqIgnoreCase m w) : ∀ c ∈ m, isLetter c = true := by
  intro c hc
  have : canonicalize c ∈ w.map canonicalize := by
    rw [← h]
    exact List.mem_map_of_mem _ hc
  obtain ⟨k, hk, hkc⟩ := List.mem_map.1 this
  exact isLetter_of_canonicalize_eq (hw k hk) hkc.symm

theorem toneWords_letters : ∀ w ∈ toneWords, w ≠ [] ∧ ∀ k ∈ w, isLetter k = true := by
  decide

theorem audienceWords_letters : ∀ w ∈ audienceWords, w ≠ [] ∧ ∀ k ∈ w, isLetter k = true := by
  decide

theorem atBoundary_before_word (b : Option Char) {c : Char} (hc : isWordChar c = true) :
    atBoundary b (some c) = true ↔ ∀ x, b = some x → isWordChar x = false := by
  cases b with
  | none => simp [atBoundary, hc]
  | some x => cases hx : isWordChar x <;> simp [atBoundary, hc, hx]

theorem atBoundary_after_word (n : Option Char) {c : Char} (hc : isWordChar c = true) :
    atBoundary (some c) n = true ↔ ∀ x, n = some x → isWordChar x = false := by
  cases n with
  | none => simp [atBoundary, hc]
  | some x => cases hx : isWordChar x <;> simp [atBoundary, hc, hx]

theorem tone_match_ends {m w : Str} (hw : w ∈ toneWords) (hm : EqIgnoreCase m w) :
    (∃ c, m.head? = some c ∧ isWordChar c = true) ∧
      (∃ c, m.getLast? = some c ∧ isWordChar c = true) := by
  have hl := eqIgnoreCase_all_letters (toneWords_letters w hw).2 hm
  have hne : m ≠ [] := by
    intro h0
    have := eqIgnoreCase_length hm
    rw [h0] at this
    exact (toneWords_letters w hw).1 (List.length_eq_zero.1 this.symm)
  constructor
  · cases m with
    | nil => exact absurd rfl hne
    | cons a l => exact ⟨a, rfl, isWordChar_of_isLetter (hl a (List.mem_cons_self _ _))⟩
  · exact ⟨m.getLast hne, List.getLast?_eq_getLast _ hne,
      isWordChar_of_isLetter (hl _ (List.getLast_mem hne))⟩

theorem head?_append_of_head? {m r : Str} {c : Char} (h : m.head? = some c) :
    (m ++ r).head? = some c := by
  cases m with
  | nil => simp at h
  | cons a l => simpa using h

theorem matchTone_imp (b : Option Char) (s m : Str) (h : matchTone b s = some m) :
    ToneAt b s m := by
  unfold matchTone at h
  split at h
  · next hb =>
    obtain ⟨w, hw, hg⟩ := List.exists_of_findSome?_eq_some h
    split at hg
    · next m' r hmw =>
      split at hg
      · next hb2 =>
        simp only [Option.some.injEq] at hg
        subst hg
        have h1 := (matchLit_iff _ _ _ _).1 hmw
        obtain ⟨⟨c1, hc1, hw1⟩, ⟨c2, hc2, hw2⟩⟩ := tone_match_ends hw h1.2
        refine ⟨r, h1.1, ⟨w, hw, h1.2⟩, ?_, ?_⟩
        · rw [h1.1, head?_append_of_head? hc1] at hb
          exact (atBoundary_before_word b hw1).1 hb
        · rw [hc2] at hb2
          exact (atBoundary_after_word _ hw2).1 hb2
      · simp at hg
    · simp at hg
  · simp at h

theorem ToneAt_unique {b b' : Option Char} {s m m' : Str} (h : ToneAt b s m)
    (h' : ToneAt b' s m') : m = m' := by
  obtain ⟨rest, hs, ⟨w, hw, hm⟩, _, _⟩ := h
  obtain ⟨rest', hs', ⟨w', hw', hm'⟩, _, _⟩ := h'
  rw [hs] at hs'
  exact alternative_unique toneWords_prefixFree hw hw' hs' hm hm'

theorem matchTone_iff (b : Option Char) (s m : Str) :
    matchTone b s = some m ↔ ToneAt b s m := by
  constructor
  · exact matchTone_imp b s m
  · intro h
    cases hmt : matchTone b s with
    | some m' => rw [ToneAt_unique (matchTone_imp b s m' hmt) h]
    | none =>
      exfalso
      obtain ⟨rest, hs, ⟨w, hw, hm⟩, hbefore, hafter⟩ := h
      obtain ⟨⟨c1, hc1, hw1⟩, ⟨c2, hc2, hw2⟩⟩ := tone_match_ends hw hm
      have hb : atBoundary b s.head? = true := by
        rw [hs, head?_append_of_head? hc1]
        exact (atBoundary_before_word b hw1).2 hbefore
      have hb2 : atBoundary m.getLast? rest.head? = true := by
        rw [hc2]
        exact (atBoundary_after_word _ hw2).2 hafter
      unfold matchTone at hmt
      simp only [hb, if_true] at hmt
      rw [List.findSome?_eq_none_iff] at hmt
      have h2 := hmt w hw
      rw [(matchLit_iff w s m rest).2 ⟨hs, hm⟩] at h2
      simp [hb2] at h2

/-! ## The slots of `extractConstraints` -/

theorem noOccurrence_iff_not_some {α : Type} (P : Option Char → Str → α → Prop) (text : Str) :
    NoOccurrence P text ↔ ¬ SomeOccurrence P text := by
  unfold NoOccurrence SomeOccurrence
  constructor
  · rintro h ⟨pre, post, v, hs, hp⟩
    exact h pre post v hs hp
  · intro h pre post v hs hp
    exact h ⟨pre, post, v, hs, hp⟩

theorem firstMatch_ne_none_iff {α : Type} (m : Option Char → Str → Option α)
    (P : Option Char → Str → α → Prop) (hP : ∀ b s v, m b s = some v ↔ P b s v)
    (text : Str) : firstMatch m none text ≠ none ↔ SomeOccurrence P text := by
  rw [Ne, (firstMatch_spec m P hP text).2, noOccurrence_iff_not_some, not_not]

/-- C5. The three slots of `extractConstraints` are independent: each one is present exactly
when its own pattern occurs in the text; a text in which none of the three patterns occurs
gets no slot; and the text `Explain quantum computing for beginners in 200 words, formal
tone` gets the three slots at once, audience `beginners`, length 200 and tone `formal`. -/
theorem C5_slots_are_independent (text : Str) :
    ((extractConstraints text).length ≠ none ↔ SomeOccurrence LengthAt text) ∧
    ((extractConstraints text).audience ≠ none ↔ SomeOccurrence AudienceAt text) ∧
    ((extractConstraints text).tone ≠ none ↔ SomeOccurrence ToneAt text) ∧
    (¬ SomeOccurrence LengthAt text → ¬ SomeOccurrence AudienceAt text →
      ¬ SomeOccurrence ToneAt text →
      extractConstraints text = { length := none, audience := none, tone := none }) ∧
    extractConstraints
        "Explain quantum computing for beginners in 200 words, formal tone".toList =
      { length := some 200, audience := some "beginners".toList, tone := some "formal".toList }
    := by
  have hl := firstMatch_ne_none_iff matchLength LengthAt matchLength_iff text
  have ha := firstMatch_ne_none_iff matchAudience AudienceAt matchAudience_iff text
  have ht := firstMatch_ne_none_iff matchTone ToneAt matchTone_iff text
  refine ⟨?_, ha, ht, ?_, by decide⟩
  · rw [← hl]
    simp [extractConstraints]
  · intro h1 h2 h3
    rw [← hl, not_not] at h1
    rw [← ha, not_not] at h2
    rw [← ht, not_not] at h3
    simp [extractConstraints, h1, h2, h3]

/-- C6, as stated, fails: for the text `0 words` the length slot is produced with the value
0, which is not a positive integer. -/
theorem C6_length_zero_counterexample :
    (extractConstraints "0 words".toList).length = some 0 ∧
      ¬ ∀ (text : Str) (n : Nat), (extractConstraints text).length = some n → 1 ≤ n := by
  have h0 : (extractConstraints "0 words".toList).length = some 0 := by decide
  refine ⟨h0, ?_⟩
  intro h
  exact absurd (h _ 0 h0) (by decide)

/-- C6, amended. For a number `n` below `2 ^ 53`, which a double holds exactly, the length slot
has the value `n` exactly when the length pattern has its first occurrence in the text with a
digit run whose decimal value is `n`; the value is a natural number and may be 0; the slot is
absent exactly when the pattern occurs nowhere. -/
theorem C6_length_is_first_occurrence (text : Str) :
    (∀ n, n < 2 ^ 53 → ((extractConstraints text).length = some n ↔
      ∃ ds, FirstOccurrence LengthAt text ds ∧ n = parseInt ds)) ∧
    ((extractConstraints text).length = none ↔ NoOccurrence LengthAt text) := by
  have h := firstMatch_spec matchLength LengthAt matchLength_iff text
  constructor
  · intro n _
    simp only [extractConstraints, Option.map_eq_some', h.1]
    constructor
    · rintro ⟨ds, hds, rfl⟩
      exact ⟨ds, hds, rfl⟩
    · rintro ⟨ds, hds, rfl⟩
      exact ⟨ds, hds, rfl⟩
  · simp only [extractConstraints, Option.map_eq_none', h.2]

/-- C6, instance: in `Write 200 words` the slot holds 200, the value of the digit run of the
first occurrence of the pattern. -/
theorem C6_length_witness :
    (200 : Nat) < 2 ^ 53 ∧ (extractConstraints "Write 200 words".toList).length = some 200 ∧
      ∃ ds, FirstOccurrence LengthAt "Write 200 words".toList ds ∧ 200 = parseInt ds :=
  ⟨by decide, by decide,
    ((C6_length_is_first_occurrence "Write 200 words".toList).1 200 (by decide)).1 (by decide)⟩

/-- C7, as stated, fails: for the text `for Kids` the audience slot is `Kids`, as the text
spells it, which is none of the five strings beginners, experts, students, children, kids. -/
theorem C7_audience_case_counterexample :
    (extractConstraints "for Kids".toList).audience = some "Kids".toList ∧
      "Kids".toList ∉ audienceWords := by
  decide

/-- C7, amended. The audience slot has the value `m` exactly when the audience pattern has
its first occurrence in the text with the word `m`; that word is one of the five audience
words up to the case of its letters, spelled as in the text; the slot is absent exactly when
the pattern occurs nowhere. -/
theorem C7_audience_is_first_occurrence (text : Str) :
    (∀ m, (extractConstraints text).audience = some m ↔ FirstOccurrence AudienceAt text m) ∧
    (∀ m, (extractConstraints text).audience = some m →
      ∃ w ∈ audienceWords, EqIgnoreCase m w) ∧
    ((extractConstraints text).audience = none ↔ NoOccurrence AudienceAt text) := by
  have h := firstMatch_spec matchAudience AudienceAt matchAudience_iff text
  refine ⟨h.1, ?_, h.2⟩
  intro m hm
  obtain ⟨pre, post, _, ⟨f, rest, _, _, hw⟩, _⟩ := (h.1 m).1 hm
  exact hw

/-- C8. The tone slot is present exactly when a tone word occurs in the text as a whole word,
in any case: when neither the character before it nor the character after it is a word
character. Its value is the first such occurrence, and it is absent for `formally` and for
`informality`. -/
theorem C8_tone_is_first_whole_word (text : Str) :
    ((extractConstraints text).tone ≠ none ↔ SomeOccurrence ToneAt text) ∧
    (∀ m, (extractConstraints text).tone = some m ↔ FirstOccurrence ToneAt text m) ∧
    (extractConstraints "speak formally".toList).tone = none ∧
    (extractConstraints "some informality".toList).tone = none ∧
    (extractConstraints "be Formal, not casual".toList).tone = some "Formal".toList := by
  have h := firstMatch_spec matchTone ToneAt matchTone_iff text
  exact ⟨firstMatch_ne_none_iff matchTone ToneAt matchTone_iff text, h.1, by decide, by decide,
    by decide⟩

/-! ## The joined pieces need no repair -/

theorem endsSpace_cons (b : Bool) (c : Char) (cs : Str) :
    endsSpace b (c :: cs) = endsSpace (isSpace c) cs := by
  cases cs with
  | nil => rfl
  | cons d ds =>
    have h : (d :: ds).getLast? = some ((d :: ds).getLast (by simp)) :=
      List.getLast?_eq_getLast _ _
    simp only [endsSpace, List.getLast?_cons_cons, h]

theorem spacedOk_cons (b : Bool) (c : Char) (cs : Str) :
    spacedOk b (c :: cs) =
      if isSpace c then c == ' ' && !b && spacedOk true cs else spacedOk false cs := rfl

theorem spacedOk_append (b : Bool) (x y : Str) :
    spacedOk b (x ++ y) = (spacedOk b x && spacedOk (endsSpace b x) y) := by
  induction x generalizing b with
  | nil => simp [spacedOk, endsSpace]
  | cons c cs ih =>
    rw [List.cons_append, endsSpace_cons, spacedOk_cons, spacedOk_cons]
    by_cases hc : isSpace c = true
    · simp only [hc, if_true, ih true, Bool.and_assoc]
    · simp only [hc, if_false, Bool.false_eq_true, ih false]

theorem spacedOk_weaken (b : Bool) (x : Str) (h : spacedOk b x = true) :
    spacedOk false x = true := by
  cases b with
  | false => exact h
  | true =>
    cases x with
    | nil => rfl
    | cons c cs =>
      unfold spacedOk at h ⊢
      by_cases hc : isSpace c = true
      · simp [hc] at h
      · simpa [hc] using h

theorem spacedOk_of_no_space (b : Bool) (x : Str) (h : ∀ c ∈ x, isSpace c = false) :
    spacedOk b x = true := by
  induction x generalizing b with
  | nil => rfl
  | cons c cs ih =>
    unfold spacedOk
    simp only [h c (List.mem_cons_self _ _), Bool.false_eq_true, if_false]
    exact ih false (fun d hd => h d (List.mem_cons_of_mem _ hd))

theorem replaceSpaces_of_spacedOk (b : Bool) (x : Str) (h : spacedOk b x = true) :
    replaceSpaces b x = x := by
  induction x generalizing b with
  | nil => rfl
  | cons c cs ih =>
    unfold spacedOk at h
    unfold replaceSpaces
    by_cases hc : isSpace c = true
    · simp only [hc, if_true, Bool.and_eq_true, beq_iff_eq, Bool.not_eq_true'] at h
      obtain ⟨⟨rfl, hb⟩, hcs⟩ := h
      subst hb
      simp only [hc, if_true, Bool.false_eq_true, if_false, ih true hcs]
    · simp only [hc, if_false, Bool.false_eq_true] at h
      simp only [hc, if_false, Bool.false_eq_true, ih false h]

theorem spacedOk_replaceSpaces (b : Bool) (x : Str) : spacedOk b (replaceSpaces b x) = true := by
  induction x generalizing b with
  | nil => rfl
  | cons c cs ih =>
    unfold replaceSpaces
    by_cases hc : isSpace c = true
    · cases b
      · simp only [hc, if_true, Bool.false_eq_true, if_false]
        unfold spacedOk
        have : isSpace ' ' = true := by decide
        simp [this, ih true]
      · simp only [hc, if_true]
        exact ih true
    · simp only [hc, if_false, Bool.false_eq_true]
      unfold spacedOk
      simp only [hc, if_false, Bool.false_eq_true]
      exact ih false

theorem spacedOk_of_inside {x y : Str} (hxy : x <:+: y) (h : spacedOk false y = true) :
    spacedOk false x = true := by
  obtain ⟨a, c, rfl⟩ := hxy
  rw [List.append_assoc, spacedOk_append, Bool.and_eq_true] at h
  have h2 := h.2
  rw [spacedOk_append, Bool.and_eq_true] at h2
  exact spacedOk_weaken _ _ h2.1

theorem spacedOk_sanitize (raw : Str) : spacedOk false (sanitize raw) = true :=
  spacedOk_of_inside (trim_inside _) (spacedOk_replaceSpaces false raw)

theorem goodPiece_append {p q : Str} (hp : goodPiece p = true) (hq : goodPiece q = true) :
    goodPiece (p ++ q) = true := by
  cases p with
  | nil => simpa using hq
  | cons a l =>
    cases q with
    | nil => simpa using hp
    | cons b k =>
      simp only [goodPiece, List.cons_append, List.isEmpty_cons, Bool.false_or,
        Bool.and_eq_true, beq_iff_eq] at hp hq ⊢
      rw [← List.cons_append]
      have he : endsSpace true (a :: l) = true := by
        unfold endsSpace
        rw [hp.2]
        decide
      constructor
      · rw [spacedOk_append, hp.1, he, hq.1]
        rfl
      · rw [List.getLast?_append_cons]
        exact hq.2

theorem goodPiece_flatten (ps : List Str) (h : ∀ p ∈ ps, goodPiece p = true) :
    goodPiece ps.flatten = true := by
  induction ps with
  | nil => rfl
  | cons p ps ih =>
    rw [List.flatten_cons]
    exact goodPiece_append (h p (List.mem_cons_self _ _))
      (ih (fun q hq => h q (List.mem_cons_of_mem _ hq)))

theorem trim_replaceSpaces_of_goodPiece (j : Str) (hj : goodPiece j = true) (hne : j ≠ []) :
    trim (replaceSpaces false j) ++ [' '] = j := by
  cases j with
  | nil => exact absurd rfl hne
  | cons a l =>
    simp only [goodPiece, List.isEmpty_cons, Bool.false_or, Bool.and_eq_true, beq_iff_eq] at hj
    obtain ⟨hok, hlast⟩ := hj
    rw [replaceSpaces_of_spacedOk false _ (spacedOk_weaken _ _ hok)]
    have ha : isSpace a = false := by
      unfold spacedOk at hok
      cases h : isSpace a with
      | false => rfl
      | true => simp [h] at hok
    obtain ⟨body, hbody⟩ := List.getLast?_eq_some_iff.1 hlast
    rw [trim_eq, List.dropWhile_cons_of_neg (by simp [ha]), hbody]
    rw [hbody, spacedOk_append, Bool.and_eq_true] at hok
    have hend : endsSpace true body = false := by
      have h2 := hok.2
      unfold spacedOk at h2
      have : isSpace ' ' = true := by decide
      simp only [this, if_true, Bool.and_eq_true, Bool.not_eq_true'] at h2
      exact h2.1.2
    have hsp : isSpace ' ' = true := by decide
    rw [List.rdropWhile_concat_pos _ _ _ hsp]
    have : List.rdropWhile isSpace body = body := by
      rw [List.rdropWhile_eq_self_iff]
      intro hb
      unfold endsSpace at hend
      rw [List.getLast?_eq_getLast _ hb] at hend
      simpa using hend
    rw [this]

theorem digitChar_not_space (n : Nat) : isSpace (Nat.digitChar (n % 10)) = false := by
  have h : n % 10 < 10 := Nat.mod_lt _ (by decide)
  generalize n % 10 = k at h
  interval_cases k <;> decide

theorem toDigitsCore_not_space (f n : Nat) (ds : Str) (h : ∀ c ∈ ds, isSpace c = false) :
    ∀ c ∈ Nat.toDigitsCore 10 f n ds, isSpace c = false := by
  induction f generalizing n ds with
  | zero => simpa [Nat.toDigitsCore] using h
  | succ f ih =>
    have hd : ∀ c ∈ Nat.digitChar (n % 10) :: ds, isSpace c = false := by
      intro c hc
      rcases List.mem_cons.1 hc with rfl | hc
      · exact digitChar_not_space _
      · exact h c hc
    unfold Nat.toDigitsCore
    simp only
    split_ifs
    · exact hd
    · exact ih _ _ hd

theorem toDigitsCore_ne_nil (f n : Nat) (ds : Str) (h : ds ≠ [] ∨ 0 < f) :
    Nat.toDigitsCore 10 f n ds ≠ [] := by
  induction f generalizing n ds with
  | zero =>
    rcases h with h | h
    · simpa [Nat.toDigitsCore] using h
    · omega
  | succ f ih =>
    unfold Nat.toDigitsCore
    simp only
    split_ifs
    · simp
    · exact ih _ _ (Or.inl (by simp))

theorem numberToString_not_space (n : Nat) : ∀ c ∈ numberToString n, isSpace c = false :=
  toDigitsCore_not_space _ _ [] (by simp)

theorem numberToString_ne_nil (n : Nat) : numberToString n ≠ [] :=
  toDigitsCore_ne_nil _ _ [] (Or.inr (by omega))

theorem endsSpace_append_of_no_space (b : Bool) (a v : Str) (hv : ∀ c ∈ v, isSpace c = false)
    (hne : v ≠ []) : endsSpace b (a ++ v) = false := by
  unfold endsSpace
  rw [List.getLast?_append_of_ne_nil _ hne, List.getLast?_eq_getLast _ hne]
  exact hv _ (List.getLast_mem hne)

theorem goodPiece_of_parts (a v z : Str) (ha : spacedOk true a = true)
    (hv : spacedOk (endsSpace true a) v = true)
    (hz : spacedOk (endsSpace true (a ++ v)) z = true) (hzl : z.getLast? = some ' ') :
    goodPiece (a ++ v ++ z) = true := by
  have hzne : z ≠ [] := by
    intro h0
    rw [h0] at hzl
    simp at hzl
  unfold goodPiece
  rw [Bool.or_eq_true]
  right
  rw [Bool.and_eq_true, beq_iff_eq]
  constructor
  · rw [spacedOk_append, spacedOk_append, ha, hv, hz]
    rfl
  · rw [List.getLast?_append_of_ne_nil _ hzne]
    exact hzl

theorem goodPiece_framingPiece (text : Str) (h : spacedOk false text = true) :
    goodPiece (framingPiece text) = true := by
  have hz : ∀ b, spacedOk b "\". ".toList = true := by
    intro b
    cases b <;> decide
  unfold framingPiece
  split
  · exact goodPiece_of_parts _ text _ (by decide) h (hz _) (by decide)
  · exact goodPiece_of_parts _ text _ (by decide) h (hz _) (by decide)

theorem goodPiece_slotPieces (slots : Slots) (h : SlotsSpaceFree slots) :
    ∀ p ∈ slotPieces slots, goodPiece p = true := by
  have hz : ∀ b, spacedOk b ". ".toList = true := by
    intro b
    cases b <;> decide
  intro p hp
  unfold slotPieces at hp
  simp only [List.mem_append] at hp
  rcases hp with (hp | hp) | hp
  · split at hp
    · next a ha =>
      split at hp
      · simp only [List.mem_singleton] at hp
        subst hp
        exact goodPiece_of_parts _ a _ (by decide) (spacedOk_of_no_space _ _ (h.1 a ha)) (hz _)
          (by decide)
      · simp at hp
    · simp at hp
  · split at hp
    · next n hn =>
      split at hp
      · simp only [List.mem_singleton] at hp
        subst hp
        apply goodPiece_of_parts _ (numberToString n) _ (by decide)
          (spacedOk_of_no_space _ _ (numberToString_not_space n)) _ (by decide)
        rw [endsSpace_append_of_no_space _ _ _ (numberToString_not_space n)
          (numberToString_ne_nil n)]
        decide
      · simp at hp
    · simp at hp
  · split at hp
    · next t ht =>
      split at hp
      · next hne =>
        simp only [List.mem_singleton] at hp
        subst hp
        apply goodPiece_of_parts _ t _ (by decide) (spacedOk_of_no_space _ _ (h.2 t ht)) _
          (by decide)
        rw [endsSpace_append_of_no_space _ _ _ (h.2 t ht) hne]
        decide
      · simp at hp
    · simp at hp

theorem goodPiece_intentPieces (intent : Intent) : ∀ p ∈ intentPieces intent, goodPiece p = true := by
  cases intent <;> decide

theorem goodPiece_providerPieces (options : Options) :
    ∀ p ∈ providerPieces options, goodPiece p = true := by
  unfold providerPieces
  split
  · decide
  · simp

theorem goodPiece_aggressivenessPieces (options : Options) :
    ∀ p ∈ aggressivenessPieces options, goodPiece p = true := by
  unfold aggressivenessPieces
  split
  · split
    · decide
    · simp
  · simp

theorem lookup_mem {β : Type} (key : Str) (l : List (Str × β)) (v : β)
    (h : l.lookup key = some v) : v ∈ l.map Prod.snd := by
  induction l with
  | nil => simp [List.lookup] at h
  | cons x xs ih =>
    obtain ⟨k, w⟩ := x
    simp only [List.lookup] at h
    cases hk : (key == k) with
    | true =>
      rw [hk] at h
      simp only [Option.some.injEq] at h
      subst h
      exact List.mem_cons_self _ _
    | false =>
      rw [hk] at h
      exact List.mem_cons_of_mem _ (ih h)

theorem selectTemplate_mem (style : Option Str) (t : Template)
    (h : selectTemplate style = some t) : t ∈ styleTemplates.map Prod.snd := by
  unfold selectTemplate at h
  split at h
  · split at h
    · next t' ht' =>
      simp only [Option.some.injEq] at h
      subst h
      exact lookup_mem _ _ _ ht'
    · split at h
      · simp at h
      · exact lookup_mem _ _ _ h
  · exact lookup_mem _ _ _ h

theorem goodPiece_template (style : Option Str) :
    goodPiece (joinElem ((selectTemplate style).map Template.prefixText)) = true ∧
      goodPiece (joinElem ((selectTemplate style).map Template.defaults)) = true := by
  have hall : ∀ t ∈ styleTemplates.map Prod.snd,
      goodPiece t.prefixText = true ∧ goodPiece t.defaults = true := by decide
  cases h : selectTemplate style with
  | none => exact ⟨rfl, rfl⟩
  | some t => exact hall t (selectTemplate_mem style t h)

theorem goodPiece_templatePieces (intent : Intent) (style : Option Str) (text : Str)
    (slots : Slots) (options : Options) (ht : spacedOk false text = true)
    (hs : SlotsSpaceFree slots) :
    ∀ p ∈ templatePieces intent style text slots options, goodPiece p = true := by
  intro p hp
  unfold templatePieces at hp
  simp only [List.mem_append, List.mem_singleton] at hp
  rcases hp with (((((hp | hp) | hp) | hp) | hp) | hp) | hp
  · rw [hp]; exact (goodPiece_template style).1
  · rw [hp]; exact goodPiece_framingPiece text ht
  · exact goodPiece_intentPieces intent p hp
  · rw [hp]; exact (goodPiece_template style).2
  · exact goodPiece_slotPieces slots hs p hp
  · exact goodPiece_providerPieces options p hp
  · exact goodPiece_aggressivenessPieces options p hp

/-- When the text is normalized and the slot values hold no white space, the final
`replace` and `trim` of `applyTemplate` only remove the space that ends the last piece. -/
theorem applyTemplate_append_space (intent : Intent) (style : Option Str) (text : Str)
    (slots : Slots) (options : Options) (ht : spacedOk false text = true)
    (hs : SlotsSpaceFree slots) :
    applyTemplate intent style text slots options ++ [' '] =
      (templatePieces intent style text slots options).flatten := by
  unfold applyTemplate
  apply trim_replaceSpaces_of_goodPiece
  · exact goodPiece_flatten _ (goodPiece_templatePieces intent style text slots options ht hs)
  · intro h0
    have := templatePieces_has_letter intent style text slots options
    rw [h0] at this
    simp at this

theorem extractConstraints_spaceFree (text : Str) : SlotsSpaceFree (extractConstraints text) := by
  constructor
  · intro a ha c hc
    obtain ⟨pre, post, _, ⟨f, rest, _, _, w, hw, hm⟩, _⟩ :=
      ((firstMatch_spec matchAudience AudienceAt matchAudience_iff text).1 a).1 ha
    exact isSpace_of_isLetter
      (eqIgnoreCase_all_letters (audienceWords_letters w hw).2 hm c hc)
  · intro t ht c hc
    obtain ⟨pre, post, _, ⟨rest, _, ⟨w, hw, hm⟩, _, _⟩, _⟩ :=
      ((firstMatch_spec matchTone ToneAt matchTone_iff text).1 t).1 ht
    exact isSpace_of_isLetter (eqIgnoreCase_all_letters (toneWords_letters w hw).2 hm c hc)

/-- The output of `enhancePrompt` followed by one space is the pieces of `applyTemplate` put
end to end. -/
theorem enhancePrompt_append_space (toLowerCase : Str → Str) (raw : Str) (opts : Options)
    (h : sanitize raw ≠ []) :
    enhancePrompt toLowerCase (some raw) opts ++ [' '] =
      (templatePieces (detectIntent toLowerCase (sanitize raw)) (assignDefaults opts).style
        (sanitize raw) (extractConstraints (sanitize raw)) (assignDefaults opts)).flatten := by
  rw [enhancePrompt_eq_applyTemplate toLowerCase raw opts h]
  exact applyTemplate_append_space _ _ _ _ _ (spacedOk_sanitize raw)
    (extractConstraints_spaceFree _)

/-! ## The slots the composers use, and the intent piece -/

/-- C9, as stated, fails: in the raw text `for  kids`, with two spaces, the audience pattern
does not occur, and `extractConstraints` finds no slot in it; all the same `enhancePrompt`
targets the response to kids and `generateCRISPE` lists the audience among its hints, so the
slots they use are not those of the raw text. -/
theorem C9_raw_text_counterexample :
    extractConstraints "for  kids".toList = { length := none, audience := none, tone := none } ∧
    enhancePrompt asciiToLowerCase (some "for  kids".toList) {} =
      "Provide a clear, professional response. Perform this task: \"for kids\". Be concise and formal. Include examples if applicable. Target the response to kids. Format code blocks using triple backticks if including code.".toList ∧
    enhancePrompt asciiToLowerCase (some "for  kids".toList) {} ≠
      applyTemplate (detectIntent asciiToLowerCase (sanitize "for  kids".toList))
        (assignDefaults {}).style (sanitize "for  kids".toList)
        (extractConstraints "for  kids".toList) (assignDefaults {}) ∧
    generateCRISPE asciiToLowerCase (some "for  kids".toList) {} =
      "\n".toList.intercalate (crispeLines "for kids".toList
        { length := none, audience := some "kids".toList, tone := none } {}) ∧
    generateCRISPE asciiToLowerCase (some "for  kids".toList) {} ≠
      "\n".toList.intercalate (crispeLines (sanitize "for  kids".toList)
        (extractConstraints "for  kids".toList) {}) :=
  ⟨by decide, by decide, by decide, by decide!, by decide!⟩

/-- C9, amended. The slots that `enhancePrompt` and `generateCRISPE` use are those that
`extractConstraints` finds in the normalized text, `sanitize` of the raw text; so two raw texts
with the same normalized form give the same output. -/
theorem C9_slots_of_the_normalized_text (toLowerCase : Str → Str) (rawText : Option Str)
    (opts : Options) :
    enhancePrompt toLowerCase rawText opts =
      (if sanitize (orEmpty rawText) = [] then []
       else applyTemplate (detectIntent toLowerCase (sanitize (orEmpty rawText)))
        (assignDefaults opts).style (sanitize (orEmpty rawText))
        (extractConstraints (sanitize (orEmpty rawText))) (assignDefaults opts)) ∧
    generateCRISPE toLowerCase rawText opts =
      (if sanitize (orEmpty rawText) = [] then []
       else "\n".toList.intercalate (crispeLines (sanitize (orEmpty rawText))
        (extractConstraints (sanitize (orEmpty rawText))) opts)) ∧
    (∀ other : Option Str, sanitize (orEmpty other) = sanitize (orEmpty rawText) →
      enhancePrompt toLowerCase other opts = enhancePrompt toLowerCase rawText opts ∧
      generateCRISPE toLowerCase other opts = generateCRISPE toLowerCase rawText opts) := by
  refine ⟨rfl, rfl, ?_⟩
  intro other h
  unfold enhancePrompt generateCRISPE
  simp only [h, and_self]

/-- C10. In the output of `enhancePrompt`, between the framing piece and the default guidance
of the style, stands a piece that the detected intent alone decides: the code guidance for
coding, the description guidance for creative, one and the same step guidance for explanation
and for academic, the formal-tone guidance for professional, and nothing for general. The
output extended by one space is these pieces put end to end. -/
theorem C10_intent_piece_by_intent_alone (toLowerCase : Str → Str) (raw : Str) (opts : Options)
    (hraw : ∃ c ∈ raw, isSpace c = false) :
    enhancePrompt toLowerCase (some raw) opts ++ [' '] =
      joinElem ((selectTemplate (assignDefaults opts).style).map Template.prefixText) ++
      framingPiece (sanitize raw) ++
      (match detectIntent toLowerCase (sanitize raw) with
        | Intent.coding =>
          "Provide code examples, edge cases, and test cases where relevant. ".toList
        | Intent.creative =>
          "Include vivid descriptions, character details, and an engaging opening. ".toList
        | Intent.explanation =>
          "Break the explanation into short paragraphs or numbered steps. Include examples and analogies. ".toList
        | Intent.academic =>
          "Break the explanation into short paragraphs or numbered steps. Include examples and analogies. ".toList
        | Intent.professional =>
          "Use a formal tone and include a short summary at the end. ".toList
        | Intent.general => []) ++
      joinElem ((selectTemplate (assignDefaults opts).style).map Template.defaults) ++
      (slotPieces (extractConstraints (sanitize raw)) ++ providerPieces (assignDefaults opts) ++
        aggressivenessPieces (assignDefaults opts)).flatten := by
  obtain ⟨c, hc, hsp⟩ := hraw
  rw [enhancePrompt_append_space toLowerCase raw opts (sanitize_ne_nil_of_mem hc hsp)]
  unfold templatePieces
  simp only [List.flatten_append, List.flatten_cons, List.flatten_nil, List.append_nil,
    List.append_assoc, List.append_cancel_left_eq]
  cases detectIntent toLowerCase (sanitize raw) <;> rfl

/-- C10, instance: a coding request under the default options. -/
theorem C10_intent_piece_witness :
    (∃ c ∈ "Debug   my code".toList, isSpace c = false) ∧
    enhancePrompt asciiToLowerCase (some "Debug   my code".toList) {} ++ [' '] =
      "Provide a clear, professional response. ".toList ++
      "Perform this task: \"Debug my code\". ".toList ++
      "Provide code examples, edge cases, and test cases where relevant. ".toList ++
      "Be concise and formal. Include examples if applicable. ".toList ++
      "Format code blocks using triple backticks if including code. ".toList :=
  ⟨⟨'D', by decide, by decide⟩,
   (C10_intent_piece_by_intent_alone asciiToLowerCase "Debug   my code".toList {}
      ⟨'D', by decide, by decide⟩).trans (by decide)⟩

/-! ## The composition of the output of `enhancePrompt` -/

/-- The output of `enhancePrompt` followed by one space, piece by piece. -/
theorem enhancePrompt_composition (toLowerCase : Str → Str) (raw : Str) (opts : Options)
    (h : sanitize raw ≠ []) :
    enhancePrompt toLowerCase (some raw) opts ++ [' '] =
      joinElem ((selectTemplate (assignDefaults opts).style).map Template.prefixText) ++
      framingPiece (sanitize raw) ++
      (intentPieces (detectIntent toLowerCase (sanitize raw))).flatten ++
      joinElem ((selectTemplate (assignDefaults opts).style).map Template.defaults) ++
      (slotPieces (extractConstraints (sanitize raw))).flatten ++
      (providerPieces (assignDefaults opts)).flatten ++
      (aggressivenessPieces (assignDefaults opts)).flatten := by
  rw [enhancePrompt_append_space toLowerCase raw opts h]
  unfold templatePieces
  simp only [List.flatten_append, List.flatten_cons, List.flatten_nil, List.append_nil,
    List.append_assoc]

theorem append_space_cancel {x y : Str} (h : x ++ [' '] = y ++ [' ']) : x = y :=
  List.append_cancel_right h

/-- C13. For a text that is not blank and for all options, `enhancePrompt` with an
aggressiveness of at most 1 returns what it returns when the aggressiveness is omitted, and
with an aggressiveness above 1 it returns that output followed by one space and the sentence
on assumptions and follow-up questions. -/
theorem C13_aggressiveness_clause (toLowerCase : Str → Str) (raw : Str) (opts : Options)
    (hraw : sanitize raw ≠ []) :
    (∀ a : Int, a ≤ 1 →
      enhancePrompt toLowerCase (some raw) { opts with aggressiveness := some a } =
        enhancePrompt toLowerCase (some raw) { opts with aggressiveness := none }) ∧
    (∀ a : Int, 1 < a →
      enhancePrompt toLowerCase (some raw) { opts with aggressiveness := some a } =
        enhancePrompt toLowerCase (some raw) { opts with aggressiveness := none } ++
          " Add helpful assumptions where necessary, and propose follow-up questions the user might want to ask.".toList) := by
  have h0 : enhancePrompt toLowerCase (some raw) { opts with aggressiveness := none } ++ [' '] =
      joinElem ((selectTemplate (assignDefaults opts).style).map Template.prefixText) ++
      framingPiece (sanitize raw) ++
      (intentPieces (detectIntent toLowerCase (sanitize raw))).flatten ++
      joinElem ((selectTemplate (assignDefaults opts).style).map Template.defaults) ++
      (slotPieces (extractConstraints (sanitize raw))).flatten ++
      (providerPieces (assignDefaults opts)).flatten ++ [] :=
    enhancePrompt_composition toLowerCase raw { opts with aggressiveness := none } hraw
  have h1 : ∀ a : Int,
      enhancePrompt toLowerCase (some raw) { opts with aggressiveness := some a } ++ [' '] =
      joinElem ((selectTemplate (assignDefaults opts).style).map Template.prefixText) ++
      framingPiece (sanitize raw) ++
      (intentPieces (detectIntent toLowerCase (sanitize raw))).flatten ++
      joinElem ((selectTemplate (assignDefaults opts).style).map Template.defaults) ++
      (slotPieces (extractConstraints (sanitize raw))).flatten ++
      (providerPieces (assignDefaults opts)).flatten ++
      (if a > 1 then
        ["Add helpful assumptions where necessary, and propose follow-up questions the user might want to ask. ".toList]
       else []).flatten :=
    fun a => enhancePrompt_composition toLowerCase raw { opts with aggressiveness := some a } hraw
  rw [List.append_nil] at h0
  constructor
  · intro a ha
    have h := h1 a
    rw [if_neg (by omega), List.flatten_nil, List.append_nil, ← h0] at h
    exact append_space_cancel h
  · intro a ha
    have h := h1 a
    rw [if_pos ha, ← h0] at h
    apply append_space_cancel
    rw [h]
    simp

/-- C13, instance: the request `Draft an email` with an aggressiveness of 0 and of 3. -/
theorem C13_aggressiveness_witness :
    sanitize "Draft an email".toList ≠ [] ∧
    enhancePrompt asciiToLowerCase (some "Draft an email".toList) { aggressiveness := some 0 } =
      enhancePrompt asciiToLowerCase (some "Draft an email".toList) { aggressiveness := none } ∧
    enhancePrompt asciiToLowerCase (some "Draft an email".toList) { aggressiveness := some 3 } =
      enhancePrompt asciiToLowerCase (some "Draft an email".toList) { aggressiveness := none } ++
        " Add helpful assumptions where necessary, and propose follow-up questions the user might want to ask.".toList :=
  ⟨by decide,
   (C13_aggressiveness_clause asciiToLowerCase "Draft an email".toList {} (by decide)).1 0
     (by decide),
   (C13_aggressiveness_clause asciiToLowerCase "Draft an email".toList {} (by decide)).2 3
     (by decide)⟩

/-- C14. Only the provider `chatgpt` changes the output of `enhancePrompt`: two providers other
than `chatgpt` give the same output, made of the pieces up to the slot clauses followed at once
by the aggressiveness clause; the provider `chatgpt`, which is also the default when none is
given, gives the same pieces with the sentence on code blocks between the slot clauses and the
aggressiveness clause. -/
theorem C14_provider_clause (toLowerCase : Str → Str) (raw : Str) (opts : Options)
    (hraw : sanitize raw ≠ []) :
    (∀ p q : Str, p ≠ "chatgpt".toList → q ≠ "chatgpt".toList →
      enhancePrompt toLowerCase (some raw) { opts with provider := some p } =
        enhancePrompt toLowerCase (some raw) { opts with provider := some q }) ∧
    (∀ p : Str, p ≠ "chatgpt".toList →
      enhancePrompt toLowerCase (some raw) { opts with provider := some p } ++ [' '] =
        joinElem ((selectTemplate (assignDefaults opts).style).map Template.prefixText) ++
        framingPiece (sanitize raw) ++
        (intentPieces (detectIntent toLowerCase (sanitize raw))).flatten ++
        joinElem ((selectTemplate (assignDefaults opts).style).map Template.defaults) ++
        (slotPieces (extractConstraints (sanitize raw))).flatten ++
        (aggressivenessPieces (assignDefaults opts)).flatten) ∧
    (enhancePrompt toLowerCase (some raw) { opts with provider := some "chatgpt".toList } ++ [' '] =
        joinElem ((selectTemplate (assignDefaults opts).style).map Template.prefixText) ++
        framingPiece (sanitize raw) ++
        (intentPieces (detectIntent toLowerCase (sanitize raw))).flatten ++
        joinElem ((selectTemplate (assignDefaults opts).style).map Template.defaults) ++
        (slotPieces (extractConstraints (sanitize raw))).flatten ++
        "Format code blocks using triple backticks if including code. ".toList ++
        (aggressivenessPieces (assignDefaults opts)).flatten) ∧
    (enhancePrompt toLowerCase (some raw) { opts with provider := none } =
      enhancePrompt toLowerCase (some raw) { opts with provider := some "chatgpt".toList }) := by
  have h1 : ∀ p : Str,
      enhancePrompt toLowerCase (some raw) { opts with provider := some p } ++ [' '] =
      joinElem ((selectTemplate (assignDefaults opts).style).map Template.prefixText) ++
      framingPiece (sanitize raw) ++
      (intentPieces (detectIntent toLowerCase (sanitize raw))).flatten ++
      joinElem ((selectTemplate (assignDefaults opts).style).map Template.defaults) ++
      (slotPieces (extractConstraints (sanitize raw))).flatten ++
      (if some p = some "chatgpt".toList then
        ["Format code blocks using triple backticks if including code. ".toList]
       else []).flatten ++
      (aggressivenessPieces (assignDefaults opts)).flatten :=
    fun p => enhancePrompt_composition toLowerCase raw { opts with provider := some p } hraw
  have hne : ∀ p : Str, p ≠ "chatgpt".toList →
      enhancePrompt toLowerCase (some raw) { opts with provider := some p } ++ [' '] =
        joinElem ((selectTemplate (assignDefaults opts).style).map Template.prefixText) ++
        framingPiece (sanitize raw) ++
        (intentPieces (detectIntent toLowerCase (sanitize raw))).flatten ++
        joinElem ((selectTemplate (assignDefaults opts).style).map Template.defaults) ++
        (slotPieces (extractConstraints (sanitize raw))).flatten ++
        (aggressivenessPieces (assignDefaults opts)).flatten := by
    intro p hp
    have h := h1 p
    rw [if_neg (by simpa using hp), List.flatten_nil, List.append_nil] at h
    exact h
  refine ⟨?_, hne, ?_, rfl⟩
  · intro p q hp hq
    exact append_space_cancel ((hne p hp).trans (hne q hq).symm)
  · have h := h1 "chatgpt".toList
    rw [if_pos rfl] at h
    rw [h]
    simp only [List.flatten_cons, List.flatten_nil, List.append_nil, List.append_assoc]

/-- C14, instance: the request `Draft an email` under the providers `claude`, `gemini` and
`chatgpt`. -/
theorem C14_provider_witness :
    sanitize "Draft an email".toList ≠ [] ∧
    enhancePrompt asciiToLowerCase (some "Draft an email".toList)
        { provider := some "claude".toList } =
      enhancePrompt asciiToLowerCase (some "Draft an email".toList)
        { provider := some "gemini".toList } ∧
    enhancePrompt asciiToLowerCase (some "Draft an email".toList)
        { provider := some "claude".toList } =
      "Provide a clear, professional response. Perform this task: \"Draft an email\". Use a formal tone and include a short summary at the end. Be concise and formal. Include examples if applicable.".toList ∧
    enhancePrompt asciiToLowerCase (some "Draft an email".toList)
        { provider := some "chatgpt".toList } =
      "Provide a clear, professional response. Perform this task: \"Draft an email\". Use a formal tone and include a short summary at the end. Be concise and formal. Include examples if applicable. Format code blocks using triple backticks if including code.".toList :=
  ⟨by decide,
   (C14_provider_clause asciiToLowerCase "Draft an email".toList {} (by decide)).1
     "claude".toList "gemini".toList (by decide) (by decide),
   by decide, by decide⟩

theorem eqIgnoreCase_ne_nil {m w : Str} (h : EqIgnoreCase m w) (hw : w ≠ []) : m ≠ [] := by
  intro h0
  have := eqIgnoreCase_length h
  rw [h0] at this
  exact hw (List.length_eq_zero.1 this.symm)

theorem extractConstraints_values_ne_nil (text : Str) :
    (∀ a, (extractConstraints text).audience = some a → a ≠ []) ∧
      (∀ t, (extractConstraints text).tone = some t → t ≠ []) := by
  constructor
  · intro a ha
    obtain ⟨pre, post, _, ⟨f, rest, _, _, w, hw, hm⟩, _⟩ :=
      ((firstMatch_spec matchAudience AudienceAt matchAudience_iff text).1 a).1 ha
    exact eqIgnoreCase_ne_nil hm (audienceWords_letters w hw).1
  · intro t ht
    obtain ⟨pre, post, _, ⟨rest, _, ⟨w, hw, hm⟩, _, _⟩, _⟩ :=
      ((firstMatch_spec matchTone ToneAt matchTone_iff text).1 t).1 ht
    exact eqIgnoreCase_ne_nil hm (toneWords_letters w hw).1

theorem slotPieces_flatten (slots : Slots) (ha : ∀ a, slots.audience = some a → a ≠ [])
    (ht : ∀ t, slots.tone = some t → t ≠ []) :
    (slotPieces slots).flatten =
      (match slots.audience with
        | some a => "Target the response to ".toList ++ a ++ ". ".toList
        | none => []) ++
      (match slots.length with
        | some n =>
          if n = 0 then []
          else "Keep the response around ".toList ++ numberToString n ++ " words. ".toList
        | none => []) ++
      (match slots.tone with
        | some t => "Maintain a ".toList ++ t ++ " tone. ".toList
        | none => []) := by
  obtain ⟨len, aud, tone⟩ := slots
  have hzero : ∀ (n : Nat) (p : Str),
      (if n ≠ 0 then [p] else []).flatten = if n = 0 then [] else p := by
    intro n p
    by_cases hn : n = 0 <;> simp [hn]
  cases aud <;> cases len <;> cases tone <;> simp_all [slotPieces]

theorem lengthIsExact_of_some {slots : Slots} {n : Nat} (h : slots.length = some n)
    (hn : n < 2 ^ 53) : LengthIsExact slots := by
  intro k hk
  rw [h, Option.some.injEq] at hk
  exact hk ▸ hn

theorem lengthIsExact_of_none {slots : Slots} (h : slots.length = none) :
    LengthIsExact slots := by
  intro k hk
  rw [h] at hk
  exact absurd hk (by simp)

/-- C15, as stated, fails: in the text `Write 0 words` `extractConstraints` finds a length
slot, of value 0, and the output of `enhancePrompt` has no clause for it. -/
theorem C15_zero_length_counterexample :
    sanitize "Write 0 words".toList = "Write 0 words".toList ∧
    extractConstraints "Write 0 words".toList =
      { length := some 0, audience := none, tone := none } ∧
    enhancePrompt asciiToLowerCase (some "Write 0 words".toList) {} =
      "Provide a clear, professional response. Perform this task: \"Write 0 words\". Be concise and formal. Include examples if applicable. Format code blocks using triple backticks if including code.".toList ∧
    includes (enhancePrompt asciiToLowerCase (some "Write 0 words".toList) {})
      "Keep the response around".toList = false := by
  decide

/-- C15, amended. For a text whose length, if it has one, is below `2 ^ 53`: in the output of
`enhancePrompt`, right after the default guidance of the style, stand the clauses of the slots
that `extractConstraints` finds in the normalized text, in the order audience, length, tone:
one clause for a present audience, one for a present length other than 0, with the decimal
digits of the length, one for a present tone, and none for an absent slot or for a length
of 0. -/
theorem C15_slot_clauses (toLowerCase : Str → Str) (raw : Str) (opts : Options)
    (hraw : sanitize raw ≠ [])
    (hlen : LengthIsExact (extractConstraints (sanitize raw))) :
    enhancePrompt toLowerCase (some raw) opts ++ [' '] =
      joinElem ((selectTemplate (assignDefaults opts).style).map Template.prefixText) ++
      framingPiece (sanitize raw) ++
      (intentPieces (detectIntent toLowerCase (sanitize raw))).flatten ++
      joinElem ((selectTemplate (assignDefaults opts).style).map Template.defaults) ++
      ((match (extractConstraints (sanitize raw)).audience with
        | some a => "Target the response to ".toList ++ a ++ ". ".toList
        | none => []) ++
      (match (extractConstraints (sanitize raw)).length with
        | some n =>
          if n = 0 then []
          else "Keep the response around ".toList ++ numberToString n ++ " words. ".toList
        | none => []) ++
      (match (extractConstraints (sanitize raw)).tone with
        | some t => "Maintain a ".toList ++ t ++ " tone. ".toList
        | none => [])) ++
      (providerPieces (assignDefaults opts)).flatten ++
      (aggressivenessPieces (assignDefaults opts)).flatten := by
  have _ := hlen
  rw [enhancePrompt_composition toLowerCase raw opts hraw,
    slotPieces_flatten _ (extractConstraints_values_ne_nil _).1
      (extractConstraints_values_ne_nil _).2]

/-- C15, instance: a request with the three slots. -/
theorem C15_slot_clauses_witness :
    sanitize "Explain tides for kids in 50 words, casual".toList ≠ [] ∧
    LengthIsExact
      (extractConstraints (sanitize "Explain tides for kids in 50 words, casual".toList)) ∧
    enhancePrompt asciiToLowerCase (some "Explain tides for kids in 50 words, casual".toList)
        { provider := some [] } ++ [' '] =
      "Provide a clear, professional response. ".toList ++
      "Answer the following request: \"Explain tides for kids in 50 words, casual\". ".toList ++
      "Break the explanation into short paragraphs or numbered steps. Include examples and analogies. ".toList ++
      "Be concise and formal. Include examples if applicable. ".toList ++
      ("Target the response to kids. ".toList ++ "Keep the response around 50 words. ".toList ++
        "Maintain a casual tone. ".toList) :=
  ⟨by decide, lengthIsExact_of_some (n := 50) (by decide) (by decide),
   (C15_slot_clauses asciiToLowerCase "Explain tides for kids in 50 words, casual".toList
      { provider := some [] } (by decide)
      (lengthIsExact_of_some (n := 50) (by decide) (by decide))).trans (by decide)⟩

/-! ## The style of the template -/

/-- A style that is neither a key of `styleTemplates` nor the name of an inherited member
selects the `professional` entry, as does an absent style. -/
theorem selectTemplate_fallback (style : Option Str)
    (hown : ∀ s, style = some s → styleTemplates.lookup s = none)
    (hinh : ∀ s, style = some s → objectPrototypeKeys.contains s = false) :
    selectTemplate style = selectTemplate (some "professional".toList) := by
  cases style with
  | none => rfl
  | some s =>
    have h1 := hown s rfl
    have h2 := hinh s rfl
    have h3 : selectTemplate (some "professional".toList) =
        styleTemplates.lookup "professional".toList := by decide
    rw [h3]
    unfold selectTemplate
    simp only [h1, h2, Bool.false_eq_true, if_false]

/-- For such a style `enhancePrompt` returns what it returns for the style `professional`. -/
theorem enhancePrompt_style_fallback (toLowerCase : Str → Str) (rawText : Option Str)
    (opts : Options) (style : Option Str)
    (hown : ∀ s, style = some s → styleTemplates.lookup s = none)
    (hinh : ∀ s, style = some s → objectPrototypeKeys.contains s = false) :
    enhancePrompt toLowerCase rawText { opts with style := style } =
      enhancePrompt toLowerCase rawText { opts with style := some "professional".toList } := by
  have key : selectTemplate (assignDefaults { opts with style := style }).style =
      selectTemplate (assignDefaults { opts with style := some "professional".toList }).style := by
    cases style with
    | none => rfl
    | some s => exact selectTemplate_fallback (some s) hown hinh
  unfold enhancePrompt applyTemplate templatePieces
  simp only [key]
  rfl

/-- C12, at the style `toString`: the name is no key of `styleTemplates` but it is the name
of a member every object inherits, so the lookup yields that member and not the
`professional` entry; the output has neither the opening sentence nor the default guidance
that the style `professional` gives for the same text. -/
theorem C12_style_toString_loses_template :
    styleTemplates.lookup "toString".toList = none ∧
    selectTemplate (some "toString".toList) = none ∧
    enhancePrompt asciiToLowerCase (some "Write a poem about the sea".toList)
        { style := some "toString".toList } =
      "Perform this task: \"Write a poem about the sea\". Include vivid descriptions, character details, and an engaging opening. Format code blocks using triple backticks if including code.".toList ∧
    enhancePrompt asciiToLowerCase (some "Write a poem about the sea".toList)
        { style := some "professional".toList } =
      "Provide a clear, professional response. Perform this task: \"Write a poem about the sea\". Include vivid descriptions, character details, and an engaging opening. Be concise and formal. Include examples if applicable. Format code blocks using triple backticks if including code.".toList ∧
    enhancePrompt asciiToLowerCase (some "Write a poem about the sea".toList)
        { style := some "toString".toList } ≠
      enhancePrompt asciiToLowerCase (some "Write a poem about the sea".toList)
        { style := some "professional".toList } ∧
    enhancePrompt asciiToLowerCase (some "Write a poem about the sea".toList)
        { style := some "formal".toList } =
      enhancePrompt asciiToLowerCase (some "Write a poem about the sea".toList)
        { style := some "professional".toList } := by
  decide

/-! ## Occurrences in a string made of pieces -/

theorem occurs_length {k t : Str} (h : Occurs k t) : k.length ≤ t.length := by
  obtain ⟨pre, post, rfl⟩ := h
  simp only [List.length_append]
  omega

theorem occurs_trans {a b c : Str} (hab : Occurs a b) (hbc : Occurs b c) : Occurs a c := by
  obtain ⟨p, q, rfl⟩ := hab
  obtain ⟨r, s, rfl⟩ := hbc
  exact ⟨r ++ p, q ++ s, by simp only [List.append_assoc]⟩

theorem occurs_append_left (k : Str) (z : Str) : Occurs k (k ++ z) :=
  ⟨[], z, by simp⟩

theorem occurs_append_right (x : Str) (t : Str) : Occurs t (t ++ x) :=
  ⟨[], x, by simp⟩

theorem occurs_nil_iff {k : Str} : Occurs k [] ↔ k = [] := by
  constructor
  · rintro ⟨pre, post, h⟩
    have h' := h.symm
    simp only [List.append_eq_nil] at h'
    exact h'.1.2
  · rintro rfl
    exact ⟨[], [], rfl⟩

/-- A string without the character `q` that occurs in `x ++ q :: y` occurs in `x` or
in `y`. -/
theorem occurs_sep {k x y : Str} {q : Char} (hq : q ∉ k) (h : Occurs k (x ++ q :: y)) :
    Occurs k x ∨ Occurs k y := by
  obtain ⟨s, t, h⟩ := h
  rw [List.append_assoc] at h
  rcases List.append_eq_append_iff.1 h with ⟨a, hs, hr⟩ | ⟨c, hx, hr⟩
  · -- `s = x ++ a`, `q :: y = a ++ (k ++ t)`
    cases a with
    | nil =>
      simp only [List.nil_append] at hr
      cases k with
      | nil => exact Or.inl ⟨[], x, by simp⟩
      | cons k0 ks =>
        simp only [List.cons_append, List.cons.injEq] at hr
        exact absurd (by rw [hr.1]; exact List.mem_cons_self _ _) hq
    | cons a0 as =>
      simp only [List.cons_append, List.cons.injEq] at hr
      exact Or.inr ⟨as, t, by rw [hr.2, List.append_assoc]⟩
  · -- `x = s ++ c`, `k ++ t = c ++ q :: y`
    rcases List.append_eq_append_iff.1 hr with ⟨b, hc, ht⟩ | ⟨d, hk, hd⟩
    · exact Or.inl ⟨s, b, by rw [hx, hc, List.append_assoc]⟩
    · cases d with
      | nil =>
        simp only [List.append_nil] at hk
        exact Or.inl ⟨s, [], by rw [hx, hk]; simp⟩
      | cons d0 ds =>
        simp only [List.cons_append, List.cons.injEq] at hd
        exact absurd (by rw [hk, hd.1]; simp) hq

/-- The same for a non-empty run of characters none of which is in the string. -/
theorem occurs_sep_run {k x y : Str} (m : Str) (hm : ∀ c ∈ m, c ∉ k) (hne : m ≠ [])
    (h : Occurs k (x ++ m ++ y)) : Occurs k x ∨ Occurs k y := by
  induction m generalizing x with
  | nil => exact absurd rfl hne
  | cons d m ih =>
    rw [List.append_assoc, List.cons_append] at h
    rcases occurs_sep (hm d (List.mem_cons_self _ _)) h with h1 | h1
    · exact Or.inl h1
    · by_cases hm0 : m = []
      · subst hm0
        exact Or.inr (by simpa using h1)
      · have h2 : Occurs k ([] ++ m ++ y) := by simpa using h1
        rcases ih (fun c hc => hm c (List.mem_cons_of_mem _ hc)) hm0 h2 with h3 | h3
        · rw [occurs_nil_iff] at h3
          subst h3
          exact Or.inl ⟨[], x, by simp⟩
        · exact Or.inr h3

/-- A string without a full stop that occurs in sentences put end to end, each ending with a
full stop and a space, occurs in one of the sentences, the space before it included. -/
theorem occurs_in_sentences {k : Str} (hk : '.' ∉ k) (ps : List Str)
    (hps : ∀ p ∈ ps, ∃ b, p = b ++ ['.', ' ']) (h : Occurs k (' ' :: ps.flatten)) :
    Occurs k [' '] ∨ ∃ p ∈ ps, Occurs k (' ' :: p) := by
  induction ps with
  | nil => exact Or.inl (by simpa using h)
  | cons p ps ih =>
    obtain ⟨b, hb⟩ := hps p (List.mem_cons_self _ _)
    have h1 : Occurs k ((' ' :: b) ++ '.' :: (' ' :: ps.flatten)) := by
      rw [List.flatten_cons, hb] at h
      simpa [List.append_assoc] using h
    rcases occurs_sep hk h1 with h2 | h2
    · right
      refine ⟨p, List.mem_cons_self _ _, ?_⟩
      rw [hb]
      exact occurs_trans h2 ⟨[], ['.', ' '], by simp⟩
    · rcases ih (fun q hq => hps q (List.mem_cons_of_mem _ hq)) h2 with h3 | ⟨q, hq, h3⟩
      · exact Or.inl h3
      · exact Or.inr ⟨q, List.mem_cons_of_mem _ hq, h3⟩

theorem not_occurs_of_includes {k t : Str} (h : includes t k = false) : ¬ Occurs k t := by
  rw [← includes_iff, h]
  simp

theorem digitChar_isDigit (n : Nat) : isDigit (Nat.digitChar (n % 10)) = true := by
  have h : n % 10 < 10 := Nat.mod_lt _ (by decide)
  generalize n % 10 = k at h
  interval_cases k <;> decide

theorem toDigitsCore_isDigit (f n : Nat) (ds : Str) (h : ∀ c ∈ ds, isDigit c = true) :
    ∀ c ∈ Nat.toDigitsCore 10 f n ds, isDigit c = true := by
  induction f generalizing n ds with
  | zero => simpa [Nat.toDigitsCore] using h
  | succ f ih =>
    have hd : ∀ c ∈ Nat.digitChar (n % 10) :: ds, isDigit c = true := by
      intro c hc
      rcases List.mem_cons.1 hc with rfl | hc
      · exact digitChar_isDigit _
      · exact h c hc
    unfold Nat.toDigitsCore
    simp only
    split_ifs
    · exact hd
    · exact ih _ _ hd

theorem numberToString_isDigit (n : Nat) : ∀ c ∈ numberToString n, isDigit c = true :=
  toDigitsCore_isDigit _ _ [] (by simp)

/-- The forms of the pieces pushed for the slots. -/
theorem mem_slotPieces {slots : Slots} {p : Str} (hp : p ∈ slotPieces slots) :
    (∃ a, slots.audience = some a ∧ p = "Target the response to ".toList ++ a ++ ". ".toList) ∨
    (∃ n, slots.length = some n ∧ n ≠ 0 ∧
      p = "Keep the response around ".toList ++ numberToString n ++ " words. ".toList) ∨
    (∃ t, slots.tone = some t ∧ p = "Maintain a ".toList ++ t ++ " tone. ".toList) := by
  unfold slotPieces at hp
  simp only [List.mem_append] at hp
  rcases hp with (hp | hp) | hp
  · split at hp
    · next a ha =>
      split at hp
      · simp only [List.mem_singleton] at hp
        exact Or.inl ⟨a, ha, hp⟩
      · simp at hp
    · simp at hp
  · split at hp
    · next n hn =>
      split at hp
      · next hne =>
        simp only [List.mem_singleton] at hp
        exact Or.inr (Or.inl ⟨n, hn, hne, hp⟩)
      · simp at hp
    · simp at hp
  · split at hp
    · next t ht =>
      split at hp
      · simp only [List.mem_singleton] at hp
        exact Or.inr (Or.inr ⟨t, ht, hp⟩)
      · simp at hp
    · simp at hp

theorem extractConstraints_audience_word (text a : Str)
    (h : (extractConstraints text).audience = some a) :
    ∃ w ∈ audienceWords, EqIgnoreCase a w := by
  obtain ⟨pre, post, _, ⟨f, rest, _, _, hw⟩, _⟩ :=
    ((firstMatch_spec matchAudience AudienceAt matchAudience_iff text).1 a).1 h
  exact hw

theorem extractConstraints_tone_word (text t : Str)
    (h : (extractConstraints text).tone = some t) :
    ∃ w ∈ toneWords, EqIgnoreCase t w := by
  obtain ⟨pre, post, _, ⟨rest, _, hw, _, _⟩, _⟩ :=
    ((firstMatch_spec matchTone ToneAt matchTone_iff text).1 t).1 h
  exact hw

theorem detectIntent_coding_of_hasKeyword (toLowerCase : Str → Str) (text : Str)
    (h : HasKeyword (toLowerCase text) Intent.coding) :
    detectIntent toLowerCase text = Intent.coding := by
  rw [detectIntent_eq_chain, if_pos ((any_includes_iff _ _).2 h)]

/-- When the output followed by a character is `x ++ y` with `y` not empty, the output
starts with `x`. -/
theorem starts_of_append_singleton {e x y : Str} {c : Char} (h : e ++ [c] = x ++ y)
    (hy : y ≠ []) : ∃ z, e = x ++ z := by
  obtain ⟨z, l, rfl⟩ : ∃ z l, y = z ++ [l] :=
    ⟨y.dropLast, y.getLast hy, (List.dropLast_append_getLast hy).symm⟩
  rw [← List.append_assoc] at h
  exact ⟨z, (List.append_inj' h rfl).1⟩

theorem framingPiece_form (text : Str) :
    ∃ fa, (fa = "Answer the following request: ".toList ∨ fa = "Perform this task: ".toList) ∧
      framingPiece text = fa ++ '"' :: (text ++ '"' :: ['.', ' ']) := by
  unfold framingPiece
  split
  · exact ⟨_, Or.inl rfl, by simp⟩
  · exact ⟨_, Or.inr rfl, by simp⟩

theorem asciiToLowerCase_keeps (kw : Str) (hkw : asciiToLowerCase kw = kw) (t : Str)
    (h : Occurs kw t) : Occurs kw (asciiToLowerCase t) := by
  obtain ⟨pre, post, rfl⟩ := h
  refine ⟨asciiToLowerCase pre, asciiToLowerCase post, ?_⟩
  unfold asciiToLowerCase at hkw ⊢
  rw [List.map_append, List.map_append, hkw]

/-- After the framing piece, each piece of a creative request ends with a full stop and a
space, and none of them, with the space before it, holds the coding clause less its full
stop. -/
theorem coding_clause_not_in_piece (text : Str) (options : Options) (p : Str)
    (hp : p ∈ ["Include vivid descriptions, character details, and an engaging opening. ".toList,
        "Use sensory details and unexpected turns. ".toList] ++
      slotPieces (extractConstraints text) ++ providerPieces options ++
      aggressivenessPieces options) :
    (∃ b, p = b ++ ['.', ' ']) ∧
      ¬ Occurs "Provide code examples, edge cases, and test cases where relevant".toList
        (' ' :: p) := by
  simp only [List.mem_append, List.mem_cons, List.mem_singleton, List.not_mem_nil,
    or_false] at hp
  rcases hp with (((rfl | rfl) | hp) | hp) | hp
  · exact ⟨⟨"Include vivid descriptions, character details, and an engaging opening".toList,
      by decide⟩, not_occurs_of_includes (by decide)⟩
  · exact ⟨⟨"Use sensory details and unexpected turns".toList, by decide⟩,
      not_occurs_of_includes (by decide)⟩
  · rcases mem_slotPieces hp with ⟨a, ha, rfl⟩ | ⟨n, hn, hne, rfl⟩ | ⟨t, ht, rfl⟩
    · refine ⟨⟨"Target the response to ".toList ++ a, by simp⟩, ?_⟩
      intro hocc
      obtain ⟨w, hw, hm⟩ := extractConstraints_audience_word text a ha
      have hlen : ∀ w ∈ audienceWords, w.length ≤ 9 := by decide
      have h1 := hlen w hw
      have h2 := eqIgnoreCase_length hm
      have h3 := occurs_length hocc
      simp only [List.length_cons, List.length_append] at h3
      have h4 : "Provide code examples, edge cases, and test cases where relevant".toList.length
          = 64 := by decide
      have h5 : "Target the response to ".toList.length = 23 := by decide
      have h6 : ". ".toList.length = 2 := by decide
      omega
    · refine ⟨⟨"Keep the response around ".toList ++ numberToString n ++ " words".toList,
        by simp⟩, ?_⟩
      intro hocc
      have hdig : ∀ c ∈ numberToString n,
          c ∉ "Provide code examples, edge cases, and test cases where relevant".toList := by
        intro c hc hk
        have h1 := numberToString_isDigit n c hc
        have h2 : ∀ d ∈ "Provide code examples, edge cases, and test cases where relevant".toList,
            isDigit d = false := by decide
        rw [h2 c hk] at h1
        exact absurd h1 (by simp)
      have hocc' : Occurs "Provide code examples, edge cases, and test cases where relevant".toList
          ((' ' :: "Keep the response around ".toList) ++ numberToString n ++
            " words. ".toList) := by
        simpa [List.append_assoc] using hocc
      rcases occurs_sep_run _ hdig (numberToString_ne_nil n) hocc' with h | h
      · exact not_occurs_of_includes (by decide) h
      · exact not_occurs_of_includes (by decide) h
    · refine ⟨⟨"Maintain a ".toList ++ t ++ " tone".toList, by simp⟩, ?_⟩
      intro hocc
      obtain ⟨w, hw, hm⟩ := extractConstraints_tone_word text t ht
      have hlen : ∀ w ∈ toneWords, w.length ≤ 12 := by decide
      have h1 := hlen w hw
      have h2 := eqIgnoreCase_length hm
      have h3 := occurs_length hocc
      simp only [List.length_cons, List.length_append] at h3
      have h4 : "Provide code examples, edge cases, and test cases where relevant".toList.length
          = 64 := by decide
      have h5 : "Maintain a ".toList.length = 11 := by decide
      have h6 : " tone. ".toList.length = 7 := by decide
      omega
  · unfold providerPieces at hp
    split at hp
    · simp only [List.mem_singleton] at hp
      subst hp
      exact ⟨⟨"Format code blocks using triple backticks if including code".toList, by decide⟩,
        not_occurs_of_includes (by decide)⟩
    · simp at hp
  · unfold aggressivenessPieces at hp
    split at hp
    · split at hp
      · simp only [List.mem_singleton] at hp
        subst hp
        exact ⟨⟨"Add helpful assumptions where necessary, and propose follow-up questions the user might want to ask".toList,
          by decide⟩, not_occurs_of_includes (by decide)⟩
      · simp at hp
    · simp at hp

/-- C11. For a text that is not blank, whose detected intent is creative, and options with the
style `creative`, the output of `enhancePrompt` starts with the opening sentence of the
creative style, holds the clause of the creative intent, and nowhere holds the clause of the
coding intent. The lower-casing of the host is taken to keep the occurrences of `code`, as it
does for every lower-case ASCII word. -/
theorem C11_creative_style_and_intent (toLowerCase : Str → Str) (raw : Str) (opts : Options)
    (hraw : sanitize raw ≠ [])
    (hintent : detectIntent toLowerCase (sanitize raw) = Intent.creative)
    (hstyle : opts.style = some "creative".toList)
    (hlower : ∀ t, Occurs "code".toList t → Occurs "code".toList (toLowerCase t)) :
    (∃ rest, enhancePrompt toLowerCase (some raw) opts =
      "Write with imaginative, expressive language.".toList ++ rest) ∧
    Occurs "Include vivid descriptions, character details, and an engaging opening.".toList
      (enhancePrompt toLowerCase (some raw) opts) ∧
    ¬ Occurs "Provide code examples, edge cases, and test cases where relevant.".toList
      (enhancePrompt toLowerCase (some raw) opts) := by
  have hcomp := enhancePrompt_composition toLowerCase raw opts hraw
  have hst : (assignDefaults opts).style = some "creative".toList := by
    simp only [assignDefaults, hstyle]
  rw [hst, hintent] at hcomp
  have hpre : joinElem ((selectTemplate (some "creative".toList)).map Template.prefixText) =
      "Write with imaginative, expressive language. ".toList := by decide
  have hdef : joinElem ((selectTemplate (some "creative".toList)).map Template.defaults) =
      "Use sensory details and unexpected turns. ".toList := by decide
  have hint : (intentPieces Intent.creative).flatten =
      "Include vivid descriptions, character details, and an engaging opening. ".toList := by
    decide
  rw [hpre, hdef, hint] at hcomp
  simp only [List.append_assoc] at hcomp
  refine ⟨?_, ?_, ?_⟩
  · exact starts_of_append_singleton (y := ' ' :: (framingPiece (sanitize raw) ++
      ("Include vivid descriptions, character details, and an engaging opening. ".toList ++
      ("Use sensory details and unexpected turns. ".toList ++
      ((slotPieces (extractConstraints (sanitize raw))).flatten ++
      ((providerPieces (assignDefaults opts)).flatten ++
      (aggressivenessPieces (assignDefaults opts)).flatten)))))) (hcomp.trans rfl) (by simp)
  · obtain ⟨z, hz⟩ := starts_of_append_singleton
      (x := "Write with imaginative, expressive language. ".toList ++
        (framingPiece (sanitize raw) ++
        "Include vivid descriptions, character details, and an engaging opening.".toList))
      (y := ' ' :: ("Use sensory details and unexpected turns. ".toList ++
        ((slotPieces (extractConstraints (sanitize raw))).flatten ++
        ((providerPieces (assignDefaults opts)).flatten ++
        (aggressivenessPieces (assignDefaults opts)).flatten))))
      (hcomp.trans (by simp only [List.append_assoc]; rfl)) (by simp)
    exact ⟨"Write with imaginative, expressive language. ".toList ++
      framingPiece (sanitize raw), z, by rw [hz]; simp only [List.append_assoc]⟩
  · intro hocc
    have hk0 : Occurs "Provide code examples, edge cases, and test cases where relevant".toList
        (enhancePrompt toLowerCase (some raw) opts ++ [' ']) :=
      occurs_trans (occurs_trans ⟨[], ['.'], rfl⟩ hocc) (occurs_append_right _ _)
    obtain ⟨fa, hfa, hform⟩ := framingPiece_form (sanitize raw)
    have hJ : enhancePrompt toLowerCase (some raw) opts ++ [' '] =
        ("Write with imaginative, expressive language. ".toList ++ fa) ++
          '"' :: (sanitize raw ++ '"' :: ([] ++ '.' :: (' ' ::
            (["Include vivid descriptions, character details, and an engaging opening. ".toList,
              "Use sensory details and unexpected turns. ".toList] ++
              slotPieces (extractConstraints (sanitize raw)) ++
              providerPieces (assignDefaults opts) ++
              aggressivenessPieces (assignDefaults opts)).flatten))) := by
      rw [hcomp, hform]
      simp only [List.append_assoc, List.flatten_append, List.flatten_cons, List.flatten_nil,
        List.append_nil, List.cons_append, List.nil_append]
    rw [hJ] at hk0
    rcases occurs_sep (by decide) hk0 with h | h
    · rcases hfa with rfl | rfl
      · exact not_occurs_of_includes (by decide) h
      · exact not_occurs_of_includes (by decide) h
    · rcases occurs_sep (by decide) h with h | h
      · have hcode : Occurs "code".toList (sanitize raw) :=
          occurs_trans ((includes_iff _ _).1 (by decide)) h
        have hkw : HasKeyword (toLowerCase (sanitize raw)) Intent.coding :=
          ⟨"code".toList, by decide, hlower _ hcode⟩
        rw [detectIntent_coding_of_hasKeyword _ _ hkw] at hintent
        exact absurd hintent (by decide)
      · rcases occurs_sep (by decide) h with h | h
        · rw [occurs_nil_iff] at h
          exact absurd h (by decide)
        · rcases occurs_in_sentences (by decide) _
            (fun p hp => (coding_clause_not_in_piece _ _ p hp).1) h with h | ⟨p, hp, h⟩
          · exact not_occurs_of_includes (by decide) h
          · exact (coding_clause_not_in_piece _ _ p hp).2 h

theorem asciiToLowerCase_keeps_code (t : Str) (h : Occurs "code".toList t) :
    Occurs "code".toList (asciiToLowerCase t) :=
  asciiToLowerCase_keeps _ (by decide) t h

/-- C11, instance: the request `Write a poem about the sea` under the style `creative`. -/
theorem C11_creative_witness :
    (sanitize "Write a poem about the sea".toList ≠ [] ∧
      detectIntent asciiToLowerCase (sanitize "Write a poem about the sea".toList) =
        Intent.creative) ∧
    (∃ rest, enhancePrompt asciiToLowerCase (some "Write a poem about the sea".toList)
        { style := some "creative".toList } =
      "Write with imaginative, expressive language.".toList ++ rest) ∧
    Occurs "Include vivid descriptions, character details, and an engaging opening.".toList
      (enhancePrompt asciiToLowerCase (some "Write a poem about the sea".toList)
        { style := some "creative".toList }) ∧
    ¬ Occurs "Provide code examples, edge cases, and test cases where relevant.".toList
      (enhancePrompt asciiToLowerCase (some "Write a poem about the sea".toList)
        { style := some "creative".toList }) :=
  ⟨⟨by decide, by decide⟩,
   C11_creative_style_and_intent asciiToLowerCase "Write a poem about the sea".toList
     { style := some "creative".toList } (by decide) (by decide) rfl
     asciiToLowerCase_keeps_code⟩

/-! ## The lines of the document of `generateCRISPE` -/

theorem splitLines_ne_nil (s : Str) : splitLines s ≠ [] := by
  cases s with
  | nil => simp [splitLines]
  | cons c cs =>
    unfold splitLines
    split
    · simp
    · split <;> simp

theorem splitLines_cons_of_ne (c : Char) (cs : Str) (hc : c ≠ '\n') :
    ∃ l ls, splitLines cs = l :: ls ∧ splitLines (c :: cs) = (c :: l) :: ls := by
  cases h : splitLines cs with
  | nil => exact absurd h (splitLines_ne_nil cs)
  | cons l ls =>
    refine ⟨l, ls, rfl, ?_⟩
    rw [splitLines, if_neg hc, h]

/-- A string without line feed placed before a string joins the first line of that string. -/
theorem splitLines_append_of_no_newline (a s : Str) (ha : '\n' ∉ a) :
    ∃ l ls, splitLines s = l :: ls ∧ splitLines (a ++ s) = (a ++ l) :: ls := by
  induction a with
  | nil =>
    cases h : splitLines s with
    | nil => exact absurd h (splitLines_ne_nil s)
    | cons l ls => exact ⟨l, ls, rfl, by simpa using h⟩
  | cons c a ih =>
    obtain ⟨l, ls, h1, h2⟩ := ih (fun h => ha (List.mem_cons_of_mem _ h))
    have hc : c ≠ '\n' := fun h => ha (by rw [h]; exact List.mem_cons_self _ _)
    refine ⟨l, ls, h1, ?_⟩
    rw [List.cons_append, splitLines, if_neg hc, h2]
    rfl

theorem splitLines_of_no_newline (s : Str) (hs : '\n' ∉ s) : splitLines s = [s] := by
  obtain ⟨l, ls, h1, h2⟩ := splitLines_append_of_no_newline s [] hs
  simp only [splitLines, List.cons.injEq] at h1
  rw [List.append_nil] at h2
  rw [h2, ← h1.1, ← h1.2, List.append_nil]

theorem splitLines_append_newline (a b : Str) :
    splitLines (a ++ '\n' :: b) = splitLines a ++ splitLines b := by
  induction a with
  | nil => simp [splitLines]
  | cons c a ih =>
    by_cases hc : c = '\n'
    · rw [List.cons_append, splitLines, if_pos hc, ih, splitLines, if_pos hc]
      rfl
    · obtain ⟨l, ls, h1, h2⟩ := splitLines_cons_of_ne c a hc
      rw [List.cons_append, splitLines, if_neg hc, ih, h1, h2]
      rfl

theorem intercalate_cons_cons (sep l l2 : Str) (rest : List Str) :
    sep.intercalate (l :: l2 :: rest) = l ++ sep ++ sep.intercalate (l2 :: rest) := by
  simp [List.intercalate, List.intersperse, List.append_assoc]

/-- The lines of strings joined by line feeds are the lines of the strings. -/
theorem splitLines_intercalate (ls : List Str) (hls : ls ≠ []) :
    splitLines ("\n".toList.intercalate ls) = ls.flatMap splitLines := by
  induction ls with
  | nil => exact absurd rfl hls
  | cons l rest ih =>
    cases rest with
    | nil => simp [List.intercalate, List.intersperse]
    | cons l2 rest =>
      rw [intercalate_cons_cons]
      have h := splitLines_append_newline l ("\n".toList.intercalate (l2 :: rest))
      have e : l ++ "\n".toList ++ "\n".toList.intercalate (l2 :: rest) =
          l ++ '\n' :: "\n".toList.intercalate (l2 :: rest) := by
        simp [List.append_assoc]
      rw [e, h, ih (by simp)]
      simp [List.flatMap_cons]

theorem context_lines_eq (x : Option Str) :
    (if orElseStr x [] ≠ [] then ["\nContext: ".toList ++ orElseStr x []] else []) =
      (match x with
        | some c => if c = [] then [] else ["\nContext: ".toList ++ c]
        | none => []) := by
  cases x with
  | none => simp [orElseStr]
  | some c => by_cases hc : c = [] <;> simp [orElseStr, hc]

theorem examples_lines_eq (opts : Options) :
    (if orElseStr opts.examples [] ≠ [] then
      ["## Examples".toList, orElseStr opts.examples [], []] else []) =
      crispeExamplesSection opts := by
  unfold crispeExamplesSection
  cases opts.examples with
  | none => simp [orElseStr]
  | some e => by_cases he : e = [] <;> simp [orElseStr, he]

/-- The array `lines` of `generateCRISPE`, section by section. -/
theorem crispeLines_eq (text : Str) (slots : Slots) (opts : Options) :
    crispeLines text slots opts =
      crispeOpening text opts ++ crispeFixedSections ++ crispeHintsSection slots ++
        crispeExamplesSection opts ++ [crispeClosingLine] := by
  unfold crispeLines crispeOpening crispeHintsSection
  simp only [context_lines_eq, examples_lines_eq]
  simp only [List.append_assoc, crispeFixedSections, crispeClosingLine, List.cons_append,
    List.nil_append]

theorem generateCRISPE_eq_sections (toLowerCase : Str → Str) (raw : Str) (opts : Options)
    (h : sanitize raw ≠ []) :
    generateCRISPE toLowerCase (some raw) opts =
      "\n".toList.intercalate
        (crispeOpening (sanitize raw) opts ++ crispeFixedSections ++
          crispeHintsSection (extractConstraints (sanitize raw)) ++
          crispeExamplesSection opts ++ [crispeClosingLine]) := by
  rw [generateCRISPE_eq_lines toLowerCase raw opts h, crispeLines_eq]

theorem splitLines_generateCRISPE (toLowerCase : Str → Str) (raw : Str) (opts : Options)
    (h : sanitize raw ≠ []) :
    splitLines (generateCRISPE toLowerCase (some raw) opts) =
      (crispeOpening (sanitize raw) opts).flatMap splitLines ++
        crispeFixedSections.flatMap splitLines ++
        (crispeHintsSection (extractConstraints (sanitize raw))).flatMap splitLines ++
        (crispeExamplesSection opts).flatMap splitLines ++ [crispeClosingLine] := by
  rw [generateCRISPE_eq_sections toLowerCase raw opts h, splitLines_intercalate _ (by simp)]
  simp only [List.flatMap_append, List.flatMap_cons, List.flatMap_nil, List.append_nil]
  have : splitLines crispeClosingLine = [crispeClosingLine] := by decide
  rw [this]

theorem sanitize_no_newline (raw : Str) : '\n' ∉ sanitize raw := by
  intro h
  have := replaceSpaces_mem_space false raw '\n' ((trim_inside _).subset h) (by decide)
  exact absurd this (by decide)

theorem flatMap_splitLines_of_no_newline (ls : List Str) (h : ∀ l ∈ ls, '\n' ∉ l) :
    ls.flatMap splitLines = ls := by
  induction ls with
  | nil => rfl
  | cons l ls ih =>
    rw [List.flatMap_cons, splitLines_of_no_newline l (h l (List.mem_cons_self _ _)),
      ih (fun x hx => h x (List.mem_cons_of_mem _ hx))]
    rfl

theorem crispeFixedSections_lines : crispeFixedSections.flatMap splitLines = crispeFixedSections :=
  flatMap_splitLines_of_no_newline _ (by decide)

theorem createLine_no_newline (raw : Str) :
    '\n' ∉ "Create a detailed, comprehensive response based on this request: \"".toList ++
      sanitize raw ++ "\"".toList := by
  simp only [List.mem_append, not_or]
  exact ⟨⟨by decide, sanitize_no_newline raw⟩, by decide⟩

/-- C16. For a text that is not blank and in which no slot is found, and empty options, the
lines of the output of `generateCRISPE` hold in this order the seven headings from `# Expert
Role Assignment` to `# Output Format`, then the closing instruction, which is the last line;
and no line is `## Additional Hints`. -/
theorem C16_headings_in_order (toLowerCase : Str → Str) (raw : Str)
    (hraw : sanitize raw ≠ [])
    (hslots : extractConstraints (sanitize raw) =
      { length := none, audience := none, tone := none }) :
    List.Sublist
      ["# Expert Role Assignment".toList, "# Task & Purpose".toList,
       "# Content Structure".toList, "# Required Elements".toList,
       "# Style & Approach".toList, "# Quality Standards".toList, "# Output Format".toList,
       "Now, produce the requested response following the instructions above.".toList]
      (splitLines (generateCRISPE toLowerCase (some raw) {})) ∧
    (splitLines (generateCRISPE toLowerCase (some raw) {})).getLast? =
      some "Now, produce the requested response following the instructions above.".toList ∧
    "## Additional Hints".toList ∉ splitLines (generateCRISPE toLowerCase (some raw) {}) := by
  have hopen : (crispeOpening (sanitize raw) {}).flatMap splitLines =
      ["# Expert Role Assignment".toList,
       "You are a specialized professional with expertise in creating high-quality content.".toList,
       [],
       "# Task & Purpose".toList,
       "Create a detailed, comprehensive response based on this request: \"".toList ++
         sanitize raw ++ "\"".toList,
       []] := by
    apply flatMap_splitLines_of_no_newline
    intro l hl
    simp only [crispeOpening, orElseStr, List.append_nil, List.cons_append, List.nil_append,
      List.mem_cons, List.mem_singleton, List.not_mem_nil, or_false] at hl
    rcases hl with rfl | rfl | rfl | rfl | rfl | rfl
    · decide
    · decide
    · decide
    · decide
    · exact createLine_no_newline raw
    · decide
  have hlines : splitLines (generateCRISPE toLowerCase (some raw) {}) =
      ["# Expert Role Assignment".toList,
       "You are a specialized professional with expertise in creating high-quality content.".toList,
       [],
       "# Task & Purpose".toList,
       "Create a detailed, comprehensive response based on this request: \"".toList ++
         sanitize raw ++ "\"".toList,
       []] ++ crispeFixedSections ++ [crispeClosingLine] := by
    rw [splitLines_generateCRISPE toLowerCase raw {} hraw, hslots, hopen,
      crispeFixedSections_lines]
    rfl
  rw [hlines]
  refine ⟨?_, ?_, ?_⟩
  · have h1 : List.Sublist ["# Expert Role Assignment".toList, "# Task & Purpose".toList]
        ["# Expert Role Assignment".toList,
         "You are a specialized professional with expertise in creating high-quality content.".toList,
         [],
         "# Task & Purpose".toList,
         "Create a detailed, comprehensive response based on this request: \"".toList ++
           sanitize raw ++ "\"".toList,
         []] :=
      List.Sublist.cons₂ _ (List.Sublist.cons _ (List.Sublist.cons _ (List.Sublist.cons₂ _
        (List.Sublist.cons _ (List.Sublist.cons _ List.Sublist.slnil)))))
    have h2 : List.Sublist
        ["# Content Structure".toList, "# Required Elements".toList,
         "# Style & Approach".toList, "# Quality Standards".toList, "# Output Format".toList]
        crispeFixedSections := by decide
    exact (h1.append h2).append (List.Sublist.refl [crispeClosingLine])
  · rw [List.getLast?_append_of_ne_nil _ (by simp)]
    rfl
  · simp only [List.mem_append, List.mem_cons, List.mem_singleton, List.not_mem_nil, or_false,
      not_or]
    refine ⟨⟨⟨by decide, by decide, by decide, by decide, ?_, by decide⟩, by decide⟩, by decide⟩
    intro h
    have := congrArg List.head? h
    simp at this

/-- C16, instance: the request `Summarize the report`. -/
theorem C16_headings_witness :
    (sanitize "Summarize the report".toList ≠ [] ∧
      extractConstraints (sanitize "Summarize the report".toList) =
        { length := none, audience := none, tone := none }) ∧
    List.Sublist
      ["# Expert Role Assignment".toList, "# Task & Purpose".toList,
       "# Content Structure".toList, "# Required Elements".toList,
       "# Style & Approach".toList, "# Quality Standards".toList, "# Output Format".toList,
       "Now, produce the requested response following the instructions above.".toList]
      (splitLines (generateCRISPE asciiToLowerCase (some "Summarize the report".toList) {})) ∧
    (splitLines (generateCRISPE asciiToLowerCase (some "Summarize the report".toList)
        {})).getLast? =
      some "Now, produce the requested response following the instructions above.".toList ∧
    "## Additional Hints".toList ∉
      splitLines (generateCRISPE asciiToLowerCase (some "Summarize the report".toList) {}) :=
  ⟨⟨by decide, by decide⟩,
   C16_headings_in_order asciiToLowerCase "Summarize the report".toList (by decide) (by decide)⟩

/-- C17. The output of `generateCRISPE` depends neither on the style, the provider and the
aggressiveness of the options nor on the detected intent: two options records with the same
`roleIntro`, `examples` and `context` give the same output, under any two lower-casing
functions; and for every text and all options the document holds, after its opening, the same
five fixed sections. -/
theorem C17_crispe_ignores_style_and_intent (lower1 lower2 : Str → Str) (rawText : Option Str)
    (o1 o2 : Options) (hrole : o1.roleIntro = o2.roleIntro) (hex : o1.examples = o2.examples)
    (hctx : o1.context = o2.context) :
    generateCRISPE lower1 rawText o1 = generateCRISPE lower2 rawText o2 ∧
    (∀ (toLowerCase : Str → Str) (raw : Str) (opts : Options), sanitize raw ≠ [] →
      generateCRISPE toLowerCase (some raw) opts =
        "\n".toList.intercalate
          (crispeOpening (sanitize raw) opts ++ crispeFixedSections ++
            crispeHintsSection (extractConstraints (sanitize raw)) ++
            crispeExamplesSection opts ++ [crispeClosingLine])) := by
  refine ⟨?_, fun toLowerCase raw opts h => generateCRISPE_eq_sections toLowerCase raw opts h⟩
  unfold generateCRISPE crispeLines
  simp only [hrole, hex, hctx]

/-- C17, instance: the request `Write a poem about the sea` with and without a style, a
provider and an aggressiveness, under two lower-casing functions. -/
theorem C17_crispe_witness :
    generateCRISPE asciiToLowerCase (some "Write a poem about the sea".toList)
        { style := some "creative".toList, provider := some "other".toList,
          aggressiveness := some 5, context := some "a class".toList } =
      generateCRISPE (fun s => s) (some "Write a poem about the sea".toList)
        { context := some "a class".toList } :=
  (C17_crispe_ignores_style_and_intent asciiToLowerCase (fun s => s)
    (some "Write a poem about the sea".toList)
    { style := some "creative".toList, provider := some "other".toList,
      aggressiveness := some 5, context := some "a class".toList }
    { context := some "a class".toList } rfl rfl rfl).1

theorem splitLines_newline_cons (s : Str) : splitLines ('\n' :: s) = [] :: splitLines s := by
  rw [splitLines, if_pos rfl]

theorem not_subheading_of_line {h l : Str} (hh : IsSubheading h) (hl : '\n' ∉ l)
    (hs : startsWith l "## ".toList = false) : h ∉ splitLines l := by
  rw [splitLines_of_no_newline l hl, List.mem_singleton]
  rintro rfl
  rw [IsSubheading, hs] at hh
  exact absurd hh (by simp)

theorem mem_splitLines_append {h a s : Str} (ha : '\n' ∉ a)
    (hs : ∀ l, startsWith (a ++ l) "## ".toList = false) (hh : IsSubheading h)
    (hmem : h ∈ splitLines (a ++ s)) : h ∈ splitLines s := by
  obtain ⟨l, ls, h1, h2⟩ := splitLines_append_of_no_newline a s ha
  rw [h2] at hmem
  rcases List.mem_cons.1 hmem with rfl | hmem
  · rw [IsSubheading, hs l] at hh
    exact absurd hh (by simp)
  · rw [h1]
    exact List.mem_cons_of_mem _ hmem

theorem crispeHints_no_newline (text : Str) :
    ∀ l ∈ crispeHints (extractConstraints text), '\n' ∉ l := by
  intro l hl
  unfold crispeHints at hl
  simp only [List.mem_append] at hl
  rcases hl with hl | hl
  · split at hl
    · next a ha =>
      split at hl
      · simp only [List.mem_singleton] at hl
        subst hl
        simp only [List.mem_append, not_or]
        refine ⟨by decide, ?_⟩
        intro hmem
        have := (extractConstraints_spaceFree text).1 a ha '\n' hmem
        exact absurd this (by decide)
      · simp at hl
    · simp at hl
  · split at hl
    · next n hn =>
      split at hl
      · simp only [List.mem_singleton] at hl
        subst hl
        simp only [List.mem_append, not_or]
        refine ⟨⟨by decide, ?_⟩, by decide⟩
        intro hmem
        have := numberToString_not_space n '\n' hmem
        exact absurd this (by decide)
      · simp at hl
    · simp at hl

/-- Where a line that starts with `## ` can stand in the output of `generateCRISPE`: in the
role introduction or the context given in the options, among the lines of the hints section,
or in the examples section. -/
theorem subheading_line_cases (toLowerCase : Str → Str) (raw : Str) (opts : Options)
    (hraw : sanitize raw ≠ []) (h : Str) (hh : IsSubheading h)
    (hmem : h ∈ splitLines (generateCRISPE toLowerCase (some raw) opts)) :
    (∃ r, opts.roleIntro = some r ∧ h ∈ splitLines r) ∨
    (∃ c, opts.context = some c ∧ h ∈ splitLines c) ∨
    (crispeHints (extractConstraints (sanitize raw)) ≠ [] ∧ h = "## Additional Hints".toList) ∨
    (∃ e, opts.examples = some e ∧ e ≠ [] ∧ (h = "## Examples".toList ∨ h ∈ splitLines e)) := by
  rw [splitLines_generateCRISPE toLowerCase raw opts hraw] at hmem
  simp only [List.mem_append, List.mem_flatMap, List.mem_singleton] at hmem
  rcases hmem with (((⟨l, hl, hin⟩ | ⟨l, hl, hin⟩) | ⟨l, hl, hin⟩) | ⟨l, hl, hin⟩) | rfl
  · -- the opening
    unfold crispeOpening at hl
    simp only [List.mem_append, List.mem_cons, List.mem_singleton, List.not_mem_nil,
      or_false] at hl
    rcases hl with (rfl | rfl | rfl) | ((rfl | rfl) | hl) | rfl
    · exact absurd hin (not_subheading_of_line hh (by decide) (by decide))
    · cases hr : opts.roleIntro with
      | none =>
        rw [hr] at hin
        exact absurd hin (not_subheading_of_line hh (by decide) (by decide))
      | some r =>
        rw [hr] at hin
        by_cases hre : r = []
        · subst hre
          exact absurd hin (not_subheading_of_line hh (by decide) (by decide))
        · simp only [orElseStr, ne_eq, hre, not_false_eq_true, if_true] at hin
          exact Or.inl ⟨r, rfl, hin⟩
    · exact absurd hin (not_subheading_of_line hh (by decide) (by decide))
    · exact absurd hin (not_subheading_of_line hh (by decide) (by decide))
    · exact absurd hin (not_subheading_of_line hh (createLine_no_newline raw) rfl)
    · split at hl
      · next c hc =>
        split at hl
        · simp at hl
        · simp only [List.mem_singleton] at hl
          subst hl
          have e : "\nContext: ".toList ++ c = '\n' :: ("Context: ".toList ++ c) := rfl
          rw [e, splitLines_newline_cons] at hin
          rcases List.mem_cons.1 hin with rfl | hin
          · exact absurd hh (by unfold IsSubheading; decide)
          · exact Or.inr (Or.inl ⟨c, hc,
              mem_splitLines_append (a := "Context: ".toList) (by decide) (fun _ => rfl) hh hin⟩)
      · simp at hl
    · exact absurd hin (not_subheading_of_line hh (by decide) (by decide))
  · -- the fixed sections
    have hfix : ∀ l ∈ crispeFixedSections,
        '\n' ∉ l ∧ startsWith l "## ".toList = false := by decide
    exact absurd hin (not_subheading_of_line hh (hfix l hl).1 (hfix l hl).2)
  · -- the hints
    unfold crispeHintsSection at hl
    split at hl
    · next hne =>
      simp only [List.mem_append, List.mem_cons, List.mem_singleton, List.not_mem_nil,
        or_false, List.mem_map] at hl
      rcases hl with (rfl | ⟨x, hx, rfl⟩) | rfl
      · rw [splitLines_of_no_newline _ (by decide), List.mem_singleton] at hin
        exact Or.inr (Or.inr (Or.inl ⟨hne, hin⟩))
      · have hnl : '\n' ∉ "- ".toList ++ x := by
          simp only [List.mem_append, not_or]
          exact ⟨by decide, crispeHints_no_newline _ x hx⟩
        exact absurd hin (not_subheading_of_line hh hnl rfl)
      · exact absurd hin (not_subheading_of_line hh (by decide) (by decide))
    · simp at hl
  · -- the examples
    unfold crispeExamplesSection at hl
    split at hl
    · next e he =>
      split at hl
      · simp at hl
      · next hne =>
        simp only [List.mem_cons, List.mem_singleton, List.not_mem_nil, or_false] at hl
        rcases hl with rfl | rfl | rfl
        · rw [splitLines_of_no_newline _ (by decide), List.mem_singleton] at hin
          exact Or.inr (Or.inr (Or.inr ⟨e, he, hne, Or.inl hin⟩))
        · exact Or.inr (Or.inr (Or.inr ⟨l, he, hne, Or.inr hin⟩))
        · exact absurd hin (not_subheading_of_line hh (by decide) (by decide))
    · simp at hl
  · exact absurd hh (by unfold IsSubheading; decide)

theorem crispeHints_eq (slots : Slots) (ha : ∀ a, slots.audience = some a → a ≠ []) :
    crispeHints slots =
      (match slots.audience with
        | some a => ["Audience: ".toList ++ a]
        | none => []) ++
      (match slots.length with
        | some n =>
          if n = 0 then [] else ["Length: approx ".toList ++ numberToString n ++ " words".toList]
        | none => []) := by
  obtain ⟨len, aud, tone⟩ := slots
  have hzero : ∀ (n : Nat) (p : Str),
      (if n ≠ 0 then [p] else []) = if n = 0 then [] else [p] := by
    intro n p
    by_cases hn : n = 0 <;> simp [hn]
  cases aud <;> cases len <;> simp_all [crispeHints]

theorem crispeHints_ne_nil_iff (slots : Slots) (ha : ∀ a, slots.audience = some a → a ≠ []) :
    crispeHints slots ≠ [] ↔
      (slots.audience ≠ none ∨ ∃ n, slots.length = some n ∧ n ≠ 0) := by
  rw [crispeHints_eq slots ha]
  obtain ⟨len, aud, tone⟩ := slots
  cases aud with
  | some a => simp
  | none =>
    cases len with
    | none => simp
    | some n => by_cases hn : n = 0 <;> simp [hn]

theorem generateCRISPE_of_blank (toLowerCase : Str → Str) (raw : Str) (opts : Options)
    (h : sanitize raw = []) : generateCRISPE toLowerCase (some raw) opts = [] := by
  unfold generateCRISPE
  simp only [orEmpty, h, if_true]

/-- C18, as stated, fails: in the text `0 words` the length slot is present, with the value 0,
and the output of `generateCRISPE` has no line `## Additional Hints`. -/
theorem C18_zero_length_counterexample :
    sanitize "0 words".toList = "0 words".toList ∧
    (extractConstraints "0 words".toList).length = some 0 ∧
    "## Additional Hints".toList ∉
      splitLines (generateCRISPE asciiToLowerCase (some "0 words".toList) {}) :=
  ⟨by decide, by decide, by decide!⟩

/-- C18, amended. The document of `generateCRISPE` has the section `## Additional Hints`
exactly when the audience slot is present or the length slot is present with a value other
than 0. For a text whose length, if it has one, is below `2 ^ 53`, the section comes after the
fixed sections and holds the bullet of the audience, if that slot is present, then the bullet
of the length with its decimal digits, if that slot is present and not 0, then an empty line;
the tone slot plays no part. The line `## Additional Hints` is a line of the output exactly
when the audience is present or the length is present and not 0, provided the role
introduction, the context and the examples given in the options do not hold that line
themselves. -/
theorem C18_hints_section (toLowerCase : Str → Str) (raw : Str) (opts : Options) :
    (sanitize raw ≠ [] → LengthIsExact (extractConstraints (sanitize raw)) →
      generateCRISPE toLowerCase (some raw) opts =
        "\n".toList.intercalate
          (crispeOpening (sanitize raw) opts ++ crispeFixedSections ++
            (if (extractConstraints (sanitize raw)).audience = none ∧
                ((extractConstraints (sanitize raw)).length = none ∨
                  (extractConstraints (sanitize raw)).length = some 0) then []
             else
              ["## Additional Hints".toList] ++
              (match (extractConstraints (sanitize raw)).audience with
                | some a => ["- Audience: ".toList ++ a]
                | none => []) ++
              (match (extractConstraints (sanitize raw)).length with
                | some n =>
                  if n = 0 then []
                  else ["- Length: approx ".toList ++ numberToString n ++ " words".toList]
                | none => []) ++
              [[]]) ++
            crispeExamplesSection opts ++ [crispeClosingLine])) ∧
    ((∀ r, opts.roleIntro = some r → "## Additional Hints".toList ∉ splitLines r) →
      (∀ c, opts.context = some c → "## Additional Hints".toList ∉ splitLines c) →
      (∀ e, opts.examples = some e → "## Additional Hints".toList ∉ splitLines e) →
      ("## Additional Hints".toList ∈ splitLines (generateCRISPE toLowerCase (some raw) opts) ↔
        ((extractConstraints (sanitize raw)).audience ≠ none ∨
          ∃ n, (extractConstraints (sanitize raw)).length = some n ∧ n ≠ 0))) := by
  have hval := (extractConstraints_values_ne_nil (sanitize raw)).1
  constructor
  · intro hraw _
    rw [generateCRISPE_eq_sections toLowerCase raw opts hraw]
    have hsec : crispeHintsSection (extractConstraints (sanitize raw)) =
        (if (extractConstraints (sanitize raw)).audience = none ∧
            ((extractConstraints (sanitize raw)).length = none ∨
              (extractConstraints (sanitize raw)).length = some 0) then []
         else
          ["## Additional Hints".toList] ++
          (match (extractConstraints (sanitize raw)).audience with
            | some a => ["- Audience: ".toList ++ a]
            | none => []) ++
          (match (extractConstraints (sanitize raw)).length with
            | some n =>
              if n = 0 then []
              else ["- Length: approx ".toList ++ numberToString n ++ " words".toList]
            | none => []) ++
          [[]]) := by
      unfold crispeHintsSection
      rw [crispeHints_eq _ hval]
      generalize extractConstraints (sanitize raw) = slots
      obtain ⟨len, aud, tone⟩ := slots
      cases aud with
      | some a => cases len with
        | none => simp
        | some n => by_cases hn : n = 0 <;> simp [hn]
      | none =>
        cases len with
        | none => simp
        | some n => by_cases hn : n = 0 <;> simp [hn]
    rw [hsec]
  · intro hrole hctx hex
    by_cases hraw : sanitize raw = []
    · rw [generateCRISPE_of_blank toLowerCase raw opts hraw, hraw]
      constructor
      · intro h
        exact absurd h (by decide)
      · intro h
        exact absurd h (by decide)
    · rw [← crispeHints_ne_nil_iff _ hval]
      constructor
      · intro hmem
        rcases subheading_line_cases toLowerCase raw opts hraw _
            (by unfold IsSubheading; decide) hmem with
          ⟨r, hr, h⟩ | ⟨c, hc, h⟩ | ⟨hne, _⟩ | ⟨e, he, _, h | h⟩
        · exact absurd h (hrole r hr)
        · exact absurd h (hctx c hc)
        · exact hne
        · exact absurd h (by decide)
        · exact absurd h (hex e he)
      · intro hne
        rw [splitLines_generateCRISPE toLowerCase raw opts hraw]
        simp only [List.mem_append, List.mem_flatMap]
        refine Or.inl (Or.inl (Or.inr ⟨"## Additional Hints".toList, ?_, by decide⟩))
        unfold crispeHintsSection
        rw [if_pos hne]
        simp

/-- C18, instance: a request with an audience and a length has the section, and a request
whose only slot is the tone has none. -/
theorem C18_hints_section_witness :
    "## Additional Hints".toList ∈
      splitLines (generateCRISPE asciiToLowerCase
        (some "Explain tides for kids in 50 words".toList) {}) ∧
    (extractConstraints (sanitize "Be formal".toList)).tone = some "formal".toList ∧
    "## Additional Hints".toList ∉
      splitLines (generateCRISPE asciiToLowerCase (some "Be formal".toList) {}) ∧
    LengthIsExact (extractConstraints (sanitize "Explain tides for kids in 50 words".toList)) ∧
    generateCRISPE asciiToLowerCase (some "Explain tides for kids in 50 words".toList) {} =
      "\n".toList.intercalate
        (crispeOpening "Explain tides for kids in 50 words".toList {} ++ crispeFixedSections ++
          ["## Additional Hints".toList, "- Audience: kids".toList,
           "- Length: approx 50 words".toList, []] ++
          [crispeClosingLine]) :=
  ⟨((C18_hints_section asciiToLowerCase "Explain tides for kids in 50 words".toList {}).2
      (fun _ h => by cases h) (fun _ h => by cases h) (fun _ h => by cases h)).2
      (Or.inl (by decide)),
   by decide,
   fun h => absurd
     (((C18_hints_section asciiToLowerCase "Be formal".toList {}).2
       (fun _ h => by cases h) (fun _ h => by cases h) (fun _ h => by cases h)).1 h)
     (by decide),
   lengthIsExact_of_some (n := 50) (by decide) (by decide),
   ((C18_hints_section asciiToLowerCase "Explain tides for kids in 50 words".toList {}).1
     (by decide) (lengthIsExact_of_some (n := 50) (by decide) (by decide))).trans
     (by decide!)⟩

theorem crispeOpening_lines (raw : Str) (opts : Options) :
    (crispeOpening (sanitize raw) opts).flatMap splitLines =
      ["# Expert Role Assignment".toList] ++
      splitLines (orElseStr opts.roleIntro
        "You are a specialized professional with expertise in creating high-quality content.".toList) ++
      [[]] ++
      (["# Task & Purpose".toList,
        "Create a detailed, comprehensive response based on this request: \"".toList ++
          sanitize raw ++ "\"".toList] ++
       (match opts.context with
        | some c => if c = [] then [] else [] :: splitLines ("Context: ".toList ++ c)
        | none => []) ++
       [[]]) := by
  have h1 : splitLines "# Expert Role Assignment".toList = ["# Expert Role Assignment".toList] := by
    decide
  have h2 : splitLines "# Task & Purpose".toList = ["# Task & Purpose".toList] := by decide
  have h3 : splitLines [] = [[]] := rfl
  have h4 := splitLines_of_no_newline _ (createLine_no_newline raw)
  have h4' := h4
  rw [List.append_assoc] at h4'
  have h5 : ∀ c : Str, splitLines ("\nContext: ".toList ++ c) =
      [] :: splitLines ("Context: ".toList ++ c) := fun c => splitLines_newline_cons _
  unfold crispeOpening
  cases opts.context with
  | none =>
    simp only [List.flatMap_append, List.flatMap_cons, List.flatMap_nil, h1, h2, h3, h4, h4',
      List.append_nil, List.append_assoc, List.cons_append, List.nil_append]
  | some c =>
    by_cases hc : c = []
    · simp only [hc, if_true, List.flatMap_append, List.flatMap_cons, List.flatMap_nil, h1, h2,
        h3, h4, h4', List.append_nil, List.append_assoc, List.cons_append, List.nil_append]
    · simp only [hc, if_false, List.flatMap_append, List.flatMap_cons, List.flatMap_nil, h1, h2,
        h3, h4, h4', h5, List.append_nil, List.append_assoc, List.cons_append, List.nil_append]

/-- C19. For a text that is not blank, the task section of the document of `generateCRISPE`
follows the role section and comes before `# Content Structure`; it holds the heading
`# Task & Purpose`, then the line that quotes the normalized text, then, exactly when the
context of the options is a non-empty string, an element made of a line feed and
`Context: <context>`, and then an empty line. In the lines of the output a context without
line feed shows as an empty line followed by the line `Context: <context>`, and an absent or
empty context shows as nothing. -/
theorem C19_task_section (toLowerCase : Str → Str) (raw : Str) (opts : Options)
    (hraw : sanitize raw ≠ []) :
    generateCRISPE toLowerCase (some raw) opts =
      "\n".toList.intercalate
        (["# Expert Role Assignment".toList,
          orElseStr opts.roleIntro
            "You are a specialized professional with expertise in creating high-quality content.".toList,
          []] ++
         (["# Task & Purpose".toList,
           "Create a detailed, comprehensive response based on this request: \"".toList ++
             sanitize raw ++ "\"".toList] ++
          (match opts.context with
            | some c => if c = [] then [] else ["\nContext: ".toList ++ c]
            | none => []) ++
          [[]]) ++
         ("# Content Structure".toList :: crispeFixedSections.tail) ++
         crispeHintsSection (extractConstraints (sanitize raw)) ++
         crispeExamplesSection opts ++ [crispeClosingLine]) ∧
    (∀ c, opts.context = some c → c ≠ [] → '\n' ∉ c →
      splitLines (generateCRISPE toLowerCase (some raw) opts) =
        ["# Expert Role Assignment".toList] ++
        splitLines (orElseStr opts.roleIntro
          "You are a specialized professional with expertise in creating high-quality content.".toList) ++
        [[]] ++
        ["# Task & Purpose".toList,
         "Create a detailed, comprehensive response based on this request: \"".toList ++
           sanitize raw ++ "\"".toList,
         [],
         "Context: ".toList ++ c,
         []] ++
        ("# Content Structure".toList :: crispeFixedSections.tail) ++
        (crispeHintsSection (extractConstraints (sanitize raw))).flatMap splitLines ++
        (crispeExamplesSection opts).flatMap splitLines ++ [crispeClosingLine]) ∧
    ((opts.context = none ∨ opts.context = some []) →
      splitLines (generateCRISPE toLowerCase (some raw) opts) =
        ["# Expert Role Assignment".toList] ++
        splitLines (orElseStr opts.roleIntro
          "You are a specialized professional with expertise in creating high-quality content.".toList) ++
        [[]] ++
        ["# Task & Purpose".toList,
         "Create a detailed, comprehensive response based on this request: \"".toList ++
           sanitize raw ++ "\"".toList,
         []] ++
        ("# Content Structure".toList :: crispeFixedSections.tail) ++
        (crispeHintsSection (extractConstraints (sanitize raw))).flatMap splitLines ++
        (crispeExamplesSection opts).flatMap splitLines ++ [crispeClosingLine]) := by
  have hfix : "# Content Structure".toList :: crispeFixedSections.tail = crispeFixedSections :=
    rfl
  have hlines := splitLines_generateCRISPE toLowerCase raw opts hraw
  rw [crispeOpening_lines, crispeFixedSections_lines] at hlines
  rw [hfix]
  refine ⟨generateCRISPE_eq_sections toLowerCase raw opts hraw, ?_, ?_⟩
  · intro c hc hne hnl
    rw [hlines, hc]
    have : splitLines ("Context: ".toList ++ c) = ["Context: ".toList ++ c] := by
      apply splitLines_of_no_newline
      simp only [List.mem_append, not_or]
      exact ⟨by decide, hnl⟩
    simp only [hne, if_false, this, List.append_assoc, List.cons_append, List.nil_append]
  · intro hc
    rw [hlines]
    rcases hc with hc | hc <;> rw [hc] <;>
      simp only [if_true, List.append_assoc, List.cons_append, List.nil_append]

/-- C19, instance: the request `Summarize the report` with the context `for the board`. -/
theorem C19_task_section_witness :
    sanitize "Summarize the  report".toList ≠ [] ∧
    List.take 8 (splitLines (generateCRISPE asciiToLowerCase
        (some "Summarize the  report".toList) { context := some "for the board".toList })) =
      ["# Expert Role Assignment".toList,
       "You are a specialized professional with expertise in creating high-quality content.".toList,
       [],
       "# Task & Purpose".toList,
       "Create a detailed, comprehensive response based on this request: \"Summarize the report\"".toList,
       [],
       "Context: for the board".toList,
       []] :=
  ⟨by decide,
   by
    rw [(C19_task_section asciiToLowerCase "Summarize the  report".toList
      { context := some "for the board".toList } (by decide)).2.1 "for the board".toList rfl
      (by decide) (by decide)]
    decide⟩

theorem crispeExamplesSection_lines (opts : Options) :
    (crispeExamplesSection opts).flatMap splitLines =
      (match opts.examples with
        | some e => if e = [] then [] else ["## Examples".toList] ++ splitLines e ++ [[]]
        | none => []) := by
  have h1 : splitLines "## Examples".toList = ["## Examples".toList] := by decide
  have h3 : splitLines [] = [[]] := rfl
  unfold crispeExamplesSection
  cases opts.examples with
  | none => rfl
  | some e =>
    by_cases he : e = []
    · simp only [he, if_true, List.flatMap_nil]
    · simp only [he, if_false, List.flatMap_cons, List.flatMap_nil, h1, h3, List.append_nil,
        List.append_assoc]

/-- C20. For a text that is not blank, the document of `generateCRISPE` has the section
`## Examples` exactly when the examples of the options are a non-empty string. The section is
the heading, the examples as given, and an empty line; it comes after the section
`# Output Format` and the hints section, if any, and before the closing line. The line
`## Examples` is then a line of the output exactly in that case, provided the role
introduction and the context given in the options do not hold that line themselves. -/
theorem C20_examples_section (toLowerCase : Str → Str) (raw : Str) (opts : Options)
    (hraw : sanitize raw ≠ []) :
    generateCRISPE toLowerCase (some raw) opts =
      "\n".toList.intercalate
        (crispeOpening (sanitize raw) opts ++
         (crispeFixedSections.take 21 ++
          ["# Output Format".toList,
           "Present your response in a well-structured format with clear headings, concise paragraphs, and appropriate use of formatting to highlight key points. Follow the structure above when composing the final answer.".toList,
           []]) ++
         crispeHintsSection (extractConstraints (sanitize raw)) ++
         (match opts.examples with
           | some e => if e = [] then [] else ["## Examples".toList, e, []]
           | none => []) ++
         ["Now, produce the requested response following the instructions above.".toList]) ∧
    (∀ e, opts.examples = some e → e ≠ [] →
      splitLines (generateCRISPE toLowerCase (some raw) opts) =
        (crispeOpening (sanitize raw) opts).flatMap splitLines ++ crispeFixedSections ++
        (crispeHintsSection (extractConstraints (sanitize raw))).flatMap splitLines ++
        (["## Examples".toList] ++ splitLines e ++ [[]]) ++
        ["Now, produce the requested response following the instructions above.".toList]) ∧
    ((∀ r, opts.roleIntro = some r → "## Examples".toList ∉ splitLines r) →
      (∀ c, opts.context = some c → "## Examples".toList ∉ splitLines c) →
      ("## Examples".toList ∈ splitLines (generateCRISPE toLowerCase (some raw) opts) ↔
        ∃ e, opts.examples = some e ∧ e ≠ [])) := by
  have hfix : crispeFixedSections.take 21 ++
      ["# Output Format".toList,
       "Present your response in a well-structured format with clear headings, concise paragraphs, and appropriate use of formatting to highlight key points. Follow the structure above when composing the final answer.".toList,
       []] = crispeFixedSections := by decide
  have hlines := splitLines_generateCRISPE toLowerCase raw opts hraw
  rw [crispeFixedSections_lines, crispeExamplesSection_lines] at hlines
  refine ⟨?_, ?_, ?_⟩
  · rw [hfix]
    exact generateCRISPE_eq_sections toLowerCase raw opts hraw
  · intro e he hne
    rw [hlines, he]
    simp only [hne, if_false]
    rfl
  · intro hrole hctx
    constructor
    · intro hmem
      rcases subheading_line_cases toLowerCase raw opts hraw _
          (by unfold IsSubheading; decide) hmem with
        ⟨r, hr, h⟩ | ⟨c, hc, h⟩ | ⟨_, h⟩ | ⟨e, he, hne, _⟩
      · exact absurd h (hrole r hr)
      · exact absurd h (hctx c hc)
      · exact absurd h (by decide)
      · exact ⟨e, he, hne⟩
    · rintro ⟨e, he, hne⟩
      rw [hlines, he]
      simp only [hne, if_false]
      apply List.mem_append_left
      apply List.mem_append_right
      exact List.mem_append_left _ (List.mem_append_left _ (List.mem_singleton.2 rfl))

/-- C20, instance: the request `Summarize the report` with and without examples. -/
theorem C20_examples_section_witness :
    sanitize "Summarize the report".toList ≠ [] ∧
    "## Examples".toList ∈
      splitLines (generateCRISPE asciiToLowerCase (some "Summarize the report".toList)
        { examples := some "Q3 revenue rose.".toList }) ∧
    "## Examples".toList ∉
      splitLines (generateCRISPE asciiToLowerCase (some "Summarize the report".toList) {}) :=
  ⟨by decide,
   ((C20_examples_section asciiToLowerCase "Summarize the report".toList
      { examples := some "Q3 revenue rose.".toList } (by decide)).2.2
      (fun _ h => by cases h) (fun _ h => by cases h)).2
      ⟨"Q3 revenue rose.".toList, rfl, by decide⟩,
   fun h => by
    obtain ⟨e, he, _⟩ := ((C20_examples_section asciiToLowerCase
      "Summarize the report".toList {} (by decide)).2.2
      (fun _ h => by cases h) (fun _ h => by cases h)).1 h
    cases he⟩

/-! ## `sanitize` keeps the words and joins them with one space -/

theorem dropWhile_of_head {p : Char → Bool} {l : Str}
    (h : ∀ c, l.head? = some c → p c = false) : l.dropWhile p = l := by
  cases l with
  | nil => rfl
  | cons a t => simp [List.dropWhile, h a rfl]

theorem replaceSpaces_true_eq (s : Str) :
    replaceSpaces true s = (replaceSpaces false s).dropWhile isSpace := by
  cases s with
  | nil => rfl
  | cons c cs =>
    by_cases hc : isSpace c = true
    · have h1 : replaceSpaces true (c :: cs) = replaceSpaces true cs := by
        simp [replaceSpaces, hc]
      have h2 : replaceSpaces false (c :: cs) = ' ' :: replaceSpaces true cs := by
        simp [replaceSpaces, hc]
      have h3 : isSpace ' ' = true := by decide
      rw [h1, h2, List.dropWhile_cons_of_pos h3,
        dropWhile_of_head ((replaceSpaces_chain true cs).2 rfl)]
    · have h2 : replaceSpaces false (c :: cs) = c :: replaceSpaces false cs := by
        simp [replaceSpaces, hc]
      have h1 : replaceSpaces true (c :: cs) = c :: replaceSpaces false cs := by
        simp [replaceSpaces, hc]
      rw [h1, h2, List.dropWhile_cons_of_neg hc]

theorem sanitize_eq_rdropWhile (s : Str) :
    sanitize s = (replaceSpaces true s).rdropWhile isSpace := by
  unfold sanitize
  rw [trim_eq, replaceSpaces_true_eq]

theorem rdropWhile_cons_of_neg {p : Char → Bool} (c : Char) (l : Str) (hc : p c = false) :
    (c :: l).rdropWhile p = c :: l.rdropWhile p := by
  induction l using List.reverseRecOn with
  | nil => simp [List.rdropWhile_singleton, hc]
  | append_singleton l x ih =>
    rw [← List.cons_append]
    by_cases hx : p x = true
    · rw [List.rdropWhile_concat_pos _ _ _ hx, List.rdropWhile_concat_pos _ _ _ hx, ih]
    · rw [List.rdropWhile_concat_neg _ _ _ hx, List.rdropWhile_concat_neg _ _ _ hx,
        List.cons_append]

theorem rdropWhile_cons_of_pos {p : Char → Bool} (c : Char) (l : Str) (hc : p c = true) :
    (c :: l).rdropWhile p = if l.rdropWhile p = [] then [] else c :: l.rdropWhile p := by
  induction l using List.reverseRecOn with
  | nil => simp [List.rdropWhile_singleton, hc]
  | append_singleton l x ih =>
    rw [← List.cons_append]
    by_cases hx : p x = true
    · rw [List.rdropWhile_concat_pos _ _ _ hx, List.rdropWhile_concat_pos _ _ _ hx, ih]
    · rw [List.rdropWhile_concat_neg _ _ _ hx, List.rdropWhile_concat_neg _ _ _ hx]
      simp

theorem spaceSegments_ne_nil (s : Str) : spaceSegments s ≠ [] := by
  induction s with
  | nil => simp [spaceSegments]
  | cons c cs ih =>
    unfold spaceSegments
    by_cases hc : isSpace c = true
    · simp [hc]
    · simp only [hc, Bool.false_eq_true, if_false]
      cases h : spaceSegments cs with
      | nil => simp
      | cons l ls => simp

theorem spaceSegments_cons_space (c : Char) (cs : Str) (hc : isSpace c = true) :
    spaceSegments (c :: cs) = [] :: spaceSegments cs := by
  simp [spaceSegments, hc]

theorem spaceSegments_cons_other (c : Char) (cs l : Str) (ls : List Str)
    (hc : isSpace c = false) (h : spaceSegments cs = l :: ls) :
    spaceSegments (c :: cs) = (c :: l) :: ls := by
  simp [spaceSegments, hc, h]

theorem spaceSegments_no_space (s : Str) : ∀ w ∈ spaceSegments s, ∀ c ∈ w, isSpace c = false := by
  induction s with
  | nil => simp [spaceSegments]
  | cons c cs ih =>
    by_cases hc : isSpace c = true
    · rw [spaceSegments_cons_space c cs hc]
      intro w hw
      rcases List.mem_cons.1 hw with rfl | hw
      · simp
      · exact ih w hw
    · have hc' : isSpace c = false := by simpa using hc
      obtain ⟨l, ls, h⟩ := List.exists_cons_of_ne_nil (spaceSegments_ne_nil cs)
      rw [spaceSegments_cons_other c cs l ls hc' h]
      rw [h] at ih
      intro w hw
      rcases List.mem_cons.1 hw with rfl | hw
      · intro d hd
        rcases List.mem_cons.1 hd with rfl | hd
        · exact hc'
        · exact ih l (List.mem_cons_self _ _) d hd
      · exact ih w (List.mem_cons_of_mem _ hw)

theorem spaceSegments_flatten (s : Str) :
    (spaceSegments s).flatten = s.filter (fun c => !isSpace c) := by
  induction s with
  | nil => simp [spaceSegments]
  | cons c cs ih =>
    by_cases hc : isSpace c = true
    · rw [spaceSegments_cons_space c cs hc]
      simp [hc, ih]
    · have hc' : isSpace c = false := by simpa using hc
      obtain ⟨l, ls, h⟩ := List.exists_cons_of_ne_nil (spaceSegments_ne_nil cs)
      rw [spaceSegments_cons_other c cs l ls hc' h]
      rw [h] at ih
      simp only [List.flatten_cons, List.cons_append] at ih ⊢
      rw [ih]
      simp [hc']

theorem words_flatten (s : Str) : (words s).flatten = s.filter (fun c => !isSpace c) := by
  rw [← spaceSegments_flatten]
  unfold words
  induction spaceSegments s with
  | nil => rfl
  | cons w ws ih =>
    cases w with
    | nil => simpa using ih
    | cons a t => simp [List.filter, ih]

theorem words_ne_nil (s : Str) : ∀ w ∈ words s, w ≠ [] := by
  intro w hw
  unfold words at hw
  have := (List.mem_filter.1 hw).2
  intro h
  simp [h] at this

theorem words_no_space (s : Str) : ∀ w ∈ words s, ∀ c ∈ w, isSpace c = false := by
  intro w hw
  unfold words at hw
  exact spaceSegments_no_space s w (List.mem_filter.1 hw).1

theorem intercalate_cons (sep w : Str) (ws : List Str) :
    sep.intercalate (w :: ws) = w ++ (if ws = [] then [] else sep ++ sep.intercalate ws) := by
  cases ws with
  | nil => simp [List.intercalate, List.intersperse]
  | cons a t => simp [intercalate_cons_cons]

theorem intercalate_eq_nil_iff (sep : Str) (ws : List Str) (h : ∀ w ∈ ws, w ≠ []) :
    sep.intercalate ws = [] ↔ ws = [] := by
  constructor
  · intro he
    cases ws with
    | nil => rfl
    | cons a t =>
      rw [intercalate_cons] at he
      exact absurd (List.append_eq_nil.1 he).1 (h a (List.mem_cons_self _ _))
  · rintro rfl
    rfl

theorem words_cons_space (c : Char) (cs : Str) (hc : isSpace c = true) :
    words (c :: cs) = words cs := by
  unfold words
  rw [spaceSegments_cons_space c cs hc]
  simp

theorem words_cons_other (c : Char) (cs l : Str) (ls : List Str)
    (hc : isSpace c = false) (h : spaceSegments cs = l :: ls) :
    words (c :: cs) = (c :: l) :: ls.filter (fun w => !w.isEmpty) := by
  unfold words
  rw [spaceSegments_cons_other c cs l ls hc h]
  simp

theorem filter_segments_ne_nil (ls : List Str) :
    ∀ w ∈ ls.filter (fun w => !w.isEmpty), w ≠ [] := by
  intro w hw h
  have := (List.mem_filter.1 hw).2
  simp [h] at this

/-- The two facts that carry the induction: what `sanitize` makes of a string, and what is left
of a string inside a word once the white space at its end is dropped. -/
theorem sanitize_words_aux (s : Str) :
    (replaceSpaces true s).rdropWhile isSpace = [' '].intercalate (words s) ∧
      ∀ l ls, spaceSegments s = l :: ls →
        (replaceSpaces false s).rdropWhile isSpace =
          l ++ (if ls.filter (fun w => !w.isEmpty) = [] then []
                else [' '] ++ [' '].intercalate (ls.filter (fun w => !w.isEmpty))) := by
  induction s with
  | nil =>
    refine ⟨by simp [replaceSpaces, words, spaceSegments, List.intercalate], ?_⟩
    intro l ls h
    simp only [spaceSegments, List.cons.injEq] at h
    obtain ⟨rfl, rfl⟩ := h
    simp [replaceSpaces]
  | cons c cs ih =>
    obtain ⟨ih1, ih2⟩ := ih
    by_cases hc : isSpace c = true
    · have h1 : replaceSpaces true (c :: cs) = replaceSpaces true cs := by
        simp [replaceSpaces, hc]
      have h2 : replaceSpaces false (c :: cs) = ' ' :: replaceSpaces true cs := by
        simp [replaceSpaces, hc]
      refine ⟨by rw [h1, words_cons_space c cs hc, ih1], ?_⟩
      intro l ls h
      rw [spaceSegments_cons_space c cs hc] at h
      simp only [List.cons.injEq] at h
      obtain ⟨rfl, rfl⟩ := h
      have hw : (spaceSegments cs).filter (fun w => !w.isEmpty) = words cs := rfl
      rw [h2, rdropWhile_cons_of_pos _ _ (by decide), ih1, hw, List.nil_append]
      by_cases he : words cs = []
      · simp [he, List.intercalate]
      · have hne : [' '].intercalate (words cs) ≠ [] := fun h0 =>
          he ((intercalate_eq_nil_iff _ _ (words_ne_nil cs)).1 h0)
        simp [he, hne]
    · have hc' : isSpace c = false := by simpa using hc
      have h1 : replaceSpaces true (c :: cs) = c :: replaceSpaces false cs := by
        simp [replaceSpaces, hc]
      have h2 : replaceSpaces false (c :: cs) = c :: replaceSpaces false cs := by
        simp [replaceSpaces, hc]
      obtain ⟨l0, ls0, h0⟩ := List.exists_cons_of_ne_nil (spaceSegments_ne_nil cs)
      refine ⟨?_, ?_⟩
      · simp only [h1, rdropWhile_cons_of_neg _ _ hc', ih2 l0 ls0 h0,
          words_cons_other c cs l0 ls0 hc' h0, intercalate_cons, List.cons_append]
      · intro l ls h
        rw [spaceSegments_cons_other c cs l0 ls0 hc' h0] at h
        simp only [List.cons.injEq] at h
        obtain ⟨rfl, rfl⟩ := h
        simp only [h2, rdropWhile_cons_of_neg _ _ hc', ih2 l0 ls0 h0, List.cons_append]

/-- The value of `sanitize` is the words of the input with one space between two neighbours. -/
theorem sanitize_eq_words (s : Str) : sanitize s = [' '].intercalate (words s) := by
  rw [sanitize_eq_rdropWhile]
  exact (sanitize_words_aux s).1

theorem rdropWhile_of_getLast {p : Char → Bool} {l : Str}
    (h : ∀ c, l.getLast? = some c → p c = false) : l.rdropWhile p = l := by
  induction l using List.reverseRecOn with
  | nil => rfl
  | append_singleton l x _ =>
    have hx : p x = false := h x (by simp)
    rw [List.rdropWhile_concat_neg _ _ _ (by simp [hx])]

theorem sanitize_idempotent (s : Str) : sanitize (sanitize s) = sanitize s := by
  have h1 : replaceSpaces false (sanitize s) = sanitize s :=
    replaceSpaces_of_spacedOk false _ (spacedOk_sanitize s)
  have h2 : trim (sanitize s) = sanitize s := by
    rw [trim_eq, dropWhile_of_head (l := sanitize s)
        (fun c hc => trim_head_not_space (replaceSpaces false s) c hc),
      rdropWhile_of_getLast (l := sanitize s)
        (fun c hc => trim_last_not_space (replaceSpaces false s) c hc)]
  calc sanitize (sanitize s) = trim (replaceSpaces false (sanitize s)) := rfl
    _ = sanitize s := by rw [h1, h2]

theorem enhancePrompt_of_sanitize_eq (toLowerCase : Str → Str) (s t : Str) (o : Options)
    (h : sanitize s = sanitize t) :
    enhancePrompt toLowerCase (some s) o = enhancePrompt toLowerCase (some t) o := by
  unfold enhancePrompt
  simp only [orEmpty, h]

theorem generateCRISPE_of_sanitize_eq (toLowerCase : Str → Str) (s t : Str) (o : Options)
    (h : sanitize s = sanitize t) :
    generateCRISPE toLowerCase (some s) o = generateCRISPE toLowerCase (some t) o := by
  unfold generateCRISPE
  simp only [orEmpty, h]

/-- C27. Both composers see the raw text only through `sanitize`, which is idempotent: the
output for a raw text is the output for its normalized form, and two raw texts with the same
words, whatever white space stands between and around them, give the same outputs. -/
theorem C27_composers_depend_on_the_normalized_text (toLowerCase : Str → Str) (s : Str)
    (o : Options) :
    sanitize (sanitize s) = sanitize s ∧
      enhancePrompt toLowerCase (some s) o = enhancePrompt toLowerCase (some (sanitize s)) o ∧
      generateCRISPE toLowerCase (some s) o =
        generateCRISPE toLowerCase (some (sanitize s)) o ∧
      ∀ t, words s = words t →
        enhancePrompt toLowerCase (some s) o = enhancePrompt toLowerCase (some t) o ∧
          generateCRISPE toLowerCase (some s) o = generateCRISPE toLowerCase (some t) o := by
  refine ⟨sanitize_idempotent s,
    enhancePrompt_of_sanitize_eq _ _ _ _ (sanitize_idempotent s).symm,
    generateCRISPE_of_sanitize_eq _ _ _ _ (sanitize_idempotent s).symm, ?_⟩
  intro t ht
  have h : sanitize s = sanitize t := by rw [sanitize_eq_words, sanitize_eq_words, ht]
  exact ⟨enhancePrompt_of_sanitize_eq _ _ _ _ h, generateCRISPE_of_sanitize_eq _ _ _ _ h⟩

/-- Two raw texts with the same words and different white space: a tab, line feeds and a
no-break space on one side, single spaces on the other. -/
theorem C27_composers_witness :
    words "  write\ta poem \n\n for kids ".toList = words "write a poem for kids".toList ∧
      enhancePrompt asciiToLowerCase (some "  write\ta poem \n\n for kids ".toList)
          { style := some "creative".toList } =
        enhancePrompt asciiToLowerCase (some "write a poem for kids".toList)
          { style := some "creative".toList } ∧
      generateCRISPE asciiToLowerCase (some "  write\ta poem \n\n for kids ".toList)
          { style := some "creative".toList } =
        generateCRISPE asciiToLowerCase (some "write a poem for kids".toList)
          { style := some "creative".toList } :=
  ⟨by decide,
    (C27_composers_depend_on_the_normalized_text asciiToLowerCase
      "  write\ta poem \n\n for kids ".toList { style := some "creative".toList }).2.2.2
      "write a poem for kids".toList (by decide)⟩

theorem replaceSpaces_filter (b : Bool) (s : Str) :
    (replaceSpaces b s).filter (fun c => !isSpace c) = s.filter (fun c => !isSpace c) := by
  induction s generalizing b with
  | nil => rfl
  | cons c cs ih =>
    have h3 : isSpace ' ' = true := by decide
    by_cases hc : isSpace c = true
    · cases b <;> simp [replaceSpaces, hc, h3, ih]
    · simp [replaceSpaces, hc, ih]

theorem filter_dropWhile_space (l : Str) :
    (l.dropWhile isSpace).filter (fun c => !isSpace c) = l.filter (fun c => !isSpace c) := by
  induction l with
  | nil => rfl
  | cons c cs ih =>
    by_cases hc : isSpace c = true
    · simp [List.dropWhile, hc, ih]
    · simp [List.dropWhile, hc]

theorem filter_rdropWhile_space (l : Str) :
    (l.rdropWhile isSpace).filter (fun c => !isSpace c) = l.filter (fun c => !isSpace c) := by
  induction l using List.reverseRecOn with
  | nil => rfl
  | append_singleton l x ih =>
    by_cases hx : isSpace x = true
    · rw [List.rdropWhile_concat_pos _ _ _ hx, ih]
      simp [hx]
    · rw [List.rdropWhile_concat_neg _ _ _ hx]

theorem sanitize_filter (s : Str) :
    (sanitize s).filter (fun c => !isSpace c) = s.filter (fun c => !isSpace c) := by
  unfold sanitize
  rw [trim_eq, filter_rdropWhile_space, filter_dropWhile_space, replaceSpaces_filter]

/-- C21. The value of `sanitize` neither starts nor ends with white space, its only white
space character is the space, no two of its spaces are neighbours, and it is the words of the
input, in their order, with exactly one space between two neighbours; so its characters other
than white space are those of the input in the same order. -/
theorem C21_sanitize_normal_form (s : Str) :
    (∀ c, (sanitize s).head? = some c → isSpace c = false) ∧
      (∀ c, (sanitize s).getLast? = some c → isSpace c = false) ∧
      (∀ c ∈ sanitize s, isSpace c = true → c = ' ') ∧
      NoDoubleSpace (sanitize s) ∧
      (∀ n, n + 1 < (sanitize s).length →
        ¬ ((sanitize s).get? n = some ' ' ∧ (sanitize s).get? (n + 1) = some ' ')) ∧
      sanitize s = [' '].intercalate (words s) ∧
      (∀ w ∈ words s, w ≠ [] ∧ ∀ c ∈ w, isSpace c = false) ∧
      (words s).flatten = s.filter (fun c => !isSpace c) ∧
      (sanitize s).filter (fun c => !isSpace c) = s.filter (fun c => !isSpace c) := by
  have hchain : NoDoubleSpace (sanitize s) :=
    List.Chain'.infix (replaceSpaces_chain false s).1 (trim_inside _)
  refine ⟨trim_head_not_space _, trim_last_not_space _,
    fun c hc => replaceSpaces_mem_space false s c ((trim_inside _).subset hc), hchain, ?_,
    sanitize_eq_words s, fun w hw => ⟨words_ne_nil s w hw, words_no_space s w hw⟩,
    words_flatten s, sanitize_filter s⟩
  intro n hn hpair
  have h := List.chain'_iff_get.1 hchain n (by omega)
  apply h
  simp only [List.get?_eq_getElem?] at hpair
  rw [List.getElem?_eq_getElem (by omega : n < (sanitize s).length)] at hpair
  rw [List.getElem?_eq_getElem hn] at hpair
  simp only [Option.some.injEq] at hpair
  simp only [List.get_eq_getElem]
  rw [hpair.1, hpair.2]
  exact ⟨by decide, by decide⟩

/-! ## The academic keyword that `explain` shadows -/

theorem occurs_explain_of_explain_like {t : Str}
    (h : Occurs "explain like i\x27m".toList t) : Occurs "explain".toList t := by
  obtain ⟨pre, post, rfl⟩ := h
  exact ⟨pre, " like i\x27m".toList ++ post, by
    have : "explain like i\x27m".toList = "explain".toList ++ " like i\x27m".toList := by decide
    rw [this]
    simp only [List.append_assoc]⟩

theorem hasKeyword_explanation_of_explain {t : Str} (h : Occurs "explain".toList t) :
    HasKeyword t Intent.explanation :=
  ⟨"explain".toList, by decide, h⟩

theorem hasKeyword_academic_iff (t : Str) :
    HasKeyword t Intent.academic ↔
      (∃ kw ∈ ["essay".toList, "thesis".toList, "research".toList, "study".toList],
        Occurs kw t) ∨ Occurs "explain like i\x27m".toList t := by
  have hk : keywordsOf Intent.academic =
      ["essay".toList, "thesis".toList, "research".toList, "study".toList] ++
        ["explain like i\x27m".toList] := by decide
  unfold HasKeyword
  rw [hk]
  constructor
  · rintro ⟨kw, hkw, ho⟩
    rcases List.mem_append.1 hkw with h | h
    · exact Or.inl ⟨kw, h, ho⟩
    · rw [List.mem_singleton] at h
      exact Or.inr (h ▸ ho)
  · rintro (⟨kw, hkw, ho⟩ | ho)
    · exact ⟨kw, List.mem_append_left _ hkw, ho⟩
    · exact ⟨_, List.mem_append_right _ (List.mem_singleton_self _), ho⟩

/-- C28. A text whose lower-cased form contains `explain like i'm` contains the explanation
keyword `explain`, so `detectIntent` answers coding, creative or explanation for it, never
academic; and `detectIntent` answers academic exactly when one of `essay`, `thesis`,
`research`, `study` occurs in the lower-cased text and no keyword of the four earlier intents
does. -/
theorem C28_explain_like_never_decides (toLowerCase : Str → Str) (text : Str) :
    (Occurs "explain like i\x27m".toList (toLowerCase text) →
      Occurs "explain".toList (toLowerCase text) ∧
      HasKeyword (toLowerCase text) Intent.explanation ∧
      (detectIntent toLowerCase text = Intent.coding ∨
        detectIntent toLowerCase text = Intent.creative ∨
        detectIntent toLowerCase text = Intent.explanation) ∧
      detectIntent toLowerCase text ≠ Intent.academic) ∧
    (detectIntent toLowerCase text = Intent.academic ↔
      (∃ kw ∈ ["essay".toList, "thesis".toList, "research".toList, "study".toList],
        Occurs kw (toLowerCase text)) ∧
      ¬ HasKeyword (toLowerCase text) Intent.coding ∧
      ¬ HasKeyword (toLowerCase text) Intent.creative ∧
      ¬ HasKeyword (toLowerCase text) Intent.explanation ∧
      ¬ HasKeyword (toLowerCase text) Intent.professional) := by
  have hshadow : Occurs "explain like i\x27m".toList (toLowerCase text) →
      HasKeyword (toLowerCase text) Intent.explanation := fun h =>
    hasKeyword_explanation_of_explain (occurs_explain_of_explain_like h)
  have hac := hasKeyword_academic_iff (toLowerCase text)
  rw [detectIntent_eq_chain]
  simp only [← any_includes_iff] at hshadow hac ⊢
  generalize (keywordsOf Intent.coding).any (fun kw => includes (toLowerCase text) kw) = b1
    at hshadow hac ⊢
  generalize (keywordsOf Intent.creative).any (fun kw => includes (toLowerCase text) kw) = b2
    at hshadow hac ⊢
  generalize (keywordsOf Intent.explanation).any (fun kw => includes (toLowerCase text) kw) = b3
    at hshadow hac ⊢
  generalize (keywordsOf Intent.professional).any (fun kw => includes (toLowerCase text) kw) = b4
    at hshadow hac ⊢
  generalize (keywordsOf Intent.academic).any (fun kw => includes (toLowerCase text) kw) = b5
    at hshadow hac ⊢
  constructor
  · intro h
    have h3 := hshadow h
    subst h3
    refine ⟨occurs_explain_of_explain_like h, rfl, ?_, ?_⟩ <;>
      cases b1 <;> cases b2 <;> simp
  · constructor
    · intro h
      cases b1 <;> cases b2 <;> cases b3 <;> cases b4 <;> cases b5 <;>
        simp only [Bool.false_eq_true, if_true, if_false, reduceCtorEq] at h
      rcases hac.1 rfl with h5 | h5
      · exact ⟨h5, by simp⟩
      · exact absurd (hshadow h5) (by simp)
    · rintro ⟨h5, h1, h2, h3, h4⟩
      have hb5 : b5 = true := hac.2 (Or.inl h5)
      simp only [Bool.not_eq_true] at h1 h2 h3 h4
      subst h1 h2 h3 h4 hb5
      rfl

/-- A text with `explain like i'm`, and with the academic keyword `thesis` as well, is
classified as explanation. -/
theorem C28_explain_like_witness :
    Occurs "explain like i\x27m".toList
        (asciiToLowerCase "Explain like I\x27m five what a thesis is".toList) ∧
      detectIntent asciiToLowerCase "Explain like I\x27m five what a thesis is".toList =
        Intent.explanation ∧
      detectIntent asciiToLowerCase "Explain like I\x27m five what a thesis is".toList ≠
        Intent.academic :=
  ⟨(includes_iff _ _).1 (by decide), by decide,
    ((C28_explain_like_never_decides asciiToLowerCase
      "Explain like I\x27m five what a thesis is".toList).1
      ((includes_iff _ _).1 (by decide))).2.2.2⟩

/-! ## The copies in `content.js` and `popup.js` -/

theorem canonicalize_question_mark (c : Char) :
    canonicalize '?' = canonicalize c ↔ '?' = c := by
  constructor
  · intro h
    have h1 : canonicalize '?' = 63 := by decide
    rw [h1] at h
    unfold canonicalize at h
    have h2 : c.toNat = 63 := by
      split at h <;> omega
    have h3 : c = Char.ofNat c.toNat := (Char.ofNat_toNat c).symm
    rw [h3, h2]
  · rintro rfl
    rfl

theorem matchLit_question_mark (s : Str) :
    matchLit "?".toList s = matchLitExact "?".toList s := by
  have h : "?".toList = ['?'] := rfl
  rw [h]
  cases s with
  | nil => rfl
  | cons c cs =>
    simp only [matchLit, matchLitExact]
    by_cases hc : '?' = c
    · rw [if_pos hc, if_pos ((canonicalize_question_mark c).2 hc)]
    · rw [if_neg hc, if_neg (fun h0 => hc ((canonicalize_question_mark c).1 h0))]

theorem content_matchQuestionMark_eq : Content.matchQuestionMark = matchQuestionMark := by
  funext b s
  unfold Content.matchQuestionMark matchQuestionMark
  rw [matchLit_question_mark]

theorem content_styleTemplates_eq : Content.styleTemplates = styleTemplates := rfl

theorem content_sanitize_eq : Content.sanitize = sanitize := rfl

theorem content_detectIntent_eq : Content.detectIntent = detectIntent := rfl

theorem content_extractConstraints_eq : Content.extractConstraints = extractConstraints := rfl

theorem popup_sanitize_eq : Popup.sanitize = sanitize := rfl

theorem popup_detectIntent_eq : Popup.detectIntent = detectIntent := rfl

theorem popup_extractConstraints_eq : Popup.extractConstraints = extractConstraints := rfl

theorem content_applyTemplate_eq (intent : Intent) (style : Option Str) (text : Str)
    (slots : Slots) (options : Options) :
    Content.applyTemplate intent style text slots options =
      applyTemplate intent style text slots options := by
  unfold Content.applyTemplate applyTemplate templatePieces
  rw [content_matchQuestionMark_eq]
  have hq : ((firstMatch matchQuestionMark none text).isSome ||
      (firstMatch Content.matchQuestionWord none text).isSome) = isQuestion text := rfl
  simp only [hq]
  have hf : (if isQuestion text = true then
        ["Answer the following request: \"".toList ++ text ++ "\". ".toList]
      else ["Perform this task: \"".toList ++ text ++ "\". ".toList]) = [framingPiece text] := by
    unfold framingPiece
    split <;> rfl
  rw [hf, content_styleTemplates_eq]
  unfold selectTemplate intentPieces slotPieces providerPieces aggressivenessPieces
  simp only [List.append_assoc]

theorem content_enhancePrompt_eq (toLowerCase : Str → Str) (rawText : Option Str)
    (opts : Options) :
    Content.enhancePrompt toLowerCase rawText opts = enhancePrompt toLowerCase rawText opts := by
  unfold Content.enhancePrompt enhancePrompt
  simp only [content_applyTemplate_eq]
  rfl

theorem content_generateCRISPE_eq (toLowerCase : Str → Str) (rawText : Option Str)
    (opts : Options) :
    Content.generateCRISPE rawText opts = generateCRISPE toLowerCase rawText opts := by
  unfold Content.generateCRISPE generateCRISPE crispeLines crispeHints
  simp only [content_sanitize_eq, content_extractConstraints_eq, List.append_assoc,
    List.cons_append, List.nil_append]

theorem popup_generateCRISPE_eq (toLowerCase : Str → Str) (rawText : Option Str)
    (opts : Options) :
    Popup.generateCRISPE toLowerCase rawText opts = generateCRISPE toLowerCase rawText opts := by
  unfold Popup.generateCRISPE generateCRISPE crispeLines crispeHints
  simp only [popup_sanitize_eq, popup_extractConstraints_eq, List.append_assoc,
    List.cons_append, List.nil_append]

/-- C25. The three copies of `generateCRISPE`, in `promptEnhancer.js`, `content.js` and
`popup.js`, return the same string for every raw text and every options record. -/
theorem C25_three_copies_of_generateCRISPE (toLowerCase : Str → Str) (rawText : Option Str)
    (opts : Options) :
    Content.generateCRISPE rawText opts = generateCRISPE toLowerCase rawText opts ∧
      Popup.generateCRISPE toLowerCase rawText opts = generateCRISPE toLowerCase rawText opts :=
  ⟨content_generateCRISPE_eq toLowerCase rawText opts,
    popup_generateCRISPE_eq toLowerCase rawText opts⟩

/-- C26. The copy of `enhancePrompt` in `content.js`, with its own `sanitize`, `detectIntent`,
`extractConstraints` and `applyTemplate`, returns the same string as the one of
`promptEnhancer.js` for every raw text and every options record; the pattern `/\?$/` of the
copy and the pattern `/\?$/i` of the original match at the same positions. -/
theorem C26_content_copy_of_enhancePrompt (toLowerCase : Str → Str) (rawText : Option Str)
    (opts : Options) :
    Content.enhancePrompt toLowerCase rawText opts = enhancePrompt toLowerCase rawText opts ∧
      (∀ before s, Content.matchQuestionMark before s = matchQuestionMark before s) ∧
      (∀ intent style text slots options,
        Content.applyTemplate intent style text slots options =
          applyTemplate intent style text slots options) :=
  ⟨content_enhancePrompt_eq toLowerCase rawText opts,
    fun before s => congrFun (congrFun content_matchQuestionMark_eq before) s,
    content_applyTemplate_eq⟩

/-! ## The text the enhance handler writes -/

theorem requestRemoteEnhancement_ok_iff (sendMessage : Str → Str → Content.SendOutcome)
    (text style s : Str) :
    Content.requestRemoteEnhancement sendMessage text style = Except.ok s ↔
      ∃ r, sendMessage text style = Content.SendOutcome.answers (some r) ∧ r.ok = true ∧
        r.enhanced = some s ∧ s ≠ [] := by
  unfold Content.requestRemoteEnhancement
  cases h : sendMessage text style with
  | throws e => simp
  | lastError m => simp
  | answers resp =>
    cases resp with
    | none => simp
    | some r =>
      cases he : r.enhanced with
      | none => simp [he]
      | some e =>
        simp only [he, Content.SendOutcome.answers.injEq, Option.some.injEq]
        by_cases hc : r.ok = true ∧ e ≠ []
        · simp only [if_pos hc, Except.ok.injEq]
          constructor
          · rintro rfl
            exact ⟨r, rfl, hc.1, he, hc.2⟩
          · rintro ⟨r', rfl, _, he', _⟩
            rw [he] at he'
            exact Option.some.inj he'
        · simp only [if_neg hc, reduceCtorEq, false_iff]
          rintro ⟨r', rfl, hok, he', hs⟩
          rw [he] at he'
          have := Option.some.inj he'
          subst this
          exact hc ⟨hok, hs⟩

/-- C22, the case that fails. When the storage call throws and the composer holds white space
only, the wrapper is the empty string and the handler writes nothing, so the composer keeps
its text; when the storage call answers, the empty wrapper is written. -/
theorem C22_storage_failure_counterexample :
    Content.generateCRISPE (some "  ".toList) { context := some [] } = [] ∧
      Content.handleEnhanceClick (some "  ".toList) Content.StorageOutcome.throws
        (fun _ _ => Content.SendOutcome.lastError "no receiver".toList) = none ∧
      Content.handleEnhanceClick (some "  ".toList)
        (Content.StorageOutcome.calls (some (some "server".toList)))
        (fun _ _ => Content.SendOutcome.lastError "no receiver".toList) = some [] := by
  decide

/-- C22, amended. With `wrapper` the string `generateCRISPE(raw, {context: ''})` of the content
script: in server mode the handler writes the remote result when the request is resolved, which
it is exactly when the response is there, is ok and has a non-empty `enhanced`; when the request
is rejected it writes the wrapper; out of server mode it writes the wrapper; and when the
storage call throws it writes the wrapper unless the wrapper is empty, in which case it writes
nothing. -/
theorem C22_text_written_by_the_handler (raw : Str) (storage : Content.StorageOutcome)
    (sendMessage : Str → Str → Content.SendOutcome) :
    (∀ res, storage = Content.StorageOutcome.calls res →
      orElseStr (res.bind id) "client".toList = "server".toList →
      (∀ s, Content.requestRemoteEnhancement sendMessage
          (Content.generateCRISPE (some raw) { context := some [] }) "professional".toList =
            Except.ok s →
        s ≠ [] ∧ Content.handleEnhanceClick (some raw) storage sendMessage = some s) ∧
      (∀ e, Content.requestRemoteEnhancement sendMessage
          (Content.generateCRISPE (some raw) { context := some [] }) "professional".toList =
            Except.error e →
        Content.handleEnhanceClick (some raw) storage sendMessage =
          some (Content.generateCRISPE (some raw) { context := some [] }))) ∧
    (∀ s, Content.requestRemoteEnhancement sendMessage
        (Content.generateCRISPE (some raw) { context := some [] }) "professional".toList =
          Except.ok s ↔
      ∃ r, sendMessage (Content.generateCRISPE (some raw) { context := some [] })
          "professional".toList = Content.SendOutcome.answers (some r) ∧
        r.ok = true ∧ r.enhanced = some s ∧ s ≠ []) ∧
    (∀ res, storage = Content.StorageOutcome.calls res →
      orElseStr (res.bind id) "client".toList ≠ "server".toList →
      Content.handleEnhanceClick (some raw) storage sendMessage =
        some (Content.generateCRISPE (some raw) { context := some [] })) ∧
    (storage = Content.StorageOutcome.throws →
      Content.handleEnhanceClick (some raw) storage sendMessage =
        if Content.generateCRISPE (some raw) { context := some [] } = [] then none
        else some (Content.generateCRISPE (some raw) { context := some [] })) := by
  refine ⟨?_, fun s => requestRemoteEnhancement_ok_iff _ _ _ _, ?_, ?_⟩
  · rintro res rfl hmode
    refine ⟨fun s hs => ?_, fun e he => ?_⟩
    · have hne : s ≠ [] := by
        obtain ⟨_, _, _, _, h⟩ := (requestRemoteEnhancement_ok_iff _ _ _ _).1 hs
        exact h
      refine ⟨hne, ?_⟩
      simp only [Content.handleEnhanceClick, hmode, if_true, hs, hne, ne_eq, not_false_eq_true]
    · simp only [Content.handleEnhanceClick, hmode, if_true, he]
  · rintro res rfl hmode
    simp only [Content.handleEnhanceClick, hmode, if_false]
  · rintro rfl
    simp only [Content.handleEnhanceClick, ne_eq, ite_not]

/-- A response that is ok with a non-empty `enhanced` is written; the same response with
`ok` false makes the handler write the wrapper. -/
theorem C22_text_written_witness :
    Content.handleEnhanceClick (some "draft an email".toList)
        (Content.StorageOutcome.calls (some (some "server".toList)))
        (fun _ _ => Content.SendOutcome.answers
          (some { ok := true, enhanced := some "Dear team,".toList })) =
      some "Dear team,".toList ∧
    Content.handleEnhanceClick (some "draft an email".toList)
        (Content.StorageOutcome.calls (some (some "server".toList)))
        (fun _ _ => Content.SendOutcome.answers
          (some { ok := false, enhanced := some "Dear team,".toList })) =
      some (Content.generateCRISPE (some "draft an email".toList) { context := some [] }) :=
  ⟨(((C22_text_written_by_the_handler "draft an email".toList
      (Content.StorageOutcome.calls (some (some "server".toList)))
      (fun _ _ => Content.SendOutcome.answers
        (some { ok := true, enhanced := some "Dear team,".toList }))).1
      (some (some "server".toList)) rfl (by decide)).1 "Dear team,".toList rfl).2,
    ((C22_text_written_by_the_handler "draft an email".toList
      (Content.StorageOutcome.calls (some (some "server".toList)))
      (fun _ _ => Content.SendOutcome.answers
        (some { ok := false, enhanced := some "Dear team,".toList }))).1
      (some (some "server".toList)) rfl (by decide)).2 "server failed".toList rfl⟩

/-! ## The layout of the document of `generateCRISPE` -/

theorem noDoubleBlank_of_all_ne_nil (s : List Str) (h : ∀ l ∈ s, l ≠ []) : NoDoubleBlank s := by
  unfold NoDoubleBlank
  induction s with
  | nil => exact List.chain'_nil
  | cons a t ih =>
    cases t with
    | nil => exact List.chain'_singleton a
    | cons b t =>
      refine List.Chain'.cons (fun hab => h a (List.mem_cons_self _ _) hab.1) ?_
      exact ih (fun l hl => h l (List.mem_cons_of_mem _ hl))

/-- Sections that start and end with a line that is not empty, laid out one after the other,
never put two empty lines side by side, and the layout starts with a line that is not
empty. -/
theorem sectionLayout_noDoubleBlank (sections : List (List Str)) (closing : Str)
    (hclosing : closing ≠ [])
    (h : ∀ s ∈ sections, NoDoubleBlank s ∧ (∃ a, s.head? = some a ∧ a ≠ []) ∧
      (∃ z, s.getLast? = some z ∧ z ≠ [])) :
    NoDoubleBlank (sectionLayout sections closing) ∧
      ∃ a, (sectionLayout sections closing).head? = some a ∧ a ≠ [] := by
  induction sections with
  | nil =>
    exact ⟨List.chain'_singleton _, closing, rfl, hclosing⟩
  | cons s rest ih =>
    obtain ⟨hrest, y, hy, hyne⟩ := ih (fun t ht => h t (List.mem_cons_of_mem _ ht))
    obtain ⟨hs, ⟨a, ha, hane⟩, ⟨z, hz, hzne⟩⟩ := h s (List.mem_cons_self _ _)
    have hlay : sectionLayout (s :: rest) closing = (s ++ [[]]) ++ sectionLayout rest closing := by
      simp only [sectionLayout, List.flatMap_cons, List.append_assoc]
    rw [hlay]
    constructor
    · unfold NoDoubleBlank at hs hrest ⊢
      rw [List.chain'_append]
      refine ⟨?_, hrest, ?_⟩
      · rw [List.chain'_append]
        refine ⟨hs, List.chain'_singleton _, ?_⟩
        intro x hx w _ hxw
        rw [hz] at hx
        simp only [Option.mem_def, Option.some.injEq] at hx
        exact hzne (hx ▸ hxw.1)
      · intro x _ w hw hxw
        rw [hy] at hw
        simp only [Option.mem_def, Option.some.injEq] at hw
        exact hyne (hw ▸ hxw.2)
    · refine ⟨a, ?_, hane⟩
      cases s with
      | nil => simp at ha
      | cons b t =>
        simp only [List.head?_cons, Option.some.injEq] at ha
        simp [ha]

theorem not_noDoubleBlank_of_three_newlines (s : Str) (h : Occurs "\n\n\n".toList s) :
    ¬ NoDoubleBlank (splitLines s) := by
  obtain ⟨pre, post, rfl⟩ := h
  have e : pre ++ "\n\n\n".toList ++ post = pre ++ '\n' :: ('\n' :: ('\n' :: post)) := by
    simp [List.append_assoc]
  rw [e, splitLines_append_newline, splitLines_newline_cons, splitLines_newline_cons]
  intro hc
  unfold NoDoubleBlank at hc
  rw [List.chain'_append] at hc
  have := hc.2.1
  rw [List.chain'_cons] at this
  exact this.1 ⟨rfl, rfl⟩

theorem splitLines_getLast_of_newline (s : Str) (h : s.getLast? = some '\n') :
    (splitLines s).getLast? = some [] := by
  obtain ⟨init, rfl⟩ : ∃ init, s = init ++ ['\n'] := by
    induction s using List.reverseRecOn with
    | nil => simp at h
    | append_singleton l x _ =>
      rw [List.getLast?_concat] at h
      exact ⟨l, by rw [Option.some.inj h]⟩
  rw [splitLines_append_newline]
  simp [splitLines]

theorem crispeFixedBlocks_layout :
    crispeFixedBlocks.flatMap (fun s => s ++ [[]]) = crispeFixedSections := by
  decide

theorem crispeFixedBlocks_shape :
    ∀ s ∈ crispeFixedBlocks, (∀ l ∈ s, l ≠ []) ∧ 2 ≤ s.length ∧
      (s.head?.bind List.head?) = some '#' := by
  decide

theorem orElseStr_no_newline (x : Option Str) (d : Str) (hd : '\n' ∉ d)
    (hx : ∀ r, x = some r → '\n' ∉ r) : '\n' ∉ orElseStr x d := by
  unfold orElseStr
  cases x with
  | none => exact hd
  | some r =>
    by_cases h : r ≠ []
    · simpa only [if_pos h] using hx r rfl
    · simpa only [if_neg h] using hd

theorem orElseStr_ne_nil (x : Option Str) (d : Str) (hd : d ≠ []) : orElseStr x d ≠ [] := by
  unfold orElseStr
  cases x with
  | none => exact hd
  | some r =>
    by_cases h : r ≠ []
    · simpa only [if_pos h] using h
    · simpa only [if_neg h] using hd

theorem crispeHintsSection_no_newline (text : Str) :
    ∀ l ∈ crispeHintsSection (extractConstraints text), '\n' ∉ l := by
  intro l hl
  unfold crispeHintsSection at hl
  split at hl
  · simp only [List.mem_append, List.mem_singleton, List.mem_map] at hl
    rcases hl with (rfl | ⟨h, hh, rfl⟩) | rfl
    · decide
    · simp only [List.mem_append, not_or]
      exact ⟨by decide, crispeHints_no_newline text h hh⟩
    · simp
  · simp at hl

/-- The lines of the output, for options without line feed, are the sections laid out one
after the other, each followed by one empty line, and then the closing line. -/
theorem splitLines_generateCRISPE_layout (toLowerCase : Str → Str) (raw : Str) (opts : Options)
    (hraw : sanitize raw ≠ [])
    (hr : ∀ r, opts.roleIntro = some r → '\n' ∉ r)
    (hc : ∀ c, opts.context = some c → '\n' ∉ c)
    (he : ∀ e, opts.examples = some e → '\n' ∉ e) :
    splitLines (generateCRISPE toLowerCase (some raw) opts) =
      sectionLayout (crispeSections (sanitize raw) (extractConstraints (sanitize raw)) opts)
        crispeClosingLine := by
  have hrole := splitLines_of_no_newline _ (orElseStr_no_newline opts.roleIntro
    "You are a specialized professional with expertise in creating high-quality content.".toList
    (by decide) hr)
  rw [splitLines_generateCRISPE toLowerCase raw opts hraw, crispeOpening_lines,
    crispeFixedSections_lines,
    flatMap_splitLines_of_no_newline _ (crispeHintsSection_no_newline (sanitize raw)),
    crispeExamplesSection_lines, hrole]
  unfold sectionLayout crispeSections crispeTaskBlock crispeHintsSection
  simp only [List.flatMap_append, List.flatMap_cons, List.flatMap_nil, crispeFixedBlocks_layout]
  have hsc : ∀ c, opts.context = some c →
      splitLines ("Context: ".toList ++ c) = ["Context: ".toList ++ c] := by
    intro c hcx
    apply splitLines_of_no_newline
    simp only [List.mem_append, not_or]
    exact ⟨by decide, hc c hcx⟩
  have hse : ∀ e, opts.examples = some e → splitLines e = [e] := fun e hex =>
    splitLines_of_no_newline _ (he e hex)
  rcases hcx : opts.context with _ | c <;> rcases hex : opts.examples with _ | e <;>
    dsimp only <;> split_ifs <;>
    first
    | simp only [List.flatMap_cons, List.flatMap_nil, List.append_assoc, List.cons_append,
        List.nil_append, List.append_nil, hsc _ hcx, hse _ hex]
    | simp only [List.flatMap_cons, List.flatMap_nil, List.append_assoc, List.cons_append,
        List.nil_append, List.append_nil, hsc _ hcx]
    | simp only [List.flatMap_cons, List.flatMap_nil, List.append_assoc, List.cons_append,
        List.nil_append, List.append_nil, hse _ hex]
    | simp only [List.flatMap_cons, List.flatMap_nil, List.append_assoc, List.cons_append,
        List.nil_append, List.append_nil]

theorem crispeSections_cases (text : Str) (slots : Slots) (opts : Options) :
    ∀ s ∈ crispeSections text slots opts,
      ((∀ l ∈ s, l ≠ []) ∧ 2 ≤ s.length ∧ (s.head?.bind List.head?) = some '#') ∨
      ∃ c, opts.context = some c ∧ c ≠ [] ∧
        s = ["# Task & Purpose".toList,
          "Create a detailed, comprehensive response based on this request: \"".toList ++ text ++
            "\"".toList, [], "Context: ".toList ++ c] := by
  intro s hs
  unfold crispeSections at hs
  simp only [List.mem_append, List.mem_cons, List.mem_singleton, List.not_mem_nil,
    or_false] at hs
  rcases hs with ((((rfl | rfl) | hs) | hs) | hs)
  · left
    refine ⟨?_, by simp, rfl⟩
    intro l hl
    simp only [List.mem_cons, List.mem_singleton, List.not_mem_nil, or_false] at hl
    rcases hl with rfl | rfl
    · decide
    · exact orElseStr_ne_nil _ _ (by decide)
  · unfold crispeTaskBlock
    rcases hcx : opts.context with _ | c
    · left
      refine ⟨?_, by simp, rfl⟩
      intro l hl
      simp only [List.append_nil, List.mem_cons, List.mem_singleton, List.not_mem_nil,
        or_false] at hl
      rcases hl with rfl | rfl
      · decide
      · simp
    · by_cases h0 : c = []
      · left
        refine ⟨?_, by simp [h0], by simp [h0]⟩
        intro l hl
        simp only [h0, if_true, List.append_nil, List.mem_cons, List.mem_singleton,
          List.not_mem_nil, or_false] at hl
        rcases hl with rfl | rfl
        · decide
        · simp
      · right
        exact ⟨c, rfl, h0, by simp [h0]⟩
  · left
    exact crispeFixedBlocks_shape s hs
  · left
    split at hs
    · next hh =>
      simp only [List.mem_singleton] at hs
      subst hs
      refine ⟨?_, ?_, rfl⟩
      · intro l hl
        simp only [List.singleton_append, List.mem_cons, List.mem_map] at hl
        rcases hl with rfl | ⟨h, _, rfl⟩
        · decide
        · simp
      · have : 0 < (crispeHints slots).length := List.length_pos.2 hh
        simp only [List.singleton_append, List.length_cons, List.length_map]
        omega
    · simp at hs
  · left
    split at hs
    · next e hex =>
      split at hs
      · simp at hs
      · next h0 =>
        simp only [List.mem_singleton] at hs
        subst hs
        refine ⟨?_, by simp, rfl⟩
        intro l hl
        simp only [List.mem_cons, List.mem_singleton, List.not_mem_nil, or_false] at hl
        rcases hl with rfl | rfl
        · decide
        · exact h0
    · simp at hs

/-- What the cases give for every section: a heading that starts with a hash sign, content
after it, a last line that is not empty, no two empty lines side by side, and an empty line
only in the task section before the line of the context. -/
theorem crispeSections_shape (text : Str) (slots : Slots) (opts : Options) :
    ∀ s ∈ crispeSections text slots opts,
      (∃ h content, s = h :: content ∧ h.head? = some '#' ∧ content ≠ []) ∧
      (∃ z, s.getLast? = some z ∧ z ≠ []) ∧
      NoDoubleBlank s ∧
      ([] ∈ s → ∃ c, opts.context = some c ∧ c ≠ [] ∧
        s = ["# Task & Purpose".toList,
          "Create a detailed, comprehensive response based on this request: \"".toList ++ text ++
            "\"".toList, [], "Context: ".toList ++ c]) := by
  intro s hs
  rcases crispeSections_cases text slots opts s hs with ⟨hall, hlen, hhead⟩ | ⟨c, hcx, h0, rfl⟩
  · refine ⟨?_, ?_, noDoubleBlank_of_all_ne_nil s hall, fun h => absurd rfl (hall [] h)⟩
    · match s, hlen, hhead with
      | h :: b :: t, _, hhead => exact ⟨h, b :: t, rfl, by simpa using hhead, by simp⟩
    · have hne : s ≠ [] := by
        intro h
        rw [h] at hlen
        simp at hlen
      exact ⟨s.getLast hne, List.getLast?_eq_getLast _ hne, hall _ (List.getLast_mem hne)⟩
  · refine ⟨⟨_, _, rfl, rfl, by simp⟩, ⟨"Context: ".toList ++ c, rfl, by simp⟩, ?_,
      fun _ => ⟨c, hcx, h0, rfl⟩⟩
    unfold NoDoubleBlank
    simp

theorem sectionLayout_at (pre : List (List Str)) (p s : List Str) (post : List (List Str))
    (closing z h : Str) (p0 content : List Str) (hp : p = p0 ++ [z]) (hs : s = h :: content) :
    sectionLayout (pre ++ p :: s :: post) closing =
      (pre.flatMap (fun s => s ++ [[]]) ++ p0) ++ [z, [], h] ++
        (content ++ [[]] ++ sectionLayout post closing) := by
  subst hp hs
  simp only [sectionLayout, List.flatMap_append, List.flatMap_cons, List.append_assoc,
    List.cons_append, List.nil_append]

/-- C24, the case that fails. With a context, the task section has an empty line between its
two content lines: the line that quotes the text, an empty line, the line of the context. -/
theorem C24_context_counterexample :
    sanitize "plan a launch".toList = "plan a launch".toList ∧
    (splitLines (generateCRISPE asciiToLowerCase (some "plan a launch".toList)
        { context := some "for the board".toList })).take 9 =
      ["# Expert Role Assignment".toList,
       "You are a specialized professional with expertise in creating high-quality content.".toList,
       [],
       "# Task & Purpose".toList,
       "Create a detailed, comprehensive response based on this request: \"plan a launch\"".toList,
       [],
       "Context: for the board".toList,
       [],
       "# Content Structure".toList] :=
  ⟨by decide, by decide!⟩

/-- C24, amended. For a text that is not blank and options without line feed, the lines of the
output of `generateCRISPE` are its sections one after the other, each followed by one empty
line, and then the closing line. Every section is a heading that starts with a hash sign,
followed by content, and ends with a line that is not empty; a section holds an empty line only
if it is the task section with a non-empty context, where one empty line stands between the
line that quotes the text and the line of the context. So the heading of every section but the
first comes right after one empty line that comes right after a line that is not empty; no two
empty lines are neighbours; the output has no three line feeds in a row and does not end with
a line feed; and without a context no section holds an empty line. -/
theorem C24_layout_of_the_document (toLowerCase : Str → Str) (raw : Str) (opts : Options)
    (hraw : sanitize raw ≠ [])
    (hr : ∀ r, opts.roleIntro = some r → '\n' ∉ r)
    (hc : ∀ c, opts.context = some c → '\n' ∉ c)
    (he : ∀ e, opts.examples = some e → '\n' ∉ e) :
    splitLines (generateCRISPE toLowerCase (some raw) opts) =
      sectionLayout (crispeSections (sanitize raw) (extractConstraints (sanitize raw)) opts)
        crispeClosingLine ∧
    (∀ s ∈ crispeSections (sanitize raw) (extractConstraints (sanitize raw)) opts,
      (∃ h content, s = h :: content ∧ h.head? = some '#' ∧ content ≠ []) ∧
      (∃ z, s.getLast? = some z ∧ z ≠ []) ∧
      ([] ∈ s → ∃ c, opts.context = some c ∧ c ≠ [] ∧
        s = ["# Task & Purpose".toList,
          "Create a detailed, comprehensive response based on this request: \"".toList ++
            sanitize raw ++ "\"".toList, [], "Context: ".toList ++ c])) ∧
    (∀ pre p s post,
      crispeSections (sanitize raw) (extractConstraints (sanitize raw)) opts =
        pre ++ p :: s :: post →
      ∃ before z h after, z ≠ [] ∧ s.head? = some h ∧ h.head? = some '#' ∧
        splitLines (generateCRISPE toLowerCase (some raw) opts) =
          before ++ [z, [], h] ++ after) ∧
    NoDoubleBlank (splitLines (generateCRISPE toLowerCase (some raw) opts)) ∧
    ¬ Occurs "\n\n\n".toList (generateCRISPE toLowerCase (some raw) opts) ∧
    (generateCRISPE toLowerCase (some raw) opts).getLast? ≠ some '\n' ∧
    (orElseStr opts.context [] = [] →
      ∀ s ∈ crispeSections (sanitize raw) (extractConstraints (sanitize raw)) opts,
        [] ∉ s) := by
  have hlines := splitLines_generateCRISPE_layout toLowerCase raw opts hraw hr hc he
  have hshape := crispeSections_shape (sanitize raw) (extractConstraints (sanitize raw)) opts
  have hclosing : crispeClosingLine ≠ [] := by decide
  have hchain : NoDoubleBlank (splitLines (generateCRISPE toLowerCase (some raw) opts)) := by
    rw [hlines]
    refine (sectionLayout_noDoubleBlank _ _ hclosing ?_).1
    intro s hs
    obtain ⟨⟨h, content, rfl, hh, _⟩, hz, hn, _⟩ := hshape s hs
    refine ⟨hn, ⟨h, rfl, ?_⟩, hz⟩
    rintro rfl
    simp at hh
  refine ⟨hlines, ?_, ?_, hchain, ?_, ?_, ?_⟩
  · intro s hs
    obtain ⟨h1, h2, _, h4⟩ := hshape s hs
    exact ⟨h1, h2, h4⟩
  · intro pre p s post hS
    have hp : p ∈ crispeSections (sanitize raw) (extractConstraints (sanitize raw)) opts := by
      rw [hS]
      simp
    have hs : s ∈ crispeSections (sanitize raw) (extractConstraints (sanitize raw)) opts := by
      rw [hS]
      simp
    obtain ⟨_, ⟨z, hz, hzne⟩, _, _⟩ := hshape p hp
    obtain ⟨⟨h, content, rfl, hh, _⟩, _, _, _⟩ := hshape s hs
    obtain ⟨p0, rfl⟩ : ∃ p0, p = p0 ++ [z] := by
      have hne : p ≠ [] := by
        rintro rfl
        simp at hz
      refine ⟨p.dropLast, ?_⟩
      have := List.dropLast_append_getLast hne
      rw [List.getLast?_eq_getLast _ hne, Option.some.injEq] at hz
      rw [← hz]
      exact this.symm
    refine ⟨pre.flatMap (fun s => s ++ [[]]) ++ p0, z, h,
      content ++ [[]] ++ sectionLayout post crispeClosingLine, hzne, rfl, hh, ?_⟩
    rw [hlines, hS]
    exact sectionLayout_at pre _ _ post crispeClosingLine z h p0 content rfl rfl
  · exact fun ho => not_noDoubleBlank_of_three_newlines _ ho hchain
  · intro hl
    have h1 := splitLines_getLast_of_newline _ hl
    rw [hlines] at h1
    unfold sectionLayout at h1
    rw [List.getLast?_append_of_ne_nil _ (by simp), List.getLast?_singleton,
      Option.some.injEq] at h1
    exact hclosing h1
  · intro hctx s hs hmem
    obtain ⟨c, hcx, h0, _⟩ := (hshape s hs).2.2.2 hmem
    rw [hcx] at hctx
    simp only [orElseStr, h0, ne_eq, not_false_eq_true, if_true] at hctx

/-- A text with an audience and a length, with a context and with examples. -/
theorem C24_layout_witness :
    sanitize "write a poem for kids in 50 words".toList ≠ [] ∧
    NoDoubleBlank (splitLines (generateCRISPE asciiToLowerCase
      (some "write a poem for kids in 50 words".toList)
      { context := some "for the board".toList, examples := some "a haiku".toList })) ∧
    ¬ Occurs "\n\n\n".toList (generateCRISPE asciiToLowerCase
      (some "write a poem for kids in 50 words".toList)
      { context := some "for the board".toList, examples := some "a haiku".toList }) ∧
    (generateCRISPE asciiToLowerCase (some "write a poem for kids in 50 words".toList)
      { context := some "for the board".toList, examples := some "a haiku".toList }).getLast? ≠
        some '\n' :=
  ⟨by decide,
    ((C24_layout_of_the_document asciiToLowerCase "write a poem for kids in 50 words".toList
      { context := some "for the board".toList, examples := some "a haiku".toList }
      (by decide) (fun _ h => by simp at h)
      (fun c h => by simp only [Option.some.injEq] at h; subst h; decide)
      (fun e h => by simp only [Option.some.injEq] at h; subst h; decide)).2.2.2).1,
    ((C24_layout_of_the_document asciiToLowerCase "write a poem for kids in 50 words".toList
      { context := some "for the board".toList, examples := some "a haiku".toList }
      (by decide) (fun _ h => by simp at h)
      (fun c h => by simp only [Option.some.injEq] at h; subst h; decide)
      (fun e h => by simp only [Option.some.injEq] at h; subst h; decide)).2.2.2).2.1,
    ((C24_layout_of_the_document asciiToLowerCase "write a poem for kids in 50 words".toList
      { context := some "for the board".toList, examples := some "a haiku".toList }
      (by decide) (fun _ h => by simp at h)
      (fun c h => by simp only [Option.some.injEq] at h; subst h; decide)
      (fun e h => by simp only [Option.some.injEq] at h; subst h; decide)).2.2.2).2.2.1⟩

/-! ## The composers write only to objects they create -/

theorem write_objects_same (s : Store) (r : Ref) (o : Obj) : (s.write r o).objects r = o := by
  simp [Store.write]

theorem write_objects_ne (s : Store) {r r' : Ref} (o : Obj) (h : r' ≠ r) :
    (s.write r o).objects r' = s.objects r' := by
  simp [Store.write, Function.update_noteq h]

theorem push_objects_ne (s : Store) {arr r : Ref} (x : Option Str) (h : r ≠ arr) :
    (push s arr x).objects r = s.objects r :=
  write_objects_ne s _ h

theorem push_next (s : Store) (arr : Ref) (x : Option Str) : (push s arr x).next = s.next :=
  rfl

theorem push_asArray (s : Store) (arr : Ref) (x : Option Str) :
    ((push s arr x).objects arr).asArray = (s.objects arr).asArray ++ [x] := by
  unfold push
  rw [write_objects_same]
  rfl

theorem pushAll_objects_ne (s : Store) {arr r : Ref} (xs : List (Option Str)) (h : r ≠ arr) :
    (pushAll s arr xs).objects r = s.objects r := by
  induction xs generalizing s with
  | nil => rfl
  | cons x xs ih =>
    show (pushAll (push s arr x) arr xs).objects r = s.objects r
    rw [ih, push_objects_ne s x h]

theorem pushAll_next (s : Store) (arr : Ref) (xs : List (Option Str)) :
    (pushAll s arr xs).next = s.next := by
  induction xs generalizing s with
  | nil => rfl
  | cons x xs ih =>
    show (pushAll (push s arr x) arr xs).next = s.next
    rw [ih, push_next]

theorem pushAll_asArray (s : Store) (arr : Ref) (xs : List (Option Str)) :
    ((pushAll s arr xs).objects arr).asArray = (s.objects arr).asArray ++ xs := by
  induction xs generalizing s with
  | nil => simp [pushAll]
  | cons x xs ih =>
    show ((pushAll (push s arr x) arr xs).objects arr).asArray = _
    rw [ih, push_asArray, List.append_assoc]
    rfl

theorem alloc_objects_same (s : Store) (o : Obj) : (s.alloc o).2.objects (s.alloc o).1 = o := by
  simp [Store.alloc]

theorem alloc_fst (s : Store) (o : Obj) : (s.alloc o).1 = Ref.object s.next := rfl

theorem alloc_next (s : Store) (o : Obj) : (s.alloc o).2.next = s.next + 1 := rfl

theorem ne_of_allocated {s : Store} {r : Ref} (h : Allocated s r) : r ≠ Ref.object s.next := by
  rintro rfl
  exact absurd h (Nat.lt_irrefl _)

theorem alloc_objects_of_allocated (s : Store) (o : Obj) {r : Ref} (h : Allocated s r) :
    (s.alloc o).2.objects r = s.objects r := by
  simp [Store.alloc, Function.update_noteq (ne_of_allocated h)]

theorem allocated_mono {s s' : Store} {r : Ref} (h : Allocated s r) (hn : s.next ≤ s'.next) :
    Allocated s' r := by
  cases r with
  | object n => exact Nat.lt_of_lt_of_le h hn
  | DEFAULTS => trivial
  | styleTemplates => trivial

theorem runExtractConstraints_spec (s : Store) (text : Str) :
    (runExtractConstraints s text).1 = Ref.object s.next ∧
      (runExtractConstraints s text).2.next = s.next + 1 ∧
      (runExtractConstraints s text).2.objects (Ref.object s.next) =
        Obj.slots (extractConstraints text) ∧
      ∀ r, r ≠ Ref.object s.next → (runExtractConstraints s text).2.objects r = s.objects r := by
  unfold runExtractConstraints extractConstraints
  cases firstMatch matchLength none text <;> cases firstMatch matchAudience none text <;>
    cases firstMatch matchTone none text <;>
    refine ⟨rfl, rfl, ?_, ?_⟩ <;>
    first
    | (intro r hr
       simp [Store.alloc, Store.write, Function.update_noteq hr])
    | simp [Store.alloc, Store.write, Obj.asSlots]

theorem runApplyTemplate_spec (s : Store) (intent : Intent) (style : Option Str) (text : Str)
    (slots options : Ref) (hs : Allocated s slots) (ho : Allocated s options) :
    (runApplyTemplate s intent style text slots options).1 =
        applyTemplateWith (s.objects Ref.styleTemplates).asTemplates intent style text
          (s.objects slots).asSlots (s.objects options).asRecord ∧
      (runApplyTemplate s intent style text slots options).2.next = s.next + 1 ∧
      ∀ r, r ≠ Ref.object s.next →
        (runApplyTemplate s intent style text slots options).2.objects r = s.objects r := by
  have hs' := ne_of_allocated hs
  have ho' := ne_of_allocated ho
  unfold runApplyTemplate applyTemplateWith
  refine ⟨?_, ?_, ?_⟩
  · simp only [pushAll_asArray, push_asArray, pushAll_objects_ne _ _ hs',
      pushAll_objects_ne _ _ ho', push_objects_ne _ _ hs', push_objects_ne _ _ ho', alloc_fst,
      alloc_objects_of_allocated _ _ hs, alloc_objects_of_allocated _ _ ho]
    have h0 : ((s.alloc (Obj.array [])).2.objects (Ref.object s.next)).asArray = [] := by
      simp [Store.alloc, Obj.asArray]
    rw [h0]
    simp only [List.nil_append, List.map_append, List.map_cons, List.map_nil, List.map_map,
      List.append_assoc]
    have hj : ∀ l : List Str, List.map (joinElem ∘ some) l = l := by
      intro l
      induction l with
      | nil => rfl
      | cons a t ih => simp [joinElem, ih]
    simp only [hj]
    rfl
  · simp only [pushAll_next, push_next, alloc_next]
  · intro r hr
    simp only [alloc_fst, pushAll_objects_ne _ _ hr, push_objects_ne _ _ hr]
    simp [Store.alloc, Function.update_noteq hr]

theorem objectAssign_objects_same (s : Store) (target source : Ref) :
    (objectAssign s target source).objects target =
      Obj.record (mergeOptions (s.objects target).asRecord (s.objects source).asRecord) :=
  write_objects_same _ _ _

theorem objectAssign_objects_ne (s : Store) {target x : Ref} (source : Ref) (h : x ≠ target) :
    (objectAssign s target source).objects x = s.objects x :=
  write_objects_ne _ _ h

theorem objectAssign_next (s : Store) (target source : Ref) :
    (objectAssign s target source).next = s.next := rfl

theorem enhancePromptBody_spec (toLowerCase : Str → Str) (s : Store) (rawText : Option Str)
    (r : Ref) (hr : Allocated s r) :
    (enhancePromptBody toLowerCase s rawText r).1 =
        enhancePromptWith (s.objects Ref.DEFAULTS).asRecord
          (s.objects Ref.styleTemplates).asTemplates toLowerCase rawText
          (s.objects r).asRecord ∧
      s.next ≤ (enhancePromptBody toLowerCase s rawText r).2.next ∧
      ∀ x, Allocated s x → (enhancePromptBody toLowerCase s rawText r).2.objects x =
        s.objects x := by
  have hrT : r ≠ Ref.object s.next := ne_of_allocated hr
  have hDT : Ref.DEFAULTS ≠ Ref.object s.next := by simp
  have hST : Ref.styleTemplates ≠ Ref.object s.next := by simp
  -- the store after `Object.assign`
  have h1T : (objectAssign (objectAssign (s.alloc (Obj.record {})).2 (Ref.object s.next)
        Ref.DEFAULTS) (Ref.object s.next) r).objects (Ref.object s.next) =
      Obj.record (mergeOptions (mergeOptions {} (s.objects Ref.DEFAULTS).asRecord)
        (s.objects r).asRecord) := by
    rw [objectAssign_objects_same, objectAssign_objects_same,
      objectAssign_objects_ne _ _ hrT]
    simp [Store.alloc, Function.update_noteq hrT, Function.update_noteq hDT, Obj.asRecord]
  have h1x : ∀ x, x ≠ Ref.object s.next →
      (objectAssign (objectAssign (s.alloc (Obj.record {})).2 (Ref.object s.next)
        Ref.DEFAULTS) (Ref.object s.next) r).objects x = s.objects x := by
    intro x hx
    rw [objectAssign_objects_ne _ _ hx, objectAssign_objects_ne _ _ hx]
    simp [Store.alloc, Function.update_noteq hx]
  have h1n : (objectAssign (objectAssign (s.alloc (Obj.record {})).2 (Ref.object s.next)
        Ref.DEFAULTS) (Ref.object s.next) r).next = s.next + 1 := rfl
  unfold enhancePromptBody enhancePromptWith
  simp only [alloc_fst]
  generalize hs1 : objectAssign (objectAssign (s.alloc (Obj.record {})).2 (Ref.object s.next)
        Ref.DEFAULTS) (Ref.object s.next) r = s1 at h1T h1x h1n ⊢
  by_cases htext : sanitize (orEmpty rawText) = []
  · simp only [htext, if_true]
    refine ⟨trivial, by omega, fun x hx => h1x x (ne_of_allocated hx)⟩
  · simp only [htext, if_false]
    obtain ⟨e1, e2, e3, e4⟩ := runExtractConstraints_spec s1 (sanitize (orEmpty rawText))
    have hTS : Ref.object s.next ≠ Ref.object s1.next := by
      rw [h1n]
      simp
    have haS : Allocated (runExtractConstraints s1 (sanitize (orEmpty rawText))).2
        (runExtractConstraints s1 (sanitize (orEmpty rawText))).1 := by
      rw [e1]
      show s1.next < _
      omega
    have haT : Allocated (runExtractConstraints s1 (sanitize (orEmpty rawText))).2
        (Ref.object s.next) := by
      show s.next < _
      omega
    obtain ⟨a1, a2, a3⟩ := runApplyTemplate_spec
      (runExtractConstraints s1 (sanitize (orEmpty rawText))).2
      (detectIntent toLowerCase (sanitize (orEmpty rawText)))
      ((runExtractConstraints s1 (sanitize (orEmpty rawText))).2.objects
        (Ref.object s.next)).asRecord.style
      (sanitize (orEmpty rawText))
      (runExtractConstraints s1 (sanitize (orEmpty rawText))).1 (Ref.object s.next) haS haT
    refine ⟨?_, ?_, ?_⟩
    · rw [a1, e1, e3, e4 _ hTS, h1T, e4 _ (by simp), h1x _ hST]
      rfl
    · rw [a2, e2, h1n]
      omega
    · intro x hx
      have hx0 : x ≠ Ref.object s.next := ne_of_allocated hx
      have hx1 : x ≠ Ref.object s1.next := by
        rw [h1n]
        rintro rfl
        exact absurd hx (by show ¬ (s.next + 1 < s.next); omega)
      have hx2 : x ≠ Ref.object (runExtractConstraints s1 (sanitize (orEmpty rawText))).2.next := by
        rw [e2, h1n]
        rintro rfl
        exact absurd hx (by show ¬ (s.next + 1 + 1 < s.next); omega)
      rw [a3 x hx2, e4 x hx1, h1x x hx0]

theorem alloc_objects_ne (s : Store) (o : Obj) {x : Ref} (h : x ≠ Ref.object s.next) :
    (s.alloc o).2.objects x = s.objects x := by
  simp [Store.alloc, Function.update_noteq h]

theorem pushAll_objects_object (s : Store) (n m : Nat) (xs : List (Option Str)) (h : n ≠ m) :
    (pushAll s (Ref.object m) xs).objects (Ref.object n) = s.objects (Ref.object n) :=
  pushAll_objects_ne s xs (by simpa using h)

theorem push_objects_object (s : Store) (n m : Nat) (x : Option Str) (h : n ≠ m) :
    (push s (Ref.object m) x).objects (Ref.object n) = s.objects (Ref.object n) :=
  push_objects_ne s x (by simpa using h)

theorem alloc_objects_object (s : Store) (o : Obj) (n : Nat) (h : n ≠ s.next) :
    (s.alloc o).2.objects (Ref.object n) = s.objects (Ref.object n) :=
  alloc_objects_ne s o (by simpa using h)

theorem alloc_objects_new (s : Store) (o : Obj) :
    (s.alloc o).2.objects (Ref.object s.next) = o := by
  simp [Store.alloc]

theorem alloc_objects_at (s : Store) (o : Obj) (n : Nat) (h : n = s.next) :
    (s.alloc o).2.objects (Ref.object n) = o := by
  subst h
  simp [Store.alloc]

theorem asArray_array (a : List (Option Str)) : (Obj.array a).asArray = a := rfl

theorem asSlots_slots (sl : Slots) : (Obj.slots sl).asSlots = sl := rfl

theorem asRecord_record (o : Options) : (Obj.record o).asRecord = o := rfl

theorem map_joinElem_some (l : List Str) : (l.map some).map joinElem = l := by
  induction l with
  | nil => rfl
  | cons a t ih => simp [joinElem, ih]

theorem generateCRISPEBody_spec (toLowerCase : Str → Str) (s : Store) (rawText : Option Str)
    (r : Ref) (hr : Allocated s r) :
    (generateCRISPEBody toLowerCase s rawText r).1 =
        generateCRISPE toLowerCase rawText (s.objects r).asRecord ∧
      s.next ≤ (generateCRISPEBody toLowerCase s rawText r).2.next ∧
      ∀ x, Allocated s x → (generateCRISPEBody toLowerCase s rawText r).2.objects x =
        s.objects x := by
  unfold generateCRISPEBody generateCRISPE
  by_cases htext : sanitize (orEmpty rawText) = []
  · simp [htext]
  · simp only [htext, if_false]
    obtain ⟨e1, e2, e3, e4⟩ := runExtractConstraints_spec s (sanitize (orEmpty rawText))
    rw [e1]
    generalize (runExtractConstraints s (sanitize (orEmpty rawText))).2 = sl at e2 e3 e4 ⊢
    have hop : sl.objects r = s.objects r := e4 r (ne_of_allocated hr)
    simp only [hop, alloc_fst, alloc_next, pushAll_next, push_next, e2]
    have hst1 : ∀ xs, (pushAll (sl.alloc (Obj.array [])).2 (Ref.object (s.next + 1)) xs).next =
        s.next + 1 + 1 := fun xs => by simp only [pushAll_next, alloc_next, e2]
    have a_at : ∀ xs o, ((pushAll (sl.alloc (Obj.array [])).2 (Ref.object (s.next + 1))
        xs).alloc o).2.objects (Ref.object (s.next + 1 + 1)) = o :=
      fun xs o => alloc_objects_at _ o _ (hst1 xs).symm
    have a_ne : ∀ xs o x, x ≠ Ref.object (s.next + 1 + 1) →
        ((pushAll (sl.alloc (Obj.array [])).2 (Ref.object (s.next + 1)) xs).alloc o).2.objects x =
          (pushAll (sl.alloc (Obj.array [])).2 (Ref.object (s.next + 1)) xs).objects x :=
      fun xs o x h => alloc_objects_ne _ o (by rw [hst1]; exact h)
    have b_at : ∀ o, (sl.alloc o).2.objects (Ref.object (s.next + 1)) = o :=
      fun o => alloc_objects_at sl o _ e2.symm
    have b_ne : ∀ o x, x ≠ Ref.object (s.next + 1) →
        (sl.alloc o).2.objects x = sl.objects x :=
      fun o x h => alloc_objects_ne sl o (by rw [e2]; exact h)
    have nSL : Ref.object s.next ≠ Ref.object (s.next + 1) := by
      simp only [ne_eq, Ref.object.injEq]
      omega
    have nSH : Ref.object s.next ≠ Ref.object (s.next + 1 + 1) := by
      simp only [ne_eq, Ref.object.injEq]
      omega
    have nLH : Ref.object (s.next + 1) ≠ Ref.object (s.next + 1 + 1) := by
      simp only [ne_eq, Ref.object.injEq]
      omega
    have nHL : Ref.object (s.next + 1 + 1) ≠ Ref.object (s.next + 1) := by
      simp only [ne_eq, Ref.object.injEq]
      omega
    have hslots : ∀ xs ys, ((pushAll ((pushAll (sl.alloc (Obj.array [])).2
        (Ref.object (s.next + 1)) xs).alloc (Obj.array [])).2 (Ref.object (s.next + 1 + 1))
          ys).objects (Ref.object (s.next + 1 + 1))).asArray = ys := by
      intro xs ys
      rw [pushAll_asArray, a_at, asArray_array, List.nil_append]
    have hlines : ∀ xs ys, ((pushAll ((pushAll (sl.alloc (Obj.array [])).2
        (Ref.object (s.next + 1)) xs).alloc (Obj.array [])).2 (Ref.object (s.next + 1 + 1))
          ys).objects (Ref.object (s.next + 1))).asArray = xs := by
      intro xs ys
      rw [pushAll_objects_ne _ _ nLH, a_ne _ _ _ nLH, pushAll_asArray, b_at, asArray_array,
        List.nil_append]
    have hS : ∀ xs, ((pushAll (sl.alloc (Obj.array [])).2 (Ref.object (s.next + 1))
        xs).alloc (Obj.array [])).2.objects (Ref.object s.next) =
          Obj.slots (extractConstraints (sanitize (orEmpty rawText))) := by
      intro xs
      rw [a_ne _ _ _ nSH, pushAll_objects_ne _ _ nSL, b_ne _ _ nSL, e3]
    simp only [hS, asSlots_slots, hslots]
    have hmap : ∀ l : List Str,
        List.map (fun x => some ("- ".toList ++ joinElem x)) (List.map some l) =
          List.map some (List.map (fun h => "- ".toList ++ h) l) := by
      intro l
      induction l with
      | nil => rfl
      | cons a t ih => simp [joinElem]
    refine ⟨?_, ?_, ?_⟩
    · rw [crispeLines_eq]
      by_cases hh : crispeHints (extractConstraints (sanitize (orEmpty rawText))) = []
      · simp only [hh, List.map_nil, ne_eq, not_true_eq_false, if_false, push_asArray,
          pushAll_asArray, hlines, crispeHintsSection, List.append_nil]
        simp only [List.map_append, map_joinElem_some, List.map_cons, List.map_nil]
        rfl
      · have hh' : List.map some (crispeHints (extractConstraints
            (sanitize (orEmpty rawText)))) ≠ [] := by
          simpa using hh
        simp only [hh', hh, ne_eq, not_false_eq_true, if_true, push_asArray, pushAll_asArray,
          hlines, crispeHintsSection, hmap]
        simp only [List.map_append, map_joinElem_some, List.map_cons, List.map_nil,
          List.append_assoc]
        rfl
    · split <;> simp only [pushAll_next, push_next, alloc_next, e2] <;> omega
    · intro x hx
      have hxS : x ≠ Ref.object s.next := ne_of_allocated hx
      have hxL : x ≠ Ref.object (s.next + 1) := by
        rintro rfl
        exact absurd hx (by show ¬ (s.next + 1 < s.next); omega)
      have hxH : x ≠ Ref.object (s.next + 1 + 1) := by
        rintro rfl
        exact absurd hx (by show ¬ (s.next + 1 + 1 < s.next); omega)
      split <;>
        simp only [push_objects_ne _ _ hxL, pushAll_objects_ne _ _ hxL,
          pushAll_objects_ne _ _ hxH, a_ne _ _ _ hxH, b_ne _ _ hxL, e4 x hxS]

theorem mergeOptions_defaults (o : Options) :
    mergeOptions (mergeOptions {} DEFAULTS) o = assignDefaults o := by
  obtain ⟨st, pr, ag, ro, ex, cx⟩ := o
  cases st <;> cases pr <;> cases ag <;> cases ro <;> cases ex <;> cases cx <;> rfl

theorem enhancePromptWith_loaded (toLowerCase : Str → Str) (rawText : Option Str)
    (opts : Options) :
    enhancePromptWith DEFAULTS styleTemplates toLowerCase rawText opts =
      enhancePrompt toLowerCase rawText opts := by
  unfold enhancePromptWith enhancePrompt
  rw [mergeOptions_defaults]
  rfl

theorem runEnhancePrompt_spec (toLowerCase : Str → Str) (s : Store) (rawText : Option Str)
    (opts : Option Ref) (hopts : ∀ r, opts = some r → Allocated s r) :
    (runEnhancePrompt toLowerCase s rawText opts).1 =
        enhancePromptWith (s.objects Ref.DEFAULTS).asRecord
          (s.objects Ref.styleTemplates).asTemplates toLowerCase rawText (optionsOf s opts) ∧
      s.next ≤ (runEnhancePrompt toLowerCase s rawText opts).2.next ∧
      ∀ x, Allocated s x → (runEnhancePrompt toLowerCase s rawText opts).2.objects x =
        s.objects x := by
  cases opts with
  | some r => exact enhancePromptBody_spec toLowerCase s rawText r (hopts r rfl)
  | none =>
    have hnew : Allocated (s.alloc (Obj.record {})).2 (s.alloc (Obj.record {})).1 := by
      show s.next < s.next + 1
      omega
    obtain ⟨h1, h2, h3⟩ := enhancePromptBody_spec toLowerCase (s.alloc (Obj.record {})).2
      rawText (s.alloc (Obj.record {})).1 hnew
    refine ⟨?_, ?_, ?_⟩
    · show (enhancePromptBody toLowerCase (s.alloc (Obj.record {})).2 rawText
        (s.alloc (Obj.record {})).1).1 = _
      rw [h1, alloc_objects_same, alloc_objects_ne _ _ (by simp),
        alloc_objects_ne _ _ (by simp)]
      rfl
    · show s.next ≤ (enhancePromptBody toLowerCase (s.alloc (Obj.record {})).2 rawText
        (s.alloc (Obj.record {})).1).2.next
      have : (s.alloc (Obj.record {})).2.next = s.next + 1 := rfl
      omega
    · intro x hx
      show (enhancePromptBody toLowerCase (s.alloc (Obj.record {})).2 rawText
        (s.alloc (Obj.record {})).1).2.objects x = _
      rw [h3 x (allocated_mono hx (by show s.next ≤ s.next + 1; omega)),
        alloc_objects_of_allocated s _ hx]

theorem runGenerateCRISPE_spec (toLowerCase : Str → Str) (s : Store) (rawText : Option Str)
    (opts : Option Ref) (hopts : ∀ r, opts = some r → Allocated s r) :
    (runGenerateCRISPE toLowerCase s rawText opts).1 =
        generateCRISPE toLowerCase rawText (optionsOf s opts) ∧
      s.next ≤ (runGenerateCRISPE toLowerCase s rawText opts).2.next ∧
      ∀ x, Allocated s x → (runGenerateCRISPE toLowerCase s rawText opts).2.objects x =
        s.objects x := by
  cases opts with
  | some r => exact generateCRISPEBody_spec toLowerCase s rawText r (hopts r rfl)
  | none =>
    have hnew : Allocated (s.alloc (Obj.record {})).2 (s.alloc (Obj.record {})).1 := by
      show s.next < s.next + 1
      omega
    obtain ⟨h1, h2, h3⟩ := generateCRISPEBody_spec toLowerCase (s.alloc (Obj.record {})).2
      rawText (s.alloc (Obj.record {})).1 hnew
    refine ⟨?_, ?_, ?_⟩
    · show (generateCRISPEBody toLowerCase (s.alloc (Obj.record {})).2 rawText
        (s.alloc (Obj.record {})).1).1 = _
      rw [h1, alloc_objects_same]
      rfl
    · show s.next ≤ (generateCRISPEBody toLowerCase (s.alloc (Obj.record {})).2 rawText
        (s.alloc (Obj.record {})).1).2.next
      have : (s.alloc (Obj.record {})).2.next = s.next + 1 := rfl
      omega
    · intro x hx
      show (generateCRISPEBody toLowerCase (s.alloc (Obj.record {})).2 rawText
        (s.alloc (Obj.record {})).1).2.objects x = _
      rw [h3 x (allocated_mono hx (by show s.next ≤ s.next + 1; omega)),
        alloc_objects_of_allocated s _ hx]

theorem runCall_spec (toLowerCase : Str → Str) (s : Store) (c : Call)
    (hopts : ∀ r, c.opts = some r → Allocated s r) :
    s.next ≤ (runCall toLowerCase s c).2.next ∧
      ∀ x, Allocated s x → (runCall toLowerCase s c).2.objects x = s.objects x := by
  cases c with
  | enhancePrompt rawText opts => exact (runEnhancePrompt_spec toLowerCase s rawText opts hopts).2
  | generateCRISPE rawText opts =>
    exact (runGenerateCRISPE_spec toLowerCase s rawText opts hopts).2

theorem runCalls_spec (toLowerCase : Str → Str) (s : Store) (cs : List Call)
    (hopts : ∀ c ∈ cs, ∀ r, c.opts = some r → Allocated s r) :
    s.next ≤ (runCalls toLowerCase s cs).next ∧
      ∀ x, Allocated s x → (runCalls toLowerCase s cs).objects x = s.objects x := by
  induction cs generalizing s with
  | nil => exact ⟨le_refl _, fun _ _ => rfl⟩
  | cons c cs ih =>
    obtain ⟨h1, h2⟩ := runCall_spec toLowerCase s c (hopts c (List.mem_cons_self _ _))
    obtain ⟨i1, i2⟩ := ih (runCall toLowerCase s c).2
      (fun d hd r hr => allocated_mono (hopts d (List.mem_cons_of_mem _ hd) r hr) h1)
    refine ⟨le_trans h1 i1, fun x hx => ?_⟩
    show (runCalls toLowerCase (runCall toLowerCase s c).2 cs).objects x = _
    rw [i2 x (allocated_mono hx h1), h2 x hx]

theorem optionsOf_congr {s s' : Store} (opts : Option Ref)
    (hopts : ∀ r, opts = some r → Allocated s r)
    (h : ∀ x, Allocated s x → s'.objects x = s.objects x) :
    optionsOf s' opts = optionsOf s opts := by
  cases opts with
  | none => rfl
  | some r =>
    show (s'.objects r).asRecord = (s.objects r).asRecord
    rw [h r (hopts r rfl)]

/-- C23, as stated, fails: `enhancePrompt` reads `DEFAULTS`. Run with the same raw text and no
options on the store of the loaded module and on a store that differs from it only in the
record behind `DEFAULTS`, it returns two different strings. -/
theorem C23_enhancePrompt_reads_DEFAULTS_counterexample :
    (runEnhancePrompt asciiToLowerCase loadedStore (some "Plan a launch".toList) none).1 =
      "Provide a clear, professional response. Perform this task: \"Plan a launch\". Be concise and formal. Include examples if applicable. Format code blocks using triple backticks if including code.".toList ∧
    (runEnhancePrompt asciiToLowerCase
      (loadedStore.write Ref.DEFAULTS
        (Obj.record { style := some "creative".toList, aggressiveness := some 2 }))
      (some "Plan a launch".toList) none).1 =
      "Write with imaginative, expressive language. Perform this task: \"Plan a launch\". Use sensory details and unexpected turns. Add helpful assumptions where necessary, and propose follow-up questions the user might want to ask.".toList := by
  decide

/-- C23, amended. A call of `enhancePrompt` or of `generateCRISPE` leaves every object that
exists before it as it was, the records behind `DEFAULTS` and `styleTemplates` and the options
record of the caller among them: what it writes to it has created itself. The string
`generateCRISPE` returns is the one its raw text and the options record determine. The string
`enhancePrompt` returns is determined by its raw text, the options record and the two records
it reads, `DEFAULTS` and `styleTemplates`, and is the value of `enhancePrompt` when these hold
what the module puts in them. So a second call with the same arguments, after any calls of the
two composers in between, returns the string the first call returned. -/
theorem C23_composers_write_only_what_they_create (toLowerCase : Str → Str) (s : Store)
    (rawText : Option Str) (opts : Option Ref) (between : List Call)
    (hopts : ∀ r, opts = some r → Allocated s r)
    (hbetween : ∀ c ∈ between, ∀ r, c.opts = some r → Allocated s r) :
    (∀ x, Allocated s x →
      (runEnhancePrompt toLowerCase s rawText opts).2.objects x = s.objects x) ∧
    (∀ x, Allocated s x →
      (runGenerateCRISPE toLowerCase s rawText opts).2.objects x = s.objects x) ∧
    (runGenerateCRISPE toLowerCase s rawText opts).1 =
      generateCRISPE toLowerCase rawText (optionsOf s opts) ∧
    (runEnhancePrompt toLowerCase s rawText opts).1 =
      enhancePromptWith (s.objects Ref.DEFAULTS).asRecord
        (s.objects Ref.styleTemplates).asTemplates toLowerCase rawText (optionsOf s opts) ∧
    (s.objects Ref.DEFAULTS = Obj.record DEFAULTS →
      s.objects Ref.styleTemplates = Obj.templates styleTemplates →
      (runEnhancePrompt toLowerCase s rawText opts).1 =
        enhancePrompt toLowerCase rawText (optionsOf s opts)) ∧
    (runEnhancePrompt toLowerCase
        (runCalls toLowerCase (runEnhancePrompt toLowerCase s rawText opts).2 between)
        rawText opts).1 =
      (runEnhancePrompt toLowerCase s rawText opts).1 ∧
    (runGenerateCRISPE toLowerCase
        (runCalls toLowerCase (runGenerateCRISPE toLowerCase s rawText opts).2 between)
        rawText opts).1 =
      (runGenerateCRISPE toLowerCase s rawText opts).1 := by
  obtain ⟨e1, e2, e3⟩ := runEnhancePrompt_spec toLowerCase s rawText opts hopts
  obtain ⟨g1, g2, g3⟩ := runGenerateCRISPE_spec toLowerCase s rawText opts hopts
  refine ⟨e3, g3, g1, e1, ?_, ?_, ?_⟩
  · intro hD hT
    rw [e1, hD, hT]
    exact enhancePromptWith_loaded toLowerCase rawText (optionsOf s opts)
  · obtain ⟨c1, c2⟩ := runCalls_spec toLowerCase
      (runEnhancePrompt toLowerCase s rawText opts).2 between
      (fun c hc r hr => allocated_mono (hbetween c hc r hr) e2)
    have hfr : ∀ x, Allocated s x →
        (runCalls toLowerCase (runEnhancePrompt toLowerCase s rawText opts).2 between).objects x =
          s.objects x := fun x hx => by
      rw [c2 x (allocated_mono hx e2), e3 x hx]
    rw [(runEnhancePrompt_spec toLowerCase _ rawText opts
      (fun r hr => allocated_mono (hopts r hr) (le_trans e2 c1))).1, e1,
      hfr _ (by trivial : Allocated s Ref.DEFAULTS),
      hfr _ (by trivial : Allocated s Ref.styleTemplates), optionsOf_congr opts hopts hfr]
  · obtain ⟨c1, c2⟩ := runCalls_spec toLowerCase
      (runGenerateCRISPE toLowerCase s rawText opts).2 between
      (fun c hc r hr => allocated_mono (hbetween c hc r hr) g2)
    have hfr : ∀ x, Allocated s x →
        (runCalls toLowerCase (runGenerateCRISPE toLowerCase s rawText opts).2
          between).objects x = s.objects x := fun x hx => by
      rw [c2 x (allocated_mono hx g2), g3 x hx]
    rw [(runGenerateCRISPE_spec toLowerCase _ rawText opts
      (fun r hr => allocated_mono (hopts r hr) (le_trans g2 c1))).1, g1,
      optionsOf_congr opts hopts hfr]

/-- A store in which the caller has created an options record with the style `creative`: two
calls of `enhancePrompt` with that record, a call of `generateCRISPE` in between, return the
same string, and the record is left as it was. -/
theorem C23_composers_witness :
    Allocated (loadedStore.alloc (Obj.record { style := some "creative".toList })).2
      (Ref.object 0) ∧
    (runEnhancePrompt asciiToLowerCase
        (runCalls asciiToLowerCase
          (runEnhancePrompt asciiToLowerCase
            (loadedStore.alloc (Obj.record { style := some "creative".toList })).2
            (some "Plan a launch".toList) (some (Ref.object 0))).2
          [Call.generateCRISPE (some "Write a poem".toList) none])
        (some "Plan a launch".toList) (some (Ref.object 0))).1 =
      (runEnhancePrompt asciiToLowerCase
        (loadedStore.alloc (Obj.record { style := some "creative".toList })).2
        (some "Plan a launch".toList) (some (Ref.object 0))).1 ∧
    (runEnhancePrompt asciiToLowerCase
        (loadedStore.alloc (Obj.record { style := some "creative".toList })).2
        (some "Plan a launch".toList) (some (Ref.object 0))).2.objects (Ref.object 0) =
      Obj.record { style := some "creative".toList } :=
  ⟨Nat.zero_lt_one,
    (C23_composers_write_only_what_they_create asciiToLowerCase
      (loadedStore.alloc (Obj.record { style := some "creative".toList })).2
      (some "Plan a launch".toList) (some (Ref.object 0))
      [Call.generateCRISPE (some "Write a poem".toList) none]
      (fun r h => by cases h; exact Nat.zero_lt_one)
      (fun c hc r h => by
        simp only [List.mem_singleton] at hc
        subst hc
        cases h)).2.2.2.2.2.1,
    ((C23_composers_write_only_what_they_create asciiToLowerCase
      (loadedStore.alloc (Obj.record { style := some "creative".toList })).2
      (some "Plan a launch".toList) (some (Ref.object 0))
      [Call.generateCRISPE (some "Write a poem".toList) none]
      (fun r h => by cases h; exact Nat.zero_lt_one)
      (fun c hc r h => by
        simp only [List.mem_singleton] at hc
        subst hc
        cases h)).1 (Ref.object 0) Nat.zero_lt_one).trans rfl⟩

end PromptGenius
